import Mathlib

/-!
# Light-transport kernel of atrc: SPPM statistics, visible-point grid, Disney lobes

A shallow embedding of `photon_mapping.cpp` and `disney_reflection.cpp`.

Conventions of the embedding.

* `real` (`float` in `common.h`) is an arbitrary linearly ordered field `R`,
  that is, arithmetic is exact.  The definitions are computable and can be
  evaluated at `R = ℚ`.
* `std::sqrt` is a library function; it is a parameter `sqrt : R → R` of the
  functions that call it.
* A spectrum channel is a `Chan R`: an exact value or a non-finite one
  (NaN or an infinity), because the code tests spectra with `is_finite`.
* Pixels live in a store `Nat → Pixel R`; a `Pixel *` is an index into it.
  A bucket of the hashed grid (a `VPNode` chain) is a `List VPNode`.
* Dereferencing a null BSDF pointer is a fault: the function returns `none`.
-/

namespace Atrc

/-! ## Basic values -/

/-- One channel of a spectrum: an exact value or a non-finite one. -/
inductive Chan (R : Type) where
  | fin (v : R)
  | nonfin
  deriving DecidableEq, Repr

namespace Chan

variable {R : Type}

/-- Test `std::isfinite` on one channel. -/
def is_finite : Chan R → Bool
  | fin _ => true
  | nonfin => false

/-- Addition of channels; a non-finite operand gives a non-finite sum. -/
def add [Add R] : Chan R → Chan R → Chan R
  | fin a, fin b => fin (a + b)
  | _, _ => nonfin

/-- Product of channels; a non-finite operand gives a non-finite product. -/
def mul [Mul R] : Chan R → Chan R → Chan R
  | fin a, fin b => fin (a * b)
  | _, _ => nonfin

/-- Product of a channel with a scalar. -/
def scale [Mul R] : Chan R → R → Chan R
  | fin a, k => fin (a * k)
  | nonfin, _ => nonfin

/-- Quotient of a channel by a scalar; dividing by zero gives a non-finite value. -/
def divs [Div R] [Zero R] [DecidableEq R] : Chan R → R → Chan R
  | fin a, k => if k = 0 then nonfin else fin (a / k)
  | nonfin, _ => nonfin

instance [Add R] : Add (Chan R) := ⟨add⟩
instance [Mul R] : Mul (Chan R) := ⟨mul⟩
instance [Zero R] : Zero (Chan R) := ⟨fin 0⟩

end Chan

/-- The type `FSpectrum`: three channels, arithmetic is component-wise. -/
structure FSpectrum (R : Type) where
  r : Chan R
  g : Chan R
  b : Chan R
  deriving DecidableEq, Repr

namespace FSpectrum

variable {R : Type}

/-- The constructor `FSpectrum(v)`: the same value in every channel. -/
def splat (v : R) : FSpectrum R := ⟨Chan.fin v, Chan.fin v, Chan.fin v⟩

/-- The method `is_finite()`: no NaN and no infinity in any channel. -/
def is_finite (s : FSpectrum R) : Bool :=
  s.r.is_finite && s.g.is_finite && s.b.is_finite

/-- Component-wise sum. -/
def add [Add R] (s t : FSpectrum R) : FSpectrum R := ⟨s.r + t.r, s.g + t.g, s.b + t.b⟩

/-- Component-wise product. -/
def mul [Mul R] (s t : FSpectrum R) : FSpectrum R := ⟨s.r * t.r, s.g * t.g, s.b * t.b⟩

/-- Product with a scalar, `s * k`. -/
def scale [Mul R] (s : FSpectrum R) (k : R) : FSpectrum R :=
  ⟨s.r.scale k, s.g.scale k, s.b.scale k⟩

/-- Quotient by a scalar, `s / k`. -/
def divs [Div R] [Zero R] [DecidableEq R] (s : FSpectrum R) (k : R) : FSpectrum R :=
  ⟨s.r.divs k, s.g.divs k, s.b.divs k⟩

/-- Channel access `s[i]` for `i < SPECTRUM_COMPONENT_COUNT`. -/
def get (s : FSpectrum R) (i : Fin 3) : Chan R :=
  match i with
  | 0 => s.r
  | 1 => s.g
  | 2 => s.b

instance [Add R] : Add (FSpectrum R) := ⟨add⟩
instance [Mul R] : Mul (FSpectrum R) := ⟨mul⟩
instance [Zero R] : Zero (FSpectrum R) := ⟨splat 0⟩

end FSpectrum

/-- The type `FVec3`: a point or direction with three exact coordinates. -/
structure FVec3 (R : Type) where
  x : R
  y : R
  z : R
  deriving DecidableEq, Repr

namespace FVec3

variable {R : Type}

/-- The constructor `FVec3(v)`: the same value in every coordinate. -/
def splat (v : R) : FVec3 R := ⟨v, v, v⟩

instance [Add R] : Add (FVec3 R) := ⟨fun a b => ⟨a.x + b.x, a.y + b.y, a.z + b.z⟩⟩
instance [Sub R] : Sub (FVec3 R) := ⟨fun a b => ⟨a.x - b.x, a.y - b.y, a.z - b.z⟩⟩

end FVec3

/-- Squared Euclidean distance `distance2(a, b)`. -/
def distance2 {R : Type} [Add R] [Sub R] [Mul R] (a b : FVec3 R) : R :=
  (a.x - b.x) * (a.x - b.x) + (a.y - b.y) * (a.y - b.y) + (a.z - b.z) * (a.z - b.z)

/-- The type `Vec3i`: an integer grid cell. -/
structure Vec3i where
  x : Int
  y : Int
  z : Int
  deriving DecidableEq, Repr

/-- The enum `TransMode`: what a path carries. -/
inductive TransMode where
  | Radiance
  | Importance
  deriving DecidableEq, Repr

/-! ## `DisneyBRDF`: construction and lobe selection -/

/-- The struct `SampleWeights` of `DisneyBRDF`. -/
structure SampleWeights (R : Type) where
  wd : R
  ws : R
  wc : R
  deriving DecidableEq, Repr

/-- The default member initialiser of `SampleWeights`: `wd = 0, ws = 0, wc = 0`. -/
def SampleWeights.init {R : Type} [Zero R] : SampleWeights R := ⟨0, 0, 0⟩

/-- The helper `math::mix(left, right, factor)`: linear interpolation. -/
def mix {R : Type} [One R] [Add R] [Sub R] [Mul R] (left right factor : R) : R :=
  (1 - factor) * left + factor * right

/-- The data members of `DisneyBRDF` (the two coordinate frames of the base
class `LocalBSDF` are not used by the constructor body and are left out). -/
structure DisneyBRDF (R : Type) where
  base_color : R × R × R
  metallic : R
  subsurface : R
  specular : R
  specular_tint : R
  roughness : R
  anisotropic : R
  sheen : R
  sheen_tint : R
  clearcoat : R
  ax : R
  ay : R
  clearcoat_roughness : R
  sample_weights : SampleWeights R

/-- The constructor `DisneyBRDF::DisneyBRDF`.  The member `sample_weights_`
still holds its default initialiser while `ws` and `wc` are computed; it is
assigned in the last statement. -/
def DisneyBRDF.construct {R : Type} [LinearOrderedField R] (sqrt : R → R)
    (base_color : R × R × R)
    (metallic subsurface specular specular_tint roughness anisotropic sheen sheen_tint
      clearcoat clearcoat_gloss : R) : DisneyBRDF R :=
  let sample_weights_ : SampleWeights R := SampleWeights.init
  let aspect : R := if anisotropic > 0 then sqrt (1 - 9 / 10 * anisotropic) else 1
  let ax := roughness * roughness / aspect
  let ay := roughness * roughness * aspect
  let clearcoat_roughness := mix (1 / 10) (1 / 100) clearcoat_gloss
  let wd := min (4 / 5) (1 - metallic)
  let ws := (1 - sample_weights_.wd) * 2 / (2 + clearcoat)
  let wc := (1 - sample_weights_.wd) * clearcoat / (2 + clearcoat)
  { base_color := base_color
    metallic := metallic
    subsurface := subsurface
    specular := specular
    specular_tint := specular_tint
    roughness := roughness
    anisotropic := anisotropic
    sheen := sheen
    sheen_tint := sheen_tint
    clearcoat := clearcoat
    ax := ax
    ay := ay
    clearcoat_roughness := clearcoat_roughness
    sample_weights := ⟨wd, ws, wc⟩ }

/-- The lobe whose importance sampler `DisneyBRDF::sample` runs. -/
inductive Lobe where
  | diffuse
  | specular
  | clearcoat
  deriving DecidableEq, Repr

/-- The branch taken by the `if / else if / else` of `DisneyBRDF::sample`
on the first sample component `sam.u`. -/
def DisneyBRDF.sample_lobe {R : Type} [LinearOrderedField R] (self : DisneyBRDF R) (u : R) : Lobe :=
  if u < self.sample_weights.wd then Lobe.diffuse
  else if u - self.sample_weights.wd < self.sample_weights.ws then Lobe.specular
  else Lobe.clearcoat

/-- The weight by which `DisneyBRDF::pdf` multiplies the density of a lobe. -/
def DisneyBRDF.pdf_weight {R : Type} (self : DisneyBRDF R) : Lobe → R
  | Lobe.diffuse => self.sample_weights.wd
  | Lobe.specular => self.sample_weights.ws
  | Lobe.clearcoat => self.sample_weights.wc

/-! ## SPPM pixels and the statistics update -/

/-- The struct `Pixel::VisiblePoint`; `bsdf` is a handle into the arena of the
current camera pass, `none` being the null pointer. -/
structure VisiblePoint (R : Type) where
  pos : FVec3 R
  coef : FSpectrum R
  wr : FVec3 R
  bsdf : Option Nat

/-- The method `VisiblePoint::is_valid`: the BSDF pointer is not null. -/
def VisiblePoint.is_valid {R : Type} (vp : VisiblePoint R) : Bool := vp.bsdf.isSome

/-- The struct `Pixel`: per-pixel accumulators of the SPPM driver. -/
structure Pixel (R : Type) where
  vp : VisiblePoint R
  radius : R
  N : R
  M : Int
  phi : FSpectrum R
  tau : FSpectrum R
  direct_illum : FSpectrum R

/-- The body of the node loop of `add_photon` once both tests have passed:
`atomic_add(pixel.phi[i], delta_phi[i])` for the three channels, then `++pixel.M`. -/
def Pixel.deposit {R : Type} [Add R] (pixel : Pixel R) (delta_phi : FSpectrum R) : Pixel R :=
  { pixel with
    phi := ⟨pixel.phi.get 0 + delta_phi.get 0, pixel.phi.get 1 + delta_phi.get 1,
      pixel.phi.get 2 + delta_phi.get 2⟩
    M := pixel.M + 1 }

/-- The function `update_pixel_params(alpha, pixel)`.  The leading `assert` on the
validity of the visible point is a precondition and does not alter the pixel. -/
def update_pixel_params {R : Type} [LinearOrderedField R] (sqrt : R → R)
    (alpha : R) (pixel : Pixel R) : Pixel R :=
  let pixel1 : Pixel R :=
    if pixel.M > 0 then
      let new_N := pixel.N + alpha * (pixel.M : R)
      let new_R := pixel.radius * sqrt (new_N / (pixel.N + (pixel.M : R)))
      let phi : FSpectrum R := ⟨pixel.phi.get 0, pixel.phi.get 1, pixel.phi.get 2⟩
      let tau := ((pixel.tau + pixel.vp.coef * phi).scale (new_R * new_R)).divs
        (pixel.radius * pixel.radius)
      { pixel with tau := tau, N := new_N, radius := new_R, M := 0, phi := FSpectrum.splat 0 }
    else pixel
  { pixel1 with vp := { pixel1.vp with coef := FSpectrum.splat 0, bsdf := none } }

/-! ## `VisiblePointSearcher` -/

/-- The struct `VPNode`; the `next` pointer is the tail of the bucket list. -/
structure VPNode where
  pixel : Nat
  deriving DecidableEq, Repr

/-- The member `hashed_grid_aux_`: the three position and cell maps that the
searcher calls (the class itself is declared outside the shown sources). -/
structure HashedGridAux (R : Type) where
  pos_to_grid : FVec3 R → Vec3i
  grid_to_entry : Vec3i → Nat
  pos_to_entry : FVec3 R → Nat

/-- The class `VisiblePointSearcher`: the grid maps and one bucket list per entry. -/
structure VisiblePointSearcher (R : Type) where
  hashed_grid_aux : HashedGridAux R
  node_entry_count : Nat
  node_entries : Nat → List VPNode

/-- The method `VisiblePointSearcher::clear`: every bucket becomes empty. -/
def VisiblePointSearcher.clear {R : Type} (self : VisiblePointSearcher R) :
    VisiblePointSearcher R :=
  { self with node_entries := fun _ => [] }

/-- The innermost statements of `add_vp`: a new node for `pixel` whose `next` is the
current head of bucket `entry_idx` becomes the head of that bucket. -/
def VisiblePointSearcher.push {R : Type} (self : VisiblePointSearcher R)
    (entry_idx : Nat) (pixel : Nat) : VisiblePointSearcher R :=
  { self with
    node_entries := Function.update self.node_entries entry_idx
      (⟨pixel⟩ :: self.node_entries entry_idx) }

/-- The values taken by a loop `for(int v = lo; v <= hi; ++v)`. -/
def loop_range (lo hi : Int) : List Int :=
  (List.range (hi + 1 - lo).toNat).map (fun (i : Nat) => lo + (i : Int))

/-- The method `VisiblePointSearcher::add_vp(pixel, arena)` for the pixel stored at
index `pixel` of the store `pixels`. -/
def VisiblePointSearcher.add_vp {R : Type} [Add R] [Sub R] (self : VisiblePointSearcher R)
    (pixels : Nat → Pixel R) (pixel : Nat) : VisiblePointSearcher R :=
  let px := pixels pixel
  let min_grid := self.hashed_grid_aux.pos_to_grid (px.vp.pos - FVec3.splat px.radius)
  let max_grid := self.hashed_grid_aux.pos_to_grid (px.vp.pos + FVec3.splat px.radius)
  (loop_range min_grid.z max_grid.z).foldl (fun s z =>
    (loop_range min_grid.y max_grid.y).foldl (fun s y =>
      (loop_range min_grid.x max_grid.x).foldl (fun s x =>
        s.push (self.hashed_grid_aux.grid_to_entry ⟨x, y, z⟩) pixel) s) s) self

/-- The node loop of `add_photon`, started at the head of a bucket.  `bsdf_eval b`
is the method `eval` of the BSDF behind handle `b`. -/
def add_photon_walk {R : Type} [LinearOrderedField R]
    (bsdf_eval : Nat → FVec3 R → FVec3 R → TransMode → FSpectrum R)
    (photon_pos : FVec3 R) (phi : FSpectrum R) (wr : FVec3 R) :
    List VPNode → (Nat → Pixel R) → Option (Nat → Pixel R)
  | [], pixels => some pixels
  | node :: next, pixels =>
    let pixel := pixels node.pixel
    if distance2 pixel.vp.pos photon_pos > pixel.radius * pixel.radius then
      add_photon_walk bsdf_eval photon_pos phi wr next pixels
    else
      match pixel.vp.bsdf with
      | none => none
      | some b =>
        let delta_phi := phi * bsdf_eval b wr pixel.vp.wr TransMode.Radiance
        if !delta_phi.is_finite then
          add_photon_walk bsdf_eval photon_pos phi wr next pixels
        else
          add_photon_walk bsdf_eval photon_pos phi wr next
            (Function.update pixels node.pixel (pixel.deposit delta_phi))

/-- The method `VisiblePointSearcher::add_photon(photon_pos, phi, wr)`. -/
def VisiblePointSearcher.add_photon {R : Type} [LinearOrderedField R]
    (self : VisiblePointSearcher R)
    (bsdf_eval : Nat → FVec3 R → FVec3 R → TransMode → FSpectrum R)
    (photon_pos : FVec3 R) (phi : FSpectrum R) (wr : FVec3 R)
    (pixels : Nat → Pixel R) : Option (Nat → Pixel R) :=
  let entry_index := self.hashed_grid_aux.pos_to_entry photon_pos
  add_photon_walk bsdf_eval photon_pos phi wr (self.node_entries entry_index) pixels

/-! ## Notions used to state the properties -/

/-- The arguments of one `add_photon` call. -/
structure Photon (R : Type) where
  pos : FVec3 R
  flux : FSpectrum R
  wr : FVec3 R

/-- The photon pass seen by the pixel store: `add_photon` for each photon of a list,
in list order. -/
def deposit_photons {R : Type} [LinearOrderedField R] (s : VisiblePointSearcher R)
    (bsdf_eval : Nat → FVec3 R → FVec3 R → TransMode → FSpectrum R)
    (photons : List (Photon R)) (pixels : Nat → Pixel R) : Option (Nat → Pixel R) :=
  photons.foldlM (fun px ph => s.add_photon bsdf_eval ph.pos ph.flux ph.wr px) pixels

/-- Number of nodes of a bucket that reference pixel `i`. -/
def node_count (bucket : List VPNode) (i : Nat) : Nat :=
  (bucket.filter (fun node => node.pixel = i)).length

/-- A node on which `add_photon` faults: its pixel passes the radius test and has a
null BSDF pointer. -/
def node_faults {R : Type} [LinearOrderedField R] (photon_pos : FVec3 R)
    (pixels : Nat → Pixel R) (node : VPNode) : Bool :=
  decide (¬ distance2 (pixels node.pixel).vp.pos photon_pos
      > (pixels node.pixel).radius * (pixels node.pixel).radius)
    && (pixels node.pixel).vp.bsdf.isNone

/-- The change made to one pixel by `k` nodes that reference it: if the photon passes
the radius test and the contribution `delta_phi` is finite, `phi` grows by `k` times
`delta_phi` and `M` by `k`; otherwise the pixel is as before. -/
def photon_effect {R : Type} [LinearOrderedField R]
    (bsdf_eval : Nat → FVec3 R → FVec3 R → TransMode → FSpectrum R)
    (photon_pos : FVec3 R) (phi : FSpectrum R) (wr : FVec3 R) (k : Nat)
    (pixel : Pixel R) : Pixel R :=
  if distance2 pixel.vp.pos photon_pos > pixel.radius * pixel.radius then pixel
  else
    match pixel.vp.bsdf with
    | none => pixel
    | some b =>
      if !(phi * bsdf_eval b wr pixel.vp.wr TransMode.Radiance).is_finite then pixel
      else
        { pixel with
          phi := pixel.phi + (phi * bsdf_eval b wr pixel.vp.wr TransMode.Radiance).scale (k : R)
          M := pixel.M + (k : Int) }

/-- A pixel for concrete checks: visible point at the origin with BSDF handle `0`,
radius `1`, flux `1` in every channel of `phi`, and the given `N` and `M`. -/
def sample_pixel {R : Type} [Zero R] [One R] (N : R) (M : Int) : Pixel R :=
  { vp := ⟨⟨0, 0, 0⟩, FSpectrum.splat 1, ⟨0, 0, 1⟩, some 0⟩
    radius := 1
    N := N
    M := M
    phi := FSpectrum.splat 1
    tau := FSpectrum.splat 0
    direct_illum := FSpectrum.splat 0 }

/-- A grid for concrete checks: unit cells and eight buckets. -/
def sample_grid : HashedGridAux ℚ :=
  { pos_to_grid := fun q => ⟨⌊q.x⌋, ⌊q.y⌋, ⌊q.z⌋⟩
    grid_to_entry := fun c => ((c.x + 31 * c.y + 97 * c.z) % 8).toNat
    pos_to_entry := fun q => ((⌊q.x⌋ + 31 * ⌊q.y⌋ + 97 * ⌊q.z⌋) % 8).toNat }

/-- A searcher for concrete checks: `sample_grid` with the given bucket lists. -/
def sample_searcher (node_entries : Nat → List VPNode) : VisiblePointSearcher ℚ :=
  { hashed_grid_aux := sample_grid
    node_entry_count := 8
    node_entries := node_entries }

/-- A BSDF table for concrete checks: handle `0` evaluates to `1` in every channel,
every other handle to a spectrum with a non-finite red channel. -/
def sample_eval : Nat → FVec3 ℚ → FVec3 ℚ → TransMode → FSpectrum ℚ :=
  fun b _ _ _ => if b = 0 then FSpectrum.splat 1 else ⟨Chan.nonfin, Chan.fin 1, Chan.fin 1⟩

/-- A pixel store for concrete checks: pixel `0` has BSDF handle `0`, every other pixel
BSDF handle `1`; all sit at the origin with radius `1`. -/
def sample_pixels (i : Nat) : Pixel ℚ :=
  if i = 0 then sample_pixel 0 0
  else { sample_pixel 0 0 with vp := ⟨⟨0, 0, 0⟩, FSpectrum.splat 1, ⟨0, 0, 1⟩, some 1⟩ }

/-- Bucket lists for concrete checks: bucket `0` holds a node of pixel `0`, then a node
of pixel `1`, then a second node of pixel `0`; the other buckets are empty. -/
def sample_entries (e : Nat) : List VPNode :=
  if e = 0 then [⟨0⟩, ⟨1⟩, ⟨0⟩] else []

/-- One iteration seen by a single pixel: the camera pass stores a visible point,
the photon pass makes the deposits `deltas`, then the statistics update runs. -/
def pixel_iteration {R : Type} [LinearOrderedField R] (sqrt : R → R) (alpha : R)
    (pixel : Pixel R) (it : VisiblePoint R × List (FSpectrum R)) : Pixel R :=
  update_pixel_params sqrt alpha (it.2.foldl Pixel.deposit { pixel with vp := it.1 })

/-! ## The camera pass: `tracer_vp` -/

/-- The struct `Sample1`. -/
structure Sample1 (R : Type) where
  u : R
  deriving DecidableEq

/-- The struct `Sample3`. -/
structure Sample3 (R : Type) where
  u : R
  v : R
  w : R
  deriving DecidableEq

/-- The struct `Sample5`. -/
structure Sample5 (R : Type) where
  u : R
  v : R
  w : R
  r : R
  s : R
  deriving DecidableEq

/-- The class `Ray` of `common.h`; `t_max = none` stands for `REAL_INF`. -/
structure Ray (R : Type) where
  o : FVec3 R
  d : FVec3 R
  t_min : R
  t_max : Option R
  deriving DecidableEq

/-- The constructor `Ray(o, d, t_min = 0, t_max = REAL_INF)`. -/
def Ray.make {R : Type} (o d : FVec3 R) (t_min : R) : Ray R := ⟨o, d, t_min, none⟩

/-- The fields of `EntityIntersection` that the renderer reads; `entity` and `material`
are handles, `geometry_coord_z` is `geometry_coord.z`. -/
structure EntityIntersection (R : Type) where
  pos : FVec3 R
  wr : FVec3 R
  geometry_coord_z : FVec3 R
  uv : R × R
  entity : Nat
  material : Nat
  deriving DecidableEq

/-- The struct `ShadingPoint`: a BSDF handle and the shading normal. -/
structure ShadingPoint (R : Type) where
  bsdf : Nat
  shading_normal : FVec3 R
  deriving DecidableEq

/-- The struct `BSDFSampleResult`, with the spectrum type `S` of the weighting factor. -/
structure BSDFSampleResult (S : Type) (R : Type) where
  dir : FVec3 R
  f : S
  pdf : R
  is_delta : Bool
  deriving DecidableEq

/-- The result of `Light::sample_emit`. -/
structure LightEmitResult (R : Type) where
  pos : FVec3 R
  dir : FVec3 R
  nor : FVec3 R
  radiance : FSpectrum R
  pdf_pos : R
  pdf_dir : R
  deriving DecidableEq

/-- The struct `GBufferPixel`: the auxiliary buffers of one pixel. -/
structure GBufferPixel (R : Type) where
  albedo : FSpectrum R
  normal : FVec3 R
  denoise : R
  deriving DecidableEq

/-- The test `!s` on a spectrum: every channel equals zero. -/
def FSpectrum.is_black {R : Type} [Zero R] [DecidableEq R] (s : FSpectrum R) : Bool :=
  decide (s.r = Chan.fin 0) && decide (s.g = Chan.fin 0) && decide (s.b = Chan.fin 0)

/-- The collaborators of the renderer that are outside the shown sources: the scene,
the lights, the entities, the materials and their BSDFs, the two MIS estimators of
`direct_illum.h`, the sampler (a state of type `Smp` read by `sample1`, `sample3`,
`sample5`), the cosine of the angle between two vectors, and `EPS()`.  Lights, entities
and BSDFs are handles. -/
structure SceneEnv (R : Type) (Smp : Type) where
  closest_intersection : Ray R → Option (EntityIntersection R)
  envir_light : Option Nat
  lights : List Nat
  sample_light : Sample1 R → Option Nat × R
  envir_radiance : Nat → FVec3 R → FVec3 R → FSpectrum R
  area_radiance : Nat → FVec3 R → FVec3 R → R × R → FVec3 R → FSpectrum R
  sample_emit : Nat → Sample5 R → LightEmitResult R
  as_light : Nat → Option Nat
  get_no_denoise_flag : Nat → Bool
  shade : EntityIntersection R → ShadingPoint R
  eps_offset : EntityIntersection R → FVec3 R → FVec3 R
  bsdf_albedo : Nat → FSpectrum R
  bsdf_has_diffuse_component : Nat → Bool
  bsdf_sample : Nat → FVec3 R → TransMode → Sample3 R → BSDFSampleResult (FSpectrum R) R
  bsdf_eval : Nat → FVec3 R → FVec3 R → TransMode → FSpectrum R
  mis_sample_light : Nat → EntityIntersection R → ShadingPoint R → Smp → FSpectrum R × Smp
  mis_sample_bsdf : EntityIntersection R → ShadingPoint R → Smp → FSpectrum R × Smp
  sample1 : Smp → Sample1 R × Smp
  sample3 : Smp → Sample3 R × Smp
  sample5 : Smp → Sample5 R × Smp
  cos : FVec3 R → FVec3 R → R
  EPS : R

deriving instance DecidableEq for VisiblePoint

deriving instance DecidableEq for Photon

/-- The invalid visible point `{ {}, {}, {}, nullptr }`. -/
def VisiblePoint.invalid {R : Type} [Zero R] : VisiblePoint R :=
  ⟨⟨0, 0, 0⟩, FSpectrum.splat 0, ⟨0, 0, 0⟩, none⟩

/-- What `tracer_vp` leaves behind: the returned visible point, the reference argument
`direct_illum`, the G-buffer pixel behind `gpixel` (`none` for a null pointer) and the
sampler. -/
structure TracerVpResult (R : Type) (Smp : Type) where
  vp : VisiblePoint R
  direct_illum : FSpectrum R
  gpixel : Option (GBufferPixel R)
  sampler : Smp
  deriving DecidableEq

/-- The variables of the loop of `tracer_vp` at the head of an iteration. -/
structure TracerVpState (R : Type) (Smp : Type) where
  depth : Int
  ray : Ray R
  coef : FSpectrum R
  direct_illum : FSpectrum R
  gpixel : Option (GBufferPixel R)
  sampler : Smp
  deriving DecidableEq

/-- The statements of `tracer_vp` headed "direct illumination from next vertex", up to
the value of `sum_di`: `direct_illum_spv` rounds, each adding one `mis_sample_light` per
scene light and one `mis_sample_bsdf`. -/
def sum_direct_illum {R : Type} [LinearOrderedField R] {Smp : Type} (env : SceneEnv R Smp)
    (direct_illum_spv : Int) (inct : EntityIntersection R) (shd : ShadingPoint R)
    (sampler : Smp) : FSpectrum R × Smp :=
  (List.range direct_illum_spv.toNat).foldl
    (fun (acc : FSpectrum R × Smp) (_ : Nat) =>
      let acc1 := env.lights.foldl
        (fun (a : FSpectrum R × Smp) (l : Nat) =>
          (a.1 + (env.mis_sample_light l inct shd a.2).1, (env.mis_sample_light l inct shd a.2).2))
        acc
      (acc1.1 + (env.mis_sample_bsdf inct shd acc1.2).1, (env.mis_sample_bsdf inct shd acc1.2).2))
    (FSpectrum.splat 0, sampler)

/-- The factor `bsdf_sample.f / bsdf_sample.pdf * std::abs(cos(geometry_coord.z, dir))` by
which both tracers multiply their throughput at a bounce. -/
def bounce_factor {R : Type} [LinearOrderedField R] {Smp : Type} (env : SceneEnv R Smp)
    (inct : EntityIntersection R) (bsdf_sample : BSDFSampleResult (FSpectrum R) R) :
    FSpectrum R :=
  (bsdf_sample.f.divs bsdf_sample.pdf).scale |env.cos inct.geometry_coord_z bsdf_sample.dir|

/-- One iteration of the loop of `tracer_vp`: `Sum.inl` is a `return`, `Sum.inr` the
variables at the head of the next iteration. -/
def tracer_vp_body {R : Type} [LinearOrderedField R] {Smp : Type} (env : SceneEnv R Smp)
    (max_fwd_depth direct_illum_spv : Int) (st : TracerVpState R Smp) :
    TracerVpResult R Smp ⊕ TracerVpState R Smp :=
  match env.closest_intersection st.ray with
  | none =>
    let direct_illum :=
      if st.depth = 0 then
        match env.envir_light with
        | some e => st.direct_illum + st.coef * env.envir_radiance e st.ray.o st.ray.d
        | none => st.direct_illum
      else st.direct_illum
    Sum.inl ⟨VisiblePoint.invalid, direct_illum, st.gpixel, st.sampler⟩
  | some inct =>
    let shd := env.shade inct
    let gpixel :=
      if st.depth = 0 then
        st.gpixel.map (fun _ =>
          { albedo := env.bsdf_albedo shd.bsdf
            normal := shd.shading_normal
            denoise := if env.get_no_denoise_flag inct.entity then 0 else 1 })
      else st.gpixel
    let direct_illum1 :=
      if st.depth = 0 then
        match env.as_light inct.entity with
        | some l => st.direct_illum
            + st.coef * env.area_radiance l inct.pos inct.geometry_coord_z inct.uv inct.wr
        | none => st.direct_illum
      else st.direct_illum
    let sum_di := sum_direct_illum env direct_illum_spv inct shd st.sampler
    let direct_illum := direct_illum1 + (st.coef * sum_di.1).divs (direct_illum_spv : R)
    if env.bsdf_has_diffuse_component shd.bsdf || decide (st.depth = max_fwd_depth - 1) then
      if !st.coef.is_finite then
        Sum.inl ⟨VisiblePoint.invalid, direct_illum, gpixel, sum_di.2⟩
      else
        Sum.inl ⟨⟨inct.pos, st.coef, inct.wr, some shd.bsdf⟩, direct_illum, gpixel, sum_di.2⟩
    else
      let sam := env.sample3 sum_di.2
      let bsdf_sample := env.bsdf_sample shd.bsdf inct.wr TransMode.Radiance sam.1
      if bsdf_sample.f.is_black then
        Sum.inl ⟨VisiblePoint.invalid, direct_illum, gpixel, sam.2⟩
      else
        Sum.inr
          { depth := st.depth + 1
            ray := Ray.make (env.eps_offset inct bsdf_sample.dir) bsdf_sample.dir 0
            coef := st.coef * bounce_factor env inct bsdf_sample
            direct_illum := direct_illum
            gpixel := gpixel
            sampler := sam.2 }

/-- The loop `for(int depth = 0; depth < max_fwd_depth; ++depth)` of `tracer_vp` and the
`return` after it, with `fuel` bounding the number of iterations. -/
def tracer_vp_loop {R : Type} [LinearOrderedField R] {Smp : Type} (env : SceneEnv R Smp)
    (max_fwd_depth direct_illum_spv : Int) :
    Nat → TracerVpState R Smp → TracerVpResult R Smp
  | 0, st => ⟨VisiblePoint.invalid, st.direct_illum, st.gpixel, st.sampler⟩
  | fuel + 1, st =>
    if st.depth < max_fwd_depth then
      match tracer_vp_body env max_fwd_depth direct_illum_spv st with
      | Sum.inl res => res
      | Sum.inr st1 => tracer_vp_loop env max_fwd_depth direct_illum_spv fuel st1
    else ⟨VisiblePoint.invalid, st.direct_illum, st.gpixel, st.sampler⟩

/-- The function `tracer_vp`; the loop makes at most `max_fwd_depth` iterations, which is
the fuel it is given. -/
def tracer_vp {R : Type} [LinearOrderedField R] {Smp : Type} (env : SceneEnv R Smp)
    (max_fwd_depth direct_illum_spv : Int) (r : Ray R) (init_coef : FSpectrum R)
    (sampler : Smp) (gpixel : Option (GBufferPixel R)) (direct_illum : FSpectrum R) :
    TracerVpResult R Smp :=
  tracer_vp_loop env max_fwd_depth direct_illum_spv max_fwd_depth.toNat
    { depth := 0, ray := r, coef := init_coef, direct_illum := direct_illum,
      gpixel := gpixel, sampler := sampler }

/-! ## The photon pass: `trace_photon` -/

/-- The statements of `trace_photon` headed "apply RR strategy": the flux after them,
`none` when the photon is terminated, and the sampler after them. -/
def roulette {R : Type} [LinearOrderedField R] {Smp : Type} (env : SceneEnv R Smp)
    (min_depth : Int) (cont_prob : R) (depth : Int) (coef : FSpectrum R) (sampler : Smp) :
    Option (FSpectrum R) × Smp :=
  if depth > min_depth then
    if (env.sample1 sampler).1.u > cont_prob then (none, (env.sample1 sampler).2)
    else (some (coef.divs cont_prob), (env.sample1 sampler).2)
  else (some coef, sampler)

/-- The variables of the loop of `trace_photon` at the head of an iteration, with the
pixel store that `add_photon` writes. -/
structure TracePhotonState (R : Type) (Smp : Type) where
  depth : Int
  ray : Ray R
  coef : FSpectrum R
  sampler : Smp
  pixels : Nat → Pixel R

/-- One iteration of the loop of `trace_photon`: `Sum.inl` is a `return` (pixel store and
sampler left behind), `Sum.inr` the variables at the head of the next iteration; `none`
is a fault inside `add_photon`. -/
def trace_photon_body {R : Type} [LinearOrderedField R] {Smp : Type}
    (vp_searcher : VisiblePointSearcher R) (env : SceneEnv R Smp)
    (min_depth : Int) (cont_prob : R) (st : TracePhotonState R Smp) :
    Option (((Nat → Pixel R) × Smp) ⊕ TracePhotonState R Smp) :=
  match (roulette env min_depth cont_prob st.depth st.coef st.sampler).1 with
  | none =>
    some (Sum.inl (st.pixels, (roulette env min_depth cont_prob st.depth st.coef st.sampler).2))
  | some coef =>
    match env.closest_intersection st.ray with
    | none =>
      some (Sum.inl
        (st.pixels, (roulette env min_depth cont_prob st.depth st.coef st.sampler).2))
    | some inct =>
      match (if st.depth > 1 then
          vp_searcher.add_photon env.bsdf_eval inct.pos coef inct.wr st.pixels
        else some st.pixels) with
      | none => none
      | some pixels =>
        let shd := env.shade inct
        let sam := env.sample3 (roulette env min_depth cont_prob st.depth st.coef st.sampler).2
        let bsdf_sample := env.bsdf_sample shd.bsdf inct.wr TransMode.Importance sam.1
        if bsdf_sample.f.is_black then some (Sum.inl (pixels, sam.2))
        else
          some (Sum.inr
            { depth := st.depth + 1
              ray := Ray.make (env.eps_offset inct bsdf_sample.dir) bsdf_sample.dir 0
              coef := coef * bounce_factor env inct bsdf_sample
              sampler := sam.2
              pixels := pixels })

/-- The loop `for(int depth = 1; depth <= max_depth; ++depth)` of `trace_photon`, with
`fuel` bounding the number of iterations. -/
def trace_photon_loop {R : Type} [LinearOrderedField R] {Smp : Type}
    (vp_searcher : VisiblePointSearcher R) (env : SceneEnv R Smp)
    (min_depth max_depth : Int) (cont_prob : R) :
    Nat → TracePhotonState R Smp → Option ((Nat → Pixel R) × Smp)
  | 0, st => some (st.pixels, st.sampler)
  | fuel + 1, st =>
    if st.depth ≤ max_depth then
      match trace_photon_body vp_searcher env min_depth cont_prob st with
      | none => none
      | some (Sum.inl res) => some res
      | some (Sum.inr st1) =>
        trace_photon_loop vp_searcher env min_depth max_depth cont_prob fuel st1
    else some (st.pixels, st.sampler)

/-- The flux with which `trace_photon` starts the loop:
`emit.radiance * |cos(emit.nor, emit.dir)| / (select_light_pdf * emit.pdf_pos * emit.pdf_dir)`. -/
def emit_coef {R : Type} [LinearOrderedField R] {Smp : Type} (env : SceneEnv R Smp)
    (select_light_pdf : R) (emit : LightEmitResult R) : FSpectrum R :=
  (emit.radiance.scale |env.cos emit.nor emit.dir|).divs
    (select_light_pdf * emit.pdf_pos * emit.pdf_dir)

/-- The function `trace_photon`; the loop makes at most `max_depth` iterations, which is
the fuel it is given.  The result is the pixel store and the sampler left behind,
`none` being a fault inside `add_photon`. -/
def trace_photon {R : Type} [LinearOrderedField R] {Smp : Type}
    (min_depth max_depth : Int) (cont_prob : R)
    (vp_searcher : VisiblePointSearcher R) (env : SceneEnv R Smp)
    (sampler : Smp) (pixels : Nat → Pixel R) : Option ((Nat → Pixel R) × Smp) :=
  match (env.sample_light (env.sample1 sampler).1).1 with
  | none => some (pixels, (env.sample1 sampler).2)
  | some light =>
    let emit := env.sample_emit light (env.sample5 (env.sample1 sampler).2).1
    if emit.radiance.is_black then some (pixels, (env.sample5 (env.sample1 sampler).2).2)
    else
      trace_photon_loop vp_searcher env min_depth max_depth cont_prob max_depth.toNat
        { depth := 1
          ray := Ray.make emit.pos emit.dir env.EPS
          coef := emit_coef env (env.sample_light (env.sample1 sampler).1).2 emit
          sampler := (env.sample5 (env.sample1 sampler).2).2
          pixels := pixels }

/-! ### The vertices of a photon path -/

/-- An intersection reached by the loop of `trace_photon`: the value of `depth`, the
intersection, the flux `coef` carried there (after the roulette of that depth), and the
flux `free` that the same bounces give when the roulette never rescales. -/
structure PhotonVertex (R : Type) where
  depth : Int
  inct : EntityIntersection R
  flux : FSpectrum R
  free : FSpectrum R

/-- The arguments `add_photon` receives at a vertex. -/
def PhotonVertex.photon {R : Type} (v : PhotonVertex R) : Photon R :=
  ⟨v.inct.pos, v.flux, v.inct.wr⟩

/-- The loop variables of `trace_photon` without the pixel store, with the roulette-free
flux alongside. -/
structure PhotonPathState (R : Type) (Smp : Type) where
  depth : Int
  ray : Ray R
  coef : FSpectrum R
  free : FSpectrum R
  sampler : Smp

/-- The loop of `trace_photon` read as a path: the vertices it reaches, in order, and the
sampler it leaves behind.  It follows `trace_photon_loop` statement by statement, records
a vertex where that loop has its `add_photon` statement, and writes no pixel. -/
def photon_vertices_loop {R : Type} [LinearOrderedField R] {Smp : Type}
    (env : SceneEnv R Smp) (min_depth max_depth : Int) (cont_prob : R) :
    Nat → PhotonPathState R Smp → List (PhotonVertex R) × Smp
  | 0, st => ([], st.sampler)
  | fuel + 1, st =>
    if st.depth ≤ max_depth then
      match (roulette env min_depth cont_prob st.depth st.coef st.sampler).1 with
      | none => ([], (roulette env min_depth cont_prob st.depth st.coef st.sampler).2)
      | some coef =>
        match env.closest_intersection st.ray with
        | none => ([], (roulette env min_depth cont_prob st.depth st.coef st.sampler).2)
        | some inct =>
          let shd := env.shade inct
          let sam := env.sample3
            (roulette env min_depth cont_prob st.depth st.coef st.sampler).2
          let bsdf_sample := env.bsdf_sample shd.bsdf inct.wr TransMode.Importance sam.1
          if bsdf_sample.f.is_black then ([⟨st.depth, inct, coef, st.free⟩], sam.2)
          else
            let rest := photon_vertices_loop env min_depth max_depth cont_prob fuel
              { depth := st.depth + 1
                ray := Ray.make (env.eps_offset inct bsdf_sample.dir) bsdf_sample.dir 0
                coef := coef * bounce_factor env inct bsdf_sample
                free := st.free * bounce_factor env inct bsdf_sample
                sampler := sam.2 }
            (⟨st.depth, inct, coef, st.free⟩ :: rest.1, rest.2)
    else ([], st.sampler)

/-- The photon path of one `trace_photon` call: empty when no light is sampled or the
emitted radiance is black. -/
def photon_vertices {R : Type} [LinearOrderedField R] {Smp : Type}
    (min_depth max_depth : Int) (cont_prob : R) (env : SceneEnv R Smp) (sampler : Smp) :
    List (PhotonVertex R) × Smp :=
  match (env.sample_light (env.sample1 sampler).1).1 with
  | none => ([], (env.sample1 sampler).2)
  | some light =>
    let emit := env.sample_emit light (env.sample5 (env.sample1 sampler).2).1
    if emit.radiance.is_black then ([], (env.sample5 (env.sample1 sampler).2).2)
    else
      photon_vertices_loop env min_depth max_depth cont_prob max_depth.toNat
        { depth := 1
          ray := Ray.make emit.pos emit.dir env.EPS
          coef := emit_coef env (env.sample_light (env.sample1 sampler).1).2 emit
          free := emit_coef env (env.sample_light (env.sample1 sampler).1).2 emit
          sampler := (env.sample5 (env.sample1 sampler).2).2 }

/-- The bounces of a camera path: `is_camera_path env max_fwd_depth depth ray bounces final`
says that the ray at loop depth `depth` hits, one after the other, the intersections of
`bounces`, none of which stops the path (no diffuse component, not the last depth), each
followed by a BSDF sample with a non-null factor along which the next ray is spawned,
and then hits `final`, which stops the path (diffuse component or last depth). -/
def is_camera_path {R : Type} [LinearOrderedField R] {Smp : Type} (env : SceneEnv R Smp)
    (max_fwd_depth : Int) :
    Int → Ray R → List (EntityIntersection R × BSDFSampleResult (FSpectrum R) R) →
      EntityIntersection R → Prop
  | depth, ray, [], final =>
    env.closest_intersection ray = some final ∧ depth < max_fwd_depth ∧
      (env.bsdf_has_diffuse_component (env.shade final).bsdf = true ∨
        depth = max_fwd_depth - 1)
  | depth, ray, b :: rest, final =>
    env.closest_intersection ray = some b.1 ∧ depth < max_fwd_depth ∧
      env.bsdf_has_diffuse_component (env.shade b.1).bsdf = false ∧
      depth ≠ max_fwd_depth - 1 ∧
      (∃ sam : Sample3 R,
        b.2 = env.bsdf_sample (env.shade b.1).bsdf b.1.wr TransMode.Radiance sam) ∧
      b.2.f.is_black = false ∧
      is_camera_path env max_fwd_depth (depth + 1)
        (Ray.make (env.eps_offset b.1 b.2.dir) b.2.dir 0) rest final

/-! ### A scene for concrete checks -/

/-- An intersection for concrete checks: at height `k` on the z-axis, facing up, with
entity and material handle `material`. -/
def sample_inct (k : ℚ) (material : Nat) : EntityIntersection ℚ :=
  ⟨⟨0, 0, k⟩, ⟨0, 0, 1⟩, ⟨0, 0, 1⟩, (0, 0), material, material⟩

/-- A scene for concrete checks.  A ray that starts at height `0` hits a surface with
BSDF handle `1` (no diffuse component), a ray that starts at height `1` hits a surface
with BSDF handle `0` (diffuse), any other ray misses.  Every BSDF sample goes up by one
unit; the sampler is a constant pair `(a, b)` that the samples return in their first
two components, and a BSDF sample has `pdf = a` and `f = b` in every channel.  There
is one light; each MIS estimator returns `1` in every channel. -/
def sample_scene : SceneEnv ℚ (ℚ × ℚ) :=
  { closest_intersection := fun ray =>
      if ray.o.z = 0 then some (sample_inct 0 1)
      else if ray.o.z = 1 then some (sample_inct 1 0) else none
    envir_light := none
    lights := [0]
    sample_light := fun _ => (some 0, 1)
    envir_radiance := fun _ _ _ => FSpectrum.splat 0
    area_radiance := fun _ _ _ _ _ => FSpectrum.splat 0
    sample_emit := fun _ _ => ⟨⟨0, 0, 0⟩, ⟨0, 0, 1⟩, ⟨0, 0, 1⟩, FSpectrum.splat 1, 1, 1⟩
    as_light := fun _ => none
    get_no_denoise_flag := fun _ => false
    shade := fun inct => ⟨inct.material, ⟨0, 0, 1⟩⟩
    eps_offset := fun inct dir => inct.pos + dir
    bsdf_albedo := fun _ => FSpectrum.splat 1
    bsdf_has_diffuse_component := fun b => decide (b = 0)
    bsdf_sample := fun _ _ _ sam => ⟨⟨0, 0, 1⟩, FSpectrum.splat sam.v, sam.u, false⟩
    bsdf_eval := sample_eval
    mis_sample_light := fun _ _ _ s => (FSpectrum.splat 1, s)
    mis_sample_bsdf := fun _ _ s => (FSpectrum.splat 1, s)
    sample1 := fun s => (⟨s.1⟩, s)
    sample3 := fun s => (⟨s.1, s.2, 0⟩, s)
    sample5 := fun s => (⟨s.1, s.2, 0, 0, 0⟩, s)
    cos := fun _ _ => 1
    EPS := 1 / 1000 }

/-- A pixel store for concrete checks in which every accumulator is zero. -/
def dark_pixels (_ : Nat) : Pixel ℚ :=
  { sample_pixel 0 0 with phi := FSpectrum.splat 0 }

/-! ### Calls made by the driver -/

/-- The type `Spectrum` of `disney_reflection.cpp`: three exact channels; arithmetic on
it is component-wise. -/
abbrev Spectrum (R : Type) := R × R × R

/-- A spectrum computed channel by channel. -/
def Spectrum.map {R : Type} (f : R → R) (s : Spectrum R) : Spectrum R :=
  (f s.1, f s.2.1, f s.2.2)

/-- Dot product of two vectors. -/
def FVec3.dot {R : Type} [Add R] [Mul R] (a b : FVec3 R) : R :=
  a.x * b.x + a.y * b.y + a.z * b.z

/-- Product of a scalar and a vector. -/
def FVec3.smul {R : Type} [Mul R] (k : R) (v : FVec3 R) : FVec3 R :=
  ⟨k * v.x, k * v.y, k * v.z⟩

/-- Length of a vector. -/
def FVec3.length {R : Type} [Add R] [Mul R] (sqrt : R → R) (v : FVec3 R) : R :=
  sqrt (v.dot v)

/-- The method `normalize()`: the vector divided by its length. -/
def FVec3.normalize {R : Type} [Add R] [Mul R] [Div R] (sqrt : R → R) (v : FVec3 R) :
    FVec3 R :=
  ⟨v.x / v.length sqrt, v.y / v.length sqrt, v.z / v.length sqrt⟩

/-- The function `cos(a, b)` on vectors: cosine of the angle between them. -/
def FVec3.cos {R : Type} [Add R] [Mul R] [Div R] (sqrt : R → R) (a b : FVec3 R) : R :=
  a.dot b / (a.length sqrt * b.length sqrt)

/-- The type `Coord`: a frame of three axes. -/
structure Coord (R : Type) where
  x : FVec3 R
  y : FVec3 R
  z : FVec3 R

/-- The method `Coord::global_to_local`: the coordinates of a vector along the axes. -/
def Coord.global_to_local {R : Type} [Add R] [Mul R] (c : Coord R) (v : FVec3 R) : FVec3 R :=
  ⟨c.x.dot v, c.y.dot v, c.z.dot v⟩

/-- The method `Coord::local_to_global`: the vector with the given coordinates. -/
def Coord.local_to_global {R : Type} [Add R] [Mul R] (c : Coord R) (v : FVec3 R) : FVec3 R :=
  FVec3.smul v.x c.x + FVec3.smul v.y c.y + FVec3.smul v.z c.z

/-- The function `local_angle::cos_theta`. -/
def cos_theta {R : Type} (w : FVec3 R) : R := w.z

/-- The function `local_angle::cos_2_sin`: `sqrt(max(0, 1 - cos * cos))`. -/
def cos_2_sin {R : Type} [LinearOrderedField R] (sqrt : R → R) (cos : R) : R :=
  sqrt (max 0 (1 - cos * cos))

/-- The function `local_angle::phi`, with `std::atan2` and the constant `PI_r` as
parameters. -/
def local_phi {R : Type} [LinearOrderedField R] (atan2 : R → R → R) (PI_r : R)
    (w : FVec3 R) : R :=
  if w.y = 0 ∧ w.x = 0 then 0
  else if atan2 w.y w.x < 0 then atan2 w.y w.x + 2 * PI_r else atan2 w.y w.x

/-- The function `local_angle::normal_corr_factor(geo, shd, wi)` on vectors. -/
def normal_corr_factor {R : Type} [LinearOrderedField R] (sqrt : R → R) (EPS : R)
    (geo shd wi : FVec3 R) : R :=
  if abs (FVec3.cos sqrt geo wi) < EPS then 1
  else abs (FVec3.cos sqrt shd wi / abs (FVec3.cos sqrt geo wi))

/-- The overload of `local_angle::normal_corr_factor` on frames: the factor of the two
`z` axes. -/
def normal_corr_factor_coord {R : Type} [LinearOrderedField R] (sqrt : R → R) (EPS : R)
    (geo shd : Coord R) (wi : FVec3 R) : R :=
  normal_corr_factor sqrt EPS geo.z shd.z wi

/-- The base class `LocalBSDF` of `DisneyBRDF`: the geometric and the shading frame. -/
structure LocalBSDF (R : Type) where
  geometry_coord : Coord R
  shading_coord : Coord R

/-- What `disney_reflection.cpp` uses from outside the shown sources: the constants `EPS`
and `PI_r`, `std::sqrt`, `std::cos`, `std::atan2`, the luminance `Spectrum::lum`, the
functions of `utility/microfacet.h` and of `math::distribution`, and the black-fringe
methods of `LocalBSDF`. -/
structure DisneyExt (R : Type) where
  EPS : R
  PI_r : R
  sqrt : R → R
  cos : R → R
  atan2 : R → R → R
  lum : Spectrum R → R
  one_minus_5 : R → R
  anisotropic_gtr2 : R → R → R → R → R → R → R
  smith_anisotropic_gtr2 : R → R → R → R → R → R
  smith_gtr2 : R → R → R
  gtr1 : R → R → R → R
  sample_anisotropic_gtr2 : R → R → R × R → FVec3 R
  sample_gtr1 : R → R × R → FVec3 R
  zweighted_on_hemisphere : R → R → FVec3 R × R
  zweighted_on_hemisphere_pdf : R → R
  cause_black_fringes : FVec3 R → FVec3 R → Bool
  cause_black_fringes_dir : FVec3 R → Bool
  eval_for_black_fringes : FVec3 R → FVec3 R → Spectrum R
  sample_for_black_fringes : FVec3 R → TransMode → Sample3 R → BSDFSampleResult (Spectrum R) R
  pdf_for_black_fringes : FVec3 R → FVec3 R → R

/-- The constant `BSDF_SAMPLE_RESULT_INVALID`: a null weighting factor and a zero pdf. -/
def BSDF_SAMPLE_RESULT_INVALID {R : Type} [Zero R] : BSDFSampleResult (Spectrum R) R :=
  ⟨⟨0, 0, 0⟩, (0, 0, 0), 0, false⟩

/-- The static method `DisneyBRDF::f_diffuse`. -/
def DisneyBRDF.f_diffuse {R : Type} [LinearOrderedField R]
    (FI FO cos_theta_d_2 roughness : R) : R :=
  (1 + (1 / 2 + 2 * cos_theta_d_2 * roughness - 1) * FI)
    * (1 + (1 / 2 + 2 * cos_theta_d_2 * roughness - 1) * FO)

/-- The static method `DisneyBRDF::f_subsurface`. -/
def DisneyBRDF.f_subsurface {R : Type} [LinearOrderedField R]
    (cos_theta_i cos_theta_o FI FO cos_theta_d_2 roughness : R) : R :=
  5 / 4 * ((1 + (cos_theta_d_2 * roughness - 1) * FI) * (1 + (cos_theta_d_2 * roughness - 1) * FO)
    * (1 / (cos_theta_i + cos_theta_o) - 1 / 2) + 1 / 2)

/-- One channel of the value `val` of `DisneyBRDF::eval`, as a function of the channel
`base` of `base_color_` and of the scalars computed before it. -/
def DisneyBRDF.val_channel {R : Type} [LinearOrderedField R] (self : DisneyBRDF R)
    (PI_r lum f_d f_ss FD Gs Ds Fc Gc Dc microfacet_dem : R) (base : R) : R :=
  let Ctint := base / lum
  let f_sh :=
    if self.metallic < 1 ∧ self.sheen > 0 then mix 1 Ctint self.sheen_tint * self.sheen * FD
    else 0
  let Cs := mix (8 / 100 * self.specular * mix 1 Ctint self.specular_tint) base self.metallic
  let Fs := Cs + (1 - Cs) * FD
  (1 - self.metallic) * (base / PI_r * mix f_d f_ss self.subsurface + f_sh)
    + Fs * Gs * Ds * microfacet_dem
    + self.clearcoat * Fc * Gc * Dc * microfacet_dem

/-- The value `val` that `DisneyBRDF::eval` computes after its black-fringe test from the
local directions; `none` where the code returns the black `Spectrum()` before reaching
it. -/
def DisneyBRDF.eval_val {R : Type} [LinearOrderedField R] (ext : DisneyExt R)
    (base : LocalBSDF R) (self : DisneyBRDF R) (in_dir out_dir : FVec3 R) :
    Option (Spectrum R) :=
  let wi := (base.shading_coord.global_to_local in_dir).normalize ext.sqrt
  let wo := (base.shading_coord.global_to_local out_dir).normalize ext.sqrt
  if wi.z ≤ 0 ∨ wo.z ≤ 0 then none
  else
    let wh := (wi + wo).normalize ext.sqrt
    let cos_theta_d := wi.dot wh
    let cos_theta_d_2 := cos_theta_d * cos_theta_d
    let cos_theta_h := cos_theta wh
    let sin_theta_h := cos_2_sin ext.sqrt cos_theta_h
    let cos_phi_h := ext.cos (local_phi ext.atan2 ext.PI_r wh)
    let sin_phi_h := cos_2_sin ext.sqrt cos_phi_h
    let cos_theta_i := cos_theta wi
    let tan_theta_i := cos_2_sin ext.sqrt cos_theta_i / cos_theta_i
    let cos_theta_o := cos_theta wo
    let tan_theta_o := cos_2_sin ext.sqrt cos_theta_o / cos_theta_o
    let cos_phi_i := ext.cos (local_phi ext.atan2 ext.PI_r wi)
    let sin_phi_i := cos_2_sin ext.sqrt cos_phi_i
    let cos_phi_o := ext.cos (local_phi ext.atan2 ext.PI_r wo)
    let sin_phi_o := cos_2_sin ext.sqrt cos_phi_o
    let FI := ext.one_minus_5 cos_theta_i
    let FO := ext.one_minus_5 cos_theta_o
    let FD := ext.one_minus_5 cos_theta_d
    let lum := ext.lum self.base_color
    if lum < ext.EPS then none
    else
      let f_d :=
        if self.metallic < 1 ∧ self.subsurface < 1 then
          DisneyBRDF.f_diffuse FI FO cos_theta_d_2 self.roughness
        else 0
      let f_ss :=
        if self.metallic < 1 ∧ self.subsurface > 0 then
          DisneyBRDF.f_subsurface cos_theta_i cos_theta_o FI FO cos_theta_d_2 self.roughness
        else 0
      let Gs := ext.smith_anisotropic_gtr2 cos_phi_i sin_phi_i self.ax self.ay tan_theta_i
        * ext.smith_anisotropic_gtr2 cos_phi_o sin_phi_o self.ax self.ay tan_theta_o
      let Ds := ext.anisotropic_gtr2 sin_phi_h cos_phi_h sin_theta_h cos_theta_h
        self.ax self.ay
      let Fc := if self.clearcoat > 0 then 4 / 100 + 96 / 100 * FD else 0
      let Gc :=
        if self.clearcoat > 0 then
          ext.smith_gtr2 tan_theta_i (1 / 4) * ext.smith_gtr2 tan_theta_o (1 / 4)
        else 0
      let Dc :=
        if self.clearcoat > 0 then ext.gtr1 sin_theta_h cos_theta_h self.clearcoat_roughness
        else 0
      let microfacet_dem := 1 / (4 * cos_theta_i * cos_theta_o)
      some (Spectrum.map
        (self.val_channel ext.PI_r lum f_d f_ss FD Gs Ds Fc Gc Dc microfacet_dem)
        self.base_color)

/-- The method `DisneyBRDF::eval`: the black-fringe case, the black `Spectrum()` of the
early returns, or `val * local_angle::normal_corr_factor(geometry_coord_, shading_coord_,
in_dir)`. -/
def DisneyBRDF.eval {R : Type} [LinearOrderedField R] (ext : DisneyExt R)
    (base : LocalBSDF R) (self : DisneyBRDF R) (in_dir out_dir : FVec3 R)
    (_mode : TransMode) : Spectrum R :=
  if ext.cause_black_fringes in_dir out_dir then ext.eval_for_black_fringes in_dir out_dir
  else
    match self.eval_val ext base in_dir out_dir with
    | none => (0, 0, 0)
    | some val =>
      Spectrum.map
        (fun c => c * normal_corr_factor_coord ext.sqrt ext.EPS base.geometry_coord
          base.shading_coord in_dir)
        val

/-- The method `DisneyBRDF::pdf`. -/
def DisneyBRDF.pdf {R : Type} [LinearOrderedField R] (ext : DisneyExt R)
    (base : LocalBSDF R) (self : DisneyBRDF R) (in_dir out_dir : FVec3 R) : R :=
  if ext.cause_black_fringes in_dir out_dir then ext.pdf_for_black_fringes in_dir out_dir
  else
    let wi := (base.shading_coord.global_to_local in_dir).normalize ext.sqrt
    let wo := (base.shading_coord.global_to_local out_dir).normalize ext.sqrt
    if wi.z ≤ 0 ∨ wo.z ≤ 0 then 0
    else
      let wh := (wi + wo).normalize ext.sqrt
      let cos_theta_h := cos_theta wh
      let sin_theta_h := cos_2_sin ext.sqrt cos_theta_h
      let cos_phi_h := ext.cos (local_phi ext.atan2 ext.PI_r wh)
      let sin_phi_h := cos_2_sin ext.sqrt cos_phi_h
      let cos_theta_d := wi.dot wh
      let diffuse_PDF := ext.zweighted_on_hemisphere_pdf wi.z
      let specular_PDF := cos_theta_h
        * ext.anisotropic_gtr2 sin_phi_h cos_phi_h sin_theta_h cos_theta_h self.ax self.ay
        / (4 * cos_theta_d)
      let clearcoat_PDF := cos_theta_h
        * ext.gtr1 sin_theta_h cos_theta_h self.clearcoat_roughness / (4 * cos_theta_d)
      self.sample_weights.wd * diffuse_PDF + self.sample_weights.ws * specular_PDF
        + self.sample_weights.wc * clearcoat_PDF

/-- The local incoming direction `wi` that `DisneyBRDF::sample` draws from the lobe chosen
by `sam.u`; `none` where the code returns `BSDF_SAMPLE_RESULT_INVALID` inside the lobe's
branch. -/
def DisneyBRDF.sample_wi {R : Type} [LinearOrderedField R] (ext : DisneyExt R)
    (self : DisneyBRDF R) (wo : FVec3 R) (sam : Sample3 R) : Option (FVec3 R) :=
  match self.sample_lobe sam.u with
  | Lobe.diffuse =>
    some ((ext.zweighted_on_hemisphere sam.v sam.w).1.normalize ext.sqrt)
  | Lobe.specular =>
    let wh := ext.sample_anisotropic_gtr2 self.ax self.ay (sam.v, sam.w)
    if wh.z ≤ 0 then none
    else
      let wi := (FVec3.smul (2 * wo.dot wh) wh - wo).normalize ext.sqrt
      if wi.z ≤ 0 ∨ wi.dot wh ≤ 0 then none else some wi
  | Lobe.clearcoat =>
    let wh := ext.sample_gtr1 self.clearcoat_roughness (sam.v, sam.w)
    if wh.z ≤ 0 then none
    else
      let wi := (FVec3.smul (2 * wo.dot wh) wh - wo).normalize ext.sqrt
      if wi.z ≤ 0 ∨ wi.dot wh ≤ 0 then none else some wi

/-- The method `DisneyBRDF::sample`. -/
def DisneyBRDF.sample {R : Type} [LinearOrderedField R] (ext : DisneyExt R)
    (base : LocalBSDF R) (self : DisneyBRDF R) (out_dir : FVec3 R)
    (transport_mode : TransMode) (sam : Sample3 R) : BSDFSampleResult (Spectrum R) R :=
  if ext.cause_black_fringes_dir out_dir then
    ext.sample_for_black_fringes out_dir transport_mode sam
  else
    let wo := (base.shading_coord.global_to_local out_dir).normalize ext.sqrt
    if wo.z ≤ 0 then BSDF_SAMPLE_RESULT_INVALID
    else
      match self.sample_wi ext wo sam with
      | none => BSDF_SAMPLE_RESULT_INVALID
      | some wi =>
        let global_wi := base.shading_coord.local_to_global wi
        let pdf_val := self.pdf ext base global_wi out_dir
        if pdf_val < ext.EPS then BSDF_SAMPLE_RESULT_INVALID
        else
          { dir := global_wi
            f := self.eval ext base global_wi out_dir transport_mode
            is_delta := false
            pdf := pdf_val }

/-- Sample externals of `DisneyBRDF` over a square root `sqrt`: constant microfacet terms,
samplers that return the local `z` axis, and no black fringes. -/
def sample_disney_ext {R : Type} [LinearOrderedField R] (sqrt : R → R) : DisneyExt R where
  EPS := 1 / 1000
  PI_r := 22 / 7
  sqrt := sqrt
  cos := fun _ => 1
  atan2 := fun _ _ => 0
  lum := fun c => (c.1 + c.2.1 + c.2.2) / 3
  one_minus_5 := fun x => (1 - x) ^ 5
  anisotropic_gtr2 := fun _ _ _ _ _ _ => 1
  smith_anisotropic_gtr2 := fun _ _ _ _ _ => 1
  smith_gtr2 := fun _ _ => 1
  gtr1 := fun _ _ _ => 1
  sample_anisotropic_gtr2 := fun _ _ _ => ⟨0, 0, 1⟩
  sample_gtr1 := fun _ _ => ⟨0, 0, 1⟩
  zweighted_on_hemisphere := fun _ _ => (⟨0, 0, 1⟩, 7 / 22)
  zweighted_on_hemisphere_pdf := fun z => z * 7 / 22
  cause_black_fringes := fun _ _ => false
  cause_black_fringes_dir := fun _ => false
  eval_for_black_fringes := fun _ _ => (0, 0, 0)
  sample_for_black_fringes := fun _ _ _ => BSDF_SAMPLE_RESULT_INVALID
  pdf_for_black_fringes := fun _ _ => 0

/-- Sample frames: the geometric and the shading frame are both the standard basis. -/
def sample_frame {R : Type} [Zero R] [One R] : LocalBSDF R :=
  ⟨⟨⟨1, 0, 0⟩, ⟨0, 1, 0⟩, ⟨0, 0, 1⟩⟩, ⟨⟨1, 0, 0⟩, ⟨0, 1, 0⟩, ⟨0, 0, 1⟩⟩⟩

/-- Sample `DisneyBRDF`: grey base colour, every scalar parameter `1 / 2`. -/
def sample_brdf {R : Type} [LinearOrderedField R] (sqrt : R → R) : DisneyBRDF R :=
  DisneyBRDF.construct sqrt (1 / 2, 1 / 2, 1 / 2) (1 / 2) (1 / 2) (1 / 2) (1 / 2) (1 / 2)
    (1 / 2) (1 / 2) (1 / 2) (1 / 2) (1 / 2)

/-! ## The estimate of a pixel and the cells of a visible point -/

/-- The function `compute_pixel_radiance(direct_illum_N, photon_N, pixel)`, with the
constant `PI_r` as a parameter. -/
def compute_pixel_radiance {R : Type} [LinearOrderedField R] (PI_r : R)
    (direct_illum_N : Int) (photon_N : Nat) (pixel : Pixel R) : FSpectrum R :=
  let direct_illum := pixel.direct_illum.divs (direct_illum_N : R)
  let dem := (photon_N : R) * PI_r * pixel.radius * pixel.radius
  let photon_illum := pixel.tau.divs dem
  direct_illum + photon_illum

/-- A pixel of radius `1` with `direct_illum = 1` and `tau = 1 / 2` in every channel. -/
def sample_lit_pixel : Pixel ℚ :=
  { vp := ⟨⟨0, 0, 0⟩, FSpectrum.splat 1, ⟨0, 0, 1⟩, some 0⟩
    radius := 1
    N := 0
    M := 0
    phi := FSpectrum.splat 0
    tau := FSpectrum.splat (1 / 2)
    direct_illum := FSpectrum.splat 1 }

/-- The cells visited by the three nested loops of `add_vp` between two corner cells, in
the order of the visits: `z` outermost, `x` innermost. -/
def box_cells (min_grid max_grid : Vec3i) : List Vec3i :=
  (loop_range min_grid.z max_grid.z).flatMap (fun z =>
    (loop_range min_grid.y max_grid.y).flatMap (fun y =>
      (loop_range min_grid.x max_grid.x).map (fun x => (⟨x, y, z⟩ : Vec3i))))

/-- The scene `sample_scene` under an environment light of radiance `1`. -/
def sample_sky_scene : SceneEnv ℚ (ℚ × ℚ) :=
  { sample_scene with
    envir_light := some 0
    envir_radiance := fun _ _ _ => FSpectrum.splat 1 }

/-! ## The glass sphere: `GlassBxDF` -/

/-- Modelled from the spec: the type `BxDFType` of `Atrc/Material/BxDF.h`, which is not
among the sources, is the set of lobe types a caller requests; the flags kept are the
three that `GlassSphere.cpp` names. -/
structure BxDFType where
  reflection : Bool
  transmission : Bool
  specular : Bool
  deriving DecidableEq, Repr

/-- The flag `BXDF_REFLECTION`. -/
def BXDF_REFLECTION : BxDFType := ⟨true, false, false⟩

/-- The flag `BXDF_TRANSMISSION`. -/
def BXDF_TRANSMISSION : BxDFType := ⟨false, true, false⟩

/-- The flag `BXDF_SPECULAR`. -/
def BXDF_SPECULAR : BxDFType := ⟨false, false, true⟩

/-- The operator `|` on `BxDFType`: the flags of either operand. -/
def BxDFType.union (a b : BxDFType) : BxDFType :=
  ⟨a.reflection || b.reflection, a.transmission || b.transmission, a.specular || b.specular⟩

/-- Modelled from the spec: the method `BxDFType::Contains` of `Atrc/Material/BxDF.h`,
which is not among the sources: every flag of `mask` is among the requested ones. -/
def BxDFType.Contains (type mask : BxDFType) : Bool :=
  (!mask.reflection || type.reflection) && (!mask.transmission || type.transmission)
    && (!mask.specular || type.specular)

/-- The struct `BxDFSample`: a direction, its weighting factor and its pdf. -/
structure BxDFSample (R : Type) where
  dir : FVec3 R
  coef : Spectrum R
  pdf : R
  deriving DecidableEq

/-- The negation `-v` of a vector. -/
def FVec3.neg {R : Type} [Neg R] (v : FVec3 R) : FVec3 R := ⟨-v.x, -v.y, -v.z⟩

/-- The function `Refract(wi, nor, niDivNt, refracted)`: `some` of the vector written to
`*refracted` where the code returns `true`, `none` where it returns `false`.  `Sqrt` is a
parameter. -/
def Refract {R : Type} [LinearOrderedField R] (sqrt : R → R) (wi nor : FVec3 R)
    (niDivNt : R) : Option (FVec3 R) :=
  let t := -(wi.dot nor)
  let jdg := 1 - niDivNt * niDivNt * (1 - t * t)
  if jdg > 0 then
    some (FVec3.smul niDivNt (wi.neg - FVec3.smul t nor) - FVec3.smul (sqrt jdg) nor)
  else none

/-- The function `ChristopheSchlick(cos, refIdx)`; `Pow(x, 5)` is the fifth power. -/
def ChristopheSchlick {R : Type} [LinearOrderedField R] (cos refIdx : R) : R :=
  let t := (1 - refIdx) / (1 + refIdx)
  let t := t * t
  t + (1 - t) * (1 - cos) ^ 5

/-- The class `GlassBxDF`: the axis `local_.ez`, the two colours and the refraction
index. -/
structure GlassBxDF (R : Type) where
  ez : FVec3 R
  reflColor : Spectrum R
  refrColor : Spectrum R
  refIdx : R

/-- The two `return ret` statements of `GlassBxDF::Sample`. -/
inductive GlassLobe where
  | refraction
  | reflection
  deriving DecidableEq, Repr

/-- The colour that the `return` statement of a lobe divides by `SS(absDot)`. -/
def GlassBxDF.lobe_color {R : Type} (self : GlassBxDF R) : GlassLobe → Spectrum R
  | GlassLobe.refraction => self.refrColor
  | GlassLobe.reflection => self.reflColor

/-- The method `GlassBxDF::Eval`: `SPECTRUM::BLACK`. -/
def GlassBxDF.Eval {R : Type} [Zero R] (_self : GlassBxDF R) (_wi _wo : FVec3 R) :
    Spectrum R :=
  (0, 0, 0)

/-- The statements of `GlassBxDF::Sample` up to the end of the block under
`if(type.Contains(BXDF_TRANSMISSION | BXDF_SPECULAR))`: `some` of the sample that block
returns, `none` where control falls through to the reflection test.  `rand` is the value
that `Rand()` returns if it is called; the cast `SS` to the scalar type of a spectrum does
not change an exact value. -/
def GlassBxDF.Sample_refracted {R : Type} [LinearOrderedField R] (sqrt : R → R)
    (self : GlassBxDF R) (wi : FVec3 R) (type : BxDFType) (rand : R) :
    Option (BxDFSample R) :=
  let dot := wi.dot self.ez
  let absDot := abs dot
  let niDivNt := if dot < 0 then self.refIdx else 1 / self.refIdx
  let nor := if dot < 0 then self.ez.neg else self.ez
  let cosine := if dot < 0 then absDot * self.refIdx else absDot
  if type.Contains (BXDF_TRANSMISSION.union BXDF_SPECULAR) then
    if !type.Contains BXDF_REFLECTION || decide (rand > ChristopheSchlick cosine self.refIdx)
    then
      match Refract sqrt wi nor niDivNt with
      | some refrDir =>
        some { dir := refrDir, coef := Spectrum.map (fun c => c / absDot) self.refrColor,
               pdf := 1 }
      | none => none
    else none
  else none

/-- The method `GlassBxDF::Sample`, each returned sample tagged with the `return`
statement that produced it. -/
def GlassBxDF.Sample_tagged {R : Type} [LinearOrderedField R] (sqrt : R → R)
    (self : GlassBxDF R) (wi : FVec3 R) (type : BxDFType) (rand : R) :
    Option (GlassLobe × BxDFSample R) :=
  let dot := wi.dot self.ez
  let absDot := abs dot
  let nor := if dot < 0 then self.ez.neg else self.ez
  match self.Sample_refracted sqrt wi type rand with
  | some ret => some (GlassLobe.refraction, ret)
  | none =>
    if type.Contains (BXDF_REFLECTION.union BXDF_SPECULAR) then
      some (GlassLobe.reflection,
        { dir := FVec3.smul (2 * absDot) nor - wi,
          coef := Spectrum.map (fun c => c / absDot) self.reflColor,
          pdf := 1 })
    else none

/-- The method `GlassBxDF::Sample`. -/
def GlassBxDF.Sample {R : Type} [LinearOrderedField R] (sqrt : R → R)
    (self : GlassBxDF R) (wi : FVec3 R) (type : BxDFType) (rand : R) :
    Option (BxDFSample R) :=
  (self.Sample_tagged sqrt wi type rand).map Prod.snd

/-- The lobe selection of `GlassBxDF::Sample` as the specification words it: a refraction
if and only if the type holds transmission and specular, `Refract` succeeds, and the type
lacks reflection or the random number exceeds the Schlick reflectance; otherwise a
reflection if and only if the type holds reflection and specular; otherwise nothing. -/
def GlassBxDF.lobe_spec {R : Type} [LinearOrderedField R] (sqrt : R → R)
    (self : GlassBxDF R) (wi : FVec3 R) (type : BxDFType) (rand : R) : Option GlassLobe :=
  let dot := wi.dot self.ez
  let refract_succeeds :=
    (Refract sqrt wi (if dot < 0 then self.ez.neg else self.ez)
      (if dot < 0 then self.refIdx else 1 / self.refIdx)).isSome
  let reflectance :=
    ChristopheSchlick (if dot < 0 then abs dot * self.refIdx else abs dot) self.refIdx
  if type.transmission = true ∧ type.specular = true ∧ refract_succeeds = true
      ∧ (type.reflection = false ∨ rand > reflectance) then
    some GlassLobe.refraction
  else if type.reflection = true ∧ type.specular = true then some GlassLobe.reflection
  else none

/-- A glass of index `3 / 2` around the `z` axis, white in reflection and grey in
refraction. -/
def sample_glass : GlassBxDF ℚ := ⟨⟨0, 0, 1⟩, (1, 1, 1), (1 / 2, 1 / 2, 1 / 2), 3 / 2⟩

/-- The value `ChristopheSchlick(cosine, refIdx_)` that `GlassBxDF::Sample` compares with
`Rand()`: the cosine passed is `|dot|`, multiplied by `refIdx_` on the branch `dot < 0`. -/
def GlassBxDF.Sample_reflectance {R : Type} [LinearOrderedField R] (self : GlassBxDF R)
    (wi : FVec3 R) : R :=
  let dot := wi.dot self.ez
  let absDot := abs dot
  let cosine := if dot < 0 then absDot * self.refIdx else absDot
  ChristopheSchlick cosine self.refIdx

/-- A glass of index `2` around the `z` axis. -/
def sample_dense_glass : GlassBxDF ℚ := ⟨⟨0, 0, 1⟩, (1, 1, 1), (1, 1, 1), 2⟩

/-! ## The searcher of an iteration -/

/-- The searcher as the camera pass of an iteration leaves it: `clear()`, then `add_vp` for
each pixel of a list, in list order. -/
def build_searcher {R : Type} [Add R] [Sub R] (s : VisiblePointSearcher R)
    (pixels : Nat → Pixel R) (ps : List Nat) : VisiblePointSearcher R :=
  ps.foldl (fun st p => st.add_vp pixels p) s.clear

/-- Number of grid cells of the box of pixel `p` that `grid_to_entry` maps to bucket `e`:
the number of nodes that `add_vp` pushes to that bucket for the pixel. -/
def cells_in_bucket {R : Type} [Add R] [Sub R] (s : VisiblePointSearcher R)
    (pixels : Nat → Pixel R) (p : Nat) (e : Nat) : Nat :=
  (box_cells
    (s.hashed_grid_aux.pos_to_grid ((pixels p).vp.pos - FVec3.splat (pixels p).radius))
    (s.hashed_grid_aux.pos_to_grid ((pixels p).vp.pos + FVec3.splat (pixels p).radius))).countP
    (fun c => decide (s.hashed_grid_aux.grid_to_entry c = e))

/-! ## The ACES tone mapper -/

/-- The function `math::clamp(x, lo, hi)`. -/
def clamp {R : Type} [LinearOrder R] (x lo hi : R) : R := max lo (min x hi)

/-- The exception `ObjectConstructionException` with its message. -/
structure ObjectConstructionException where
  what : String
  deriving DecidableEq, Repr

/-- The class `ACESToneMapper`: the member `exposure_`. -/
structure ACESToneMapper (R : Type) where
  exposure : R

/-- The static method `ACESToneMapper::aces_curve`. -/
def ACESToneMapper.aces_curve {R : Type} [LinearOrderedField R] (x : R) : R :=
  clamp ((x * (251 / 100 * x + 3 / 100)) / (x * (243 / 100 * x + 59 / 100) + 14 / 100)) 0 1

/-- The constructor `ACESToneMapper(exposure)`: `Except.error` is the exception thrown
(the macros `AGZ_HIERARCHY_TRY` and `AGZ_HIERARCHY_WRAP` around the body add context to it
on its way out), `Except.ok` the constructed object. -/
def ACESToneMapper.construct {R : Type} [LinearOrderedField R] (exposure : R) :
    Except ObjectConstructionException (ACESToneMapper R) :=
  if exposure < 0 then Except.error ⟨"invalid exposure value"⟩
  else Except.ok ⟨exposure⟩

/-- The function `create_aces_tone_mapper(exposure)`. -/
def create_aces_tone_mapper {R : Type} [LinearOrderedField R] (exposure : R) :
    Except ObjectConstructionException (ACESToneMapper R) :=
  ACESToneMapper.construct exposure

/-- The method `ACESToneMapper::process` on the image of the render target, given as its
rows: the three assignments of the loop body for every pixel. -/
def ACESToneMapper.process {R : Type} [LinearOrderedField R] (self : ACESToneMapper R)
    (image : List (List (Spectrum R))) : List (List (Spectrum R)) :=
  image.map (fun row => row.map (fun pixel =>
    (ACESToneMapper.aces_curve (pixel.1 * self.exposure),
      ACESToneMapper.aces_curve (pixel.2.1 * self.exposure),
      ACESToneMapper.aces_curve (pixel.2.2 * self.exposure))))

/-! ## The sky light: `NativeSky::emit_pos` -/

/-- The class `NativeSky` with the members `world_centre_` and `world_radius_` of its base
class `EnvirLight`. -/
structure NativeSky (R : Type) where
  top : FSpectrum R
  bottom : FSpectrum R
  user_specified_power : R
  world_centre : FVec3 R
  world_radius : R

/-- The struct `LightEmitPosResult`. -/
structure LightEmitPosResult (R : Type) where
  pos : FVec3 R
  nor : FVec3 R
  deriving DecidableEq

/-- The value `t` that `NativeSky::emit_pos(ref, ref_to_light)` computes; `FCoord::from_z`
is a parameter. -/
def NativeSky.emit_t {R : Type} [LinearOrderedField R] (from_z : FVec3 R → Coord R)
    (self : NativeSky R) (ref ref_to_light : FVec3 R) : R :=
  let ex := (from_z ref_to_light).x
  let ey := (from_z ref_to_light).y
  let d := (from_z ref_to_light).z
  let a := FVec3.smul self.world_radius ex
  let b := FVec3.smul self.world_radius ey
  let c := d.neg
  let m := ref - self.world_centre - FVec3.smul self.world_radius d
  let D0 := a.y * b.z - a.z * b.y
  let D1 := a.x * b.z - a.z * b.x
  let D2 := a.x * b.y - a.y * b.x
  let det := c.x * D0 - c.y * D1 + c.z * D2
  let tdet := m.x * D0 - m.y * D1 + m.z * D2
  tdet / det

/-- The method `NativeSky::emit_pos(ref, ref_to_light)`: the point `ref + t * d` and the
vector `c = -d`. -/
def NativeSky.emit_pos {R : Type} [LinearOrderedField R] (from_z : FVec3 R → Coord R)
    (self : NativeSky R) (ref ref_to_light : FVec3 R) : LightEmitPosResult R :=
  let d := (from_z ref_to_light).z
  let c := d.neg
  let t := self.emit_t from_z ref ref_to_light
  ⟨ref + FVec3.smul t d, c⟩

/-- A sky of radius `2` around the origin. -/
def sample_sky : NativeSky ℚ := ⟨FSpectrum.splat 1, FSpectrum.splat 0, 0, ⟨0, 0, 0⟩, 2⟩

/-! ## The bounding box: `AABB` -/

/-- The class `AABB`. -/
structure AABB (R : Type) where
  low : FVec3 R
  high : FVec3 R

/-- The method `AABB::contains`. -/
def AABB.contains {R : Type} [LinearOrder R] (self : AABB R) (pnt : FVec3 R) : Bool :=
  decide (self.low.x ≤ pnt.x) && decide (pnt.x ≤ self.high.x) &&
    decide (self.low.y ≤ pnt.y) && decide (pnt.y ≤ self.high.y) &&
    decide (self.low.z ≤ pnt.z) && decide (pnt.z ≤ self.high.z)

/-- The component-wise product `a * b` of two vectors. -/
def FVec3.mul {R : Type} [Mul R] (a b : FVec3 R) : FVec3 R := ⟨a.x * b.x, a.y * b.y, a.z * b.z⟩

/-- The function `elem_min`: component-wise minimum. -/
def elem_min {R : Type} [LinearOrder R] (a b : FVec3 R) : FVec3 R :=
  ⟨min a.x b.x, min a.y b.y, min a.z b.z⟩

/-- The function `elem_max`: component-wise maximum. -/
def elem_max {R : Type} [LinearOrder R] (a b : FVec3 R) : FVec3 R :=
  ⟨max a.x b.x, max a.y b.y, max a.z b.z⟩

/-- The method `min_elem()`: the least component. -/
def FVec3.min_elem {R : Type} [LinearOrder R] (v : FVec3 R) : R := min v.x (min v.y v.z)

/-- The method `max_elem()`: the greatest component. -/
def FVec3.max_elem {R : Type} [LinearOrder R] (v : FVec3 R) : R := max v.x (max v.y v.z)

/-- The method `AABB::intersect(ori, inv_dir, t_min, t_max)`. -/
def AABB.intersect {R : Type} [LinearOrderedField R] (self : AABB R) (ori inv_dir : FVec3 R)
    (t_min t_max : R) : Bool :=
  let n := inv_dir.mul (self.low - ori)
  let f := inv_dir.mul (self.high - ori)
  let min_nf := elem_min n f
  let max_nf := elem_max n f
  decide ((elem_max (FVec3.splat t_min) min_nf).max_elem
    ≤ (elem_min (FVec3.splat t_max) max_nf).min_elem)

/-- The unit cube. -/
def sample_box : AABB ℚ := ⟨⟨0, 0, 0⟩, ⟨1, 1, 1⟩⟩

/-! ## Theorems: `DisneyBRDF` sampling weights -/

/-- Claim C1, evaluated on the code: for `metallic = 0` and `clearcoat = 0` the
constructor stores `wd = 4/5`, `ws = 1`, `wc = 0`; the three weights are
non-negative but add up to `9/5`, not to `1`. -/
theorem DisneyBRDF_sample_weights_sum_defect :
    (DisneyBRDF.construct (fun x : ℚ => x) (1, 1, 1) 0 0 0 0 (1 / 2) 0 0 0 0 0).sample_weights
        = ⟨4 / 5, 1, 0⟩ ∧
      (DisneyBRDF.construct (fun x : ℚ => x) (1, 1, 1) 0 0 0 0 (1 / 2) 0 0 0 0 0).sample_weights.wd
        + (DisneyBRDF.construct (fun x : ℚ => x) (1, 1, 1) 0 0 0 0 (1 / 2) 0 0 0 0 0).sample_weights.ws
        + (DisneyBRDF.construct (fun x : ℚ => x) (1, 1, 1) 0 0 0 0 (1 / 2) 0 0 0 0 0).sample_weights.wc
        = 9 / 5 := by
  constructor <;> norm_num [DisneyBRDF.construct, SampleWeights.init]

/-- Claim C5, evaluated on the code: for `metallic = 0` and `clearcoat = 1` the weights
are `wd = 4/5`, `ws = 2/3`, `wc = 1/3`; `sample` takes the clearcoat branch exactly
when `u >= 22/15`, hence for no `u` in `[0,1)`, although `pdf` weights the clearcoat
density by `1/3`; the specular branch is taken on `[4/5, 22/15)`. -/
theorem DisneyBRDF_sample_bands_defect :
    (DisneyBRDF.construct (fun x : ℚ => x) (1, 1, 1) 0 0 0 0 (1 / 2) 0 0 0 1 0).sample_weights
        = ⟨4 / 5, 2 / 3, 1 / 3⟩ ∧
      (DisneyBRDF.construct (fun x : ℚ => x) (1, 1, 1) 0 0 0 0 (1 / 2) 0 0 0 1 0).pdf_weight
        Lobe.clearcoat = 1 / 3 ∧
      (∀ u : ℚ,
        (DisneyBRDF.construct (fun x : ℚ => x) (1, 1, 1) 0 0 0 0 (1 / 2) 0 0 0 1 0).sample_lobe u
          = Lobe.clearcoat ↔ 22 / 15 ≤ u) ∧
      (∀ u : ℚ,
        (DisneyBRDF.construct (fun x : ℚ => x) (1, 1, 1) 0 0 0 0 (1 / 2) 0 0 0 1 0).sample_lobe u
          = Lobe.specular ↔ 4 / 5 ≤ u ∧ u < 22 / 15) := by
  have hw : (DisneyBRDF.construct (fun x : ℚ => x) (1, 1, 1) 0 0 0 0 (1 / 2) 0 0 0 1 0).sample_weights
      = ⟨4 / 5, 2 / 3, 1 / 3⟩ := by
    norm_num [DisneyBRDF.construct, SampleWeights.init]
  refine ⟨hw, ?_, ?_, ?_⟩
  · simp only [DisneyBRDF.pdf_weight, hw]
  · intro u
    simp only [DisneyBRDF.sample_lobe, hw]
    by_cases h1 : u < 4 / 5
    · simp only [h1, if_true]
      constructor
      · intro h; cases h
      · intro h; linarith
    · by_cases h2 : u - 4 / 5 < 2 / 3
      · simp only [h1, h2, if_true, if_false]
        constructor
        · intro h; cases h
        · intro h; linarith
      · simp only [h1, h2, if_false, true_iff]
        linarith
  · intro u
    simp only [DisneyBRDF.sample_lobe, hw]
    by_cases h1 : u < 4 / 5
    · simp only [h1, if_true]
      constructor
      · intro h; cases h
      · intro h; linarith [h.1]
    · by_cases h2 : u - 4 / 5 < 2 / 3
      · simp only [h1, h2, if_true, if_false, true_iff]
        constructor <;> linarith
      · simp only [h1, h2, if_false]
        constructor
        · intro h; cases h
        · intro h; linarith [h.2]

/-! ## Theorems: the statistics update -/

section UpdatePixelParams

variable {R : Type} [LinearOrderedField R]

/-- The ratio `new_N / (N + M)` of the update lies in `(0, 1]` and is below `1`
when `alpha < 1`. -/
theorem shrink_ratio_bounds (alpha N : R) (M : Int) (hN : 0 ≤ N) (hM : 0 < M)
    (h0 : 0 < alpha) (h1 : alpha ≤ 1) :
    0 < (N + alpha * (M : R)) / (N + (M : R)) ∧ (N + alpha * (M : R)) / (N + (M : R)) ≤ 1 ∧
      (alpha < 1 → (N + alpha * (M : R)) / (N + (M : R)) < 1) := by
  have hM' : (0 : R) < (M : R) := by exact_mod_cast hM
  have hden : 0 < N + (M : R) := by linarith
  have hnum : 0 < N + alpha * (M : R) := by
    have : 0 < alpha * (M : R) := mul_pos h0 hM'
    linarith
  refine ⟨div_pos hnum hden, ?_, ?_⟩
  · rw [div_le_one hden]
    have : alpha * (M : R) ≤ 1 * (M : R) := mul_le_mul_of_nonneg_right h1 hM'.le
    linarith
  · intro hlt
    rw [div_lt_one hden]
    have : alpha * (M : R) < 1 * (M : R) := mul_lt_mul_of_pos_right hlt hM'
    linarith

/-- A non-negative square root of a value in `(0, 1]` lies in `(0, 1]`, and is
below `1` when the value is. -/
theorem sqrt_value_bounds (s x : R) (hs : 0 ≤ s) (hsq : s * s = x) (hx0 : 0 < x) (hx1 : x ≤ 1) :
    0 < s ∧ s ≤ 1 ∧ (x < 1 → s < 1) := by
  refine ⟨?_, ?_, ?_⟩
  · rcases hs.lt_or_eq with h | h
    · exact h
    · rw [← h] at hsq; simp at hsq; linarith
  · by_contra hcon
    push_neg at hcon
    have : 1 * 1 < s * s := mul_lt_mul_of_lt_of_le_of_nonneg_of_pos hcon hcon.le zero_le_one
      (by linarith)
    linarith
  · intro hlt
    by_contra hcon
    push_neg at hcon
    have : 1 * 1 ≤ s * s := mul_le_mul hcon hcon zero_le_one hs
    linarith

/-- The radius written by `update_pixel_params`. -/
theorem update_pixel_params_radius (sqrt : R → R) (alpha : R) (pixel : Pixel R) :
    (update_pixel_params sqrt alpha pixel).radius =
      if pixel.M > 0 then
        pixel.radius * sqrt ((pixel.N + alpha * (pixel.M : R)) / (pixel.N + (pixel.M : R)))
      else pixel.radius := by
  unfold update_pixel_params
  by_cases h : pixel.M > 0 <;> simp [h]

/-- The count `N` written by `update_pixel_params`. -/
theorem update_pixel_params_N (sqrt : R → R) (alpha : R) (pixel : Pixel R) :
    (update_pixel_params sqrt alpha pixel).N =
      if pixel.M > 0 then pixel.N + alpha * (pixel.M : R) else pixel.N := by
  unfold update_pixel_params
  by_cases h : pixel.M > 0 <;> simp [h]

/-- The counter `M` after `update_pixel_params`. -/
theorem update_pixel_params_M (sqrt : R → R) (alpha : R) (pixel : Pixel R) :
    (update_pixel_params sqrt alpha pixel).M = if pixel.M > 0 then 0 else pixel.M := by
  unfold update_pixel_params
  by_cases h : pixel.M > 0 <;> simp [h]

/-- Deposits leave `radius` and `N` alone and add their number to `M`. -/
theorem foldl_deposit_fields (deltas : List (FSpectrum R)) (pixel : Pixel R) :
    (deltas.foldl Pixel.deposit pixel).radius = pixel.radius ∧
      (deltas.foldl Pixel.deposit pixel).N = pixel.N ∧
      (deltas.foldl Pixel.deposit pixel).M = pixel.M + (deltas.length : Int) := by
  induction deltas generalizing pixel with
  | nil => simp
  | cons d ds ih =>
    obtain ⟨h1, h2, h3⟩ := ih (pixel.deposit d)
    simp only [List.foldl_cons, List.length_cons]
    refine ⟨h1.trans rfl, h2.trans rfl, ?_⟩
    rw [h3]
    simp only [Pixel.deposit]
    push_cast
    ring

/-- One update keeps `radius > 0`, `N >= 0`, `M >= 0` and does not enlarge the radius;
it shrinks the radius when `M > 0` and `alpha < 1`. -/
theorem update_pixel_params_step (sqrt : R → R)
    (hsqrt : ∀ x : R, 0 ≤ x → 0 ≤ sqrt x ∧ sqrt x * sqrt x = x)
    (alpha : R) (h0 : 0 < alpha) (h1 : alpha ≤ 1) (pixel : Pixel R)
    (hr : 0 < pixel.radius) (hN : 0 ≤ pixel.N) (hM : 0 ≤ pixel.M) :
    0 < (update_pixel_params sqrt alpha pixel).radius ∧
      0 ≤ (update_pixel_params sqrt alpha pixel).N ∧
      0 ≤ (update_pixel_params sqrt alpha pixel).M ∧
      (update_pixel_params sqrt alpha pixel).radius ≤ pixel.radius ∧
      (0 < pixel.M → alpha < 1 →
        (update_pixel_params sqrt alpha pixel).radius < pixel.radius) := by
  rw [update_pixel_params_radius, update_pixel_params_N, update_pixel_params_M]
  by_cases h : pixel.M > 0
  · simp only [if_pos h]
    obtain ⟨hx0, hx1, hxlt⟩ := shrink_ratio_bounds alpha pixel.N pixel.M hN h h0 h1
    obtain ⟨hs0, hsq⟩ := hsqrt _ hx0.le
    obtain ⟨hp, hle, hlt⟩ := sqrt_value_bounds _ _ hs0 hsq hx0 hx1
    have hM' : (0 : R) < (pixel.M : R) := by exact_mod_cast h
    refine ⟨mul_pos hr hp, ?_, le_refl _, ?_, ?_⟩
    · have : 0 < alpha * (pixel.M : R) := mul_pos h0 hM'
      linarith
    · calc pixel.radius * sqrt _ ≤ pixel.radius * 1 := mul_le_mul_of_nonneg_left hle hr.le
        _ = pixel.radius := mul_one _
    · intro _ ha
      calc pixel.radius * sqrt _ < pixel.radius * 1 := mul_lt_mul_of_pos_left (hlt (hxlt ha)) hr
        _ = pixel.radius := mul_one _
  · simp only [if_neg h]
    exact ⟨hr, hN, hM, le_refl _, fun h' => absurd h' h⟩

/-- One iteration of a pixel keeps `radius > 0`, `N >= 0`, `M >= 0` and does not
enlarge the radius. -/
theorem pixel_iteration_step (sqrt : R → R)
    (hsqrt : ∀ x : R, 0 ≤ x → 0 ≤ sqrt x ∧ sqrt x * sqrt x = x)
    (alpha : R) (h0 : 0 < alpha) (h1 : alpha ≤ 1) (pixel : Pixel R)
    (it : VisiblePoint R × List (FSpectrum R))
    (hr : 0 < pixel.radius) (hN : 0 ≤ pixel.N) (hM : 0 ≤ pixel.M) :
    0 < (pixel_iteration sqrt alpha pixel it).radius ∧
      0 ≤ (pixel_iteration sqrt alpha pixel it).N ∧
      0 ≤ (pixel_iteration sqrt alpha pixel it).M ∧
      (pixel_iteration sqrt alpha pixel it).radius ≤ pixel.radius := by
  obtain ⟨e1, e2, e3⟩ := foldl_deposit_fields it.2 { pixel with vp := it.1 }
  have hr' : 0 < (it.2.foldl Pixel.deposit { pixel with vp := it.1 }).radius := by
    rw [e1]; exact hr
  have hN' : 0 ≤ (it.2.foldl Pixel.deposit { pixel with vp := it.1 }).N := by
    rw [e2]; exact hN
  have hM' : 0 ≤ (it.2.foldl Pixel.deposit { pixel with vp := it.1 }).M := by
    rw [e3]
    have : (0 : Int) ≤ (it.2.length : Int) := Int.ofNat_nonneg _
    show 0 ≤ pixel.M + (it.2.length : Int)
    omega
  obtain ⟨a, b, c, d, _⟩ := update_pixel_params_step sqrt hsqrt alpha h0 h1 _ hr' hN' hM'
  refine ⟨a, b, c, ?_⟩
  unfold pixel_iteration
  rw [e1] at d
  exact d

/-- Any number of iterations keeps `radius > 0`, `N >= 0`, `M >= 0`. -/
theorem pixel_iterations_invariant (sqrt : R → R)
    (hsqrt : ∀ x : R, 0 ≤ x → 0 ≤ sqrt x ∧ sqrt x * sqrt x = x)
    (alpha : R) (h0 : 0 < alpha) (h1 : alpha ≤ 1)
    (its : List (VisiblePoint R × List (FSpectrum R))) (pixel : Pixel R)
    (hr : 0 < pixel.radius) (hN : 0 ≤ pixel.N) (hM : 0 ≤ pixel.M) :
    0 < (its.foldl (pixel_iteration sqrt alpha) pixel).radius ∧
      0 ≤ (its.foldl (pixel_iteration sqrt alpha) pixel).N ∧
      0 ≤ (its.foldl (pixel_iteration sqrt alpha) pixel).M := by
  induction its generalizing pixel with
  | nil => exact ⟨hr, hN, hM⟩
  | cons it rest ih =>
    obtain ⟨a, b, c, _⟩ := pixel_iteration_step sqrt hsqrt alpha h0 h1 pixel it hr hN hM
    exact ih _ a b c

/-- Rescaling a channel by `n * n` and dividing by `r * r` is rescaling by `(n / r)^2`. -/
theorem Chan.divs_scale_sq (c : Chan R) (n r : R) (hr : r ≠ 0) :
    (c.scale (n * n)).divs (r * r) = c.scale ((n / r) ^ 2) := by
  cases c with
  | fin a =>
    have hrr : r * r ≠ 0 := mul_ne_zero hr hr
    simp only [Chan.scale, Chan.divs, if_neg hrr]
    congr 1
    field_simp
    ring
  | nonfin => rfl

/-- Claim C2, counterexample: with `alpha = 1` (allowed by the claim), a pixel with a
valid visible point, `radius = 1`, `N = 0` and `M = 1` keeps its radius. -/
theorem update_pixel_params_alpha_one_keeps_radius :
    (sample_pixel (0 : ℝ) 1).vp.is_valid = true ∧ 0 < (sample_pixel (0 : ℝ) 1).radius ∧
      0 ≤ (sample_pixel (0 : ℝ) 1).N ∧ (0 : ℝ) < 1 ∧ (1 : ℝ) ≤ 1 ∧
      0 < (sample_pixel (0 : ℝ) 1).M ∧
      ¬ ((update_pixel_params Real.sqrt 1 (sample_pixel (0 : ℝ) 1)).radius
          < (sample_pixel (0 : ℝ) 1).radius) := by
  rw [update_pixel_params_radius]
  simp [sample_pixel, VisiblePoint.is_valid]

/-- Claim C2, amended: for `radius > 0`, `N >= 0`, `0 < alpha < 1` and `M > 0`, the
radius after `update_pixel_params` is strictly smaller than the radius before. -/
theorem update_pixel_params_radius_lt (sqrt : R → R)
    (hsqrt : ∀ x : R, 0 ≤ x → 0 ≤ sqrt x ∧ sqrt x * sqrt x = x)
    (alpha : R) (h0 : 0 < alpha) (h1 : alpha < 1) (pixel : Pixel R)
    (hr : 0 < pixel.radius) (hN : 0 ≤ pixel.N) (hM : 0 < pixel.M) :
    (update_pixel_params sqrt alpha pixel).radius < pixel.radius :=
  (update_pixel_params_step sqrt hsqrt alpha h0 h1.le pixel hr hN hM.le).2.2.2.2 hM h1

/-- Witness for claim C2 amended, at `alpha = 1/2`, `radius = 1`, `N = 0`, `M = 1`. -/
theorem update_pixel_params_radius_lt_witness :
    ((0 : ℝ) < 1 / 2 ∧ (1 / 2 : ℝ) < 1 ∧ 0 < (sample_pixel (0 : ℝ) 1).radius ∧
        0 ≤ (sample_pixel (0 : ℝ) 1).N ∧ 0 < (sample_pixel (0 : ℝ) 1).M) ∧
      (update_pixel_params Real.sqrt (1 / 2) (sample_pixel (0 : ℝ) 1)).radius
        < (sample_pixel (0 : ℝ) 1).radius :=
  ⟨⟨by norm_num, by norm_num, by simp [sample_pixel], by simp [sample_pixel],
      by simp [sample_pixel]⟩,
    update_pixel_params_radius_lt Real.sqrt
      (fun x hx => ⟨Real.sqrt_nonneg x, Real.mul_self_sqrt hx⟩) (1 / 2) (by norm_num)
      (by norm_num) (sample_pixel 0 1) (by simp [sample_pixel]) (by simp [sample_pixel])
      (by simp [sample_pixel])⟩

/-- Claim C3: for `radius > 0`, `N >= 0`, `M >= 0` and `alpha` in `(0,1]`,
`update_pixel_params` does not increase the radius, and after any number of iterations
(visible point stored, deposits made, statistics updated) one more iteration does not
increase the radius either. -/
theorem update_pixel_params_radius_le (sqrt : R → R)
    (hsqrt : ∀ x : R, 0 ≤ x → 0 ≤ sqrt x ∧ sqrt x * sqrt x = x)
    (alpha : R) (h0 : 0 < alpha) (h1 : alpha ≤ 1) (pixel : Pixel R)
    (hr : 0 < pixel.radius) (hN : 0 ≤ pixel.N) (hM : 0 ≤ pixel.M) :
    (update_pixel_params sqrt alpha pixel).radius ≤ pixel.radius ∧
      ∀ (its : List (VisiblePoint R × List (FSpectrum R)))
        (it : VisiblePoint R × List (FSpectrum R)),
        (pixel_iteration sqrt alpha (its.foldl (pixel_iteration sqrt alpha) pixel) it).radius
          ≤ (its.foldl (pixel_iteration sqrt alpha) pixel).radius := by
  refine ⟨(update_pixel_params_step sqrt hsqrt alpha h0 h1 pixel hr hN hM).2.2.2.1, ?_⟩
  intro its it
  obtain ⟨a, b, c⟩ := pixel_iterations_invariant sqrt hsqrt alpha h0 h1 its pixel hr hN hM
  exact (pixel_iteration_step sqrt hsqrt alpha h0 h1 _ it a b c).2.2.2

/-- Witness for claim C3, at `alpha = 1`, `radius = 1`, `N = 0`, `M = 1`, with one
earlier iteration of one deposit and a further iteration of two deposits. -/
theorem update_pixel_params_radius_le_witness :
    ((0 : ℝ) < 1 ∧ (1 : ℝ) ≤ 1 ∧ 0 < (sample_pixel (0 : ℝ) 1).radius ∧
        0 ≤ (sample_pixel (0 : ℝ) 1).N ∧ 0 ≤ (sample_pixel (0 : ℝ) 1).M) ∧
      (update_pixel_params Real.sqrt 1 (sample_pixel (0 : ℝ) 1)).radius
        ≤ (sample_pixel (0 : ℝ) 1).radius ∧
      (pixel_iteration Real.sqrt 1
          ([((sample_pixel (0 : ℝ) 0).vp, [FSpectrum.splat 1])].foldl
            (pixel_iteration Real.sqrt 1) (sample_pixel 0 1))
          ((sample_pixel (0 : ℝ) 0).vp, [FSpectrum.splat 1, FSpectrum.splat 1])).radius
        ≤ ([((sample_pixel (0 : ℝ) 0).vp, [FSpectrum.splat 1])].foldl
            (pixel_iteration Real.sqrt 1) (sample_pixel 0 1)).radius := by
  have h := update_pixel_params_radius_le Real.sqrt
    (fun x hx => ⟨Real.sqrt_nonneg x, Real.mul_self_sqrt hx⟩) 1 (by norm_num)
    (by norm_num) (sample_pixel 0 1) (by simp [sample_pixel]) (by simp [sample_pixel])
    (by simp [sample_pixel])
  exact ⟨⟨by norm_num, by norm_num, by simp [sample_pixel], by simp [sample_pixel],
    by simp [sample_pixel]⟩, h.1, h.2 _ _⟩

/-- Claim C4: for a pixel with `M > 0`, `update_pixel_params` sets `N` to
`new_N = N + alpha * M`, `radius` to `new_R = radius * sqrt (new_N / (N + M))`, `tau` to
`(tau + vp.coef * phi) * (new_R / radius)^2` with the old radius and the old `phi`
(the quotient by the old radius needs that radius to be non-zero), `M` to `0` and every
channel of `phi` to `0`. -/
theorem update_pixel_params_gathered (sqrt : R → R) (alpha : R) (pixel : Pixel R)
    (hM : pixel.M > 0) :
    (update_pixel_params sqrt alpha pixel).N = pixel.N + alpha * (pixel.M : R) ∧
      (update_pixel_params sqrt alpha pixel).radius =
        pixel.radius * sqrt ((pixel.N + alpha * (pixel.M : R)) / (pixel.N + (pixel.M : R))) ∧
      (pixel.radius ≠ 0 →
        (update_pixel_params sqrt alpha pixel).tau =
          (pixel.tau + pixel.vp.coef * pixel.phi).scale
            ((pixel.radius * sqrt ((pixel.N + alpha * (pixel.M : R)) / (pixel.N + (pixel.M : R)))
              / pixel.radius) ^ 2)) ∧
      (update_pixel_params sqrt alpha pixel).M = 0 ∧
      (∀ i : Fin 3, (update_pixel_params sqrt alpha pixel).phi.get i = Chan.fin 0) := by
  rw [update_pixel_params_radius, update_pixel_params_N, update_pixel_params_M]
  simp only [if_pos hM, true_and]
  refine ⟨?_, ?_⟩
  · intro hr
    unfold update_pixel_params
    simp only [if_pos hM, FSpectrum.scale, FSpectrum.divs, FSpectrum.get]
    simp only [Chan.divs_scale_sq _ _ _ hr]
  · intro i
    unfold update_pixel_params
    simp only [if_pos hM]
    fin_cases i <;> rfl

/-- Witness for claim C4, at `alpha = 1/2`, `radius = 1`, `N = 0`, `M = 1`: the update
writes `N = 1/2`, `radius = sqrt (1/2)` and `M = 0`. -/
theorem update_pixel_params_gathered_witness :
    (sample_pixel (0 : ℝ) 1).M > 0 ∧
      (update_pixel_params Real.sqrt (1 / 2) (sample_pixel (0 : ℝ) 1)).N = 1 / 2 ∧
      (update_pixel_params Real.sqrt (1 / 2) (sample_pixel (0 : ℝ) 1)).radius
        = Real.sqrt (1 / 2) ∧
      (update_pixel_params Real.sqrt (1 / 2) (sample_pixel (0 : ℝ) 1)).M = 0 := by
  have h := update_pixel_params_gathered Real.sqrt (1 / 2) (sample_pixel (0 : ℝ) 1)
    (by simp [sample_pixel])
  refine ⟨by simp [sample_pixel], ?_, ?_, h.2.2.2.1⟩
  · rw [h.1]
    simp [sample_pixel]
  · rw [h.2.1]
    simp [sample_pixel]

end UpdatePixelParams

/-! ## Theorems: deposits into the visible-point grid -/

section Searcher

variable {R : Type} [LinearOrderedField R]

/-- Channel addition is commutative. -/
theorem Chan.add_swap (a b : Chan R) : a + b = b + a := by
  cases a <;> cases b <;>
    first
    | rfl
    | exact congrArg Chan.fin (add_comm _ _)

/-- Channel addition is associative. -/
theorem Chan.add_group3 (a b c : Chan R) : a + b + c = a + (b + c) := by
  cases a <;> cases b <;> cases c <;>
    first
    | rfl
    | exact congrArg Chan.fin (add_assoc _ _ _)

/-- Adding a finite value once and then `k` times is adding it `k + 1` times. -/
theorem Chan.add_scale_succ (p d : Chan R) (k : Nat) (hd : d.is_finite = true) :
    p + d + d.scale (k : R) = p + d.scale ((k + 1 : Nat) : R) := by
  cases d with
  | nonfin => simp [Chan.is_finite] at hd
  | fin v =>
    cases p with
    | nonfin => rfl
    | fin a =>
      show Chan.fin (a + v + v * (k : R)) = Chan.fin (a + v * ((k + 1 : Nat) : R))
      congr 1
      push_cast
      ring

/-- Adding zero times a finite value changes nothing. -/
theorem Chan.add_scale_zero (p d : Chan R) (hd : d.is_finite = true) :
    p + d.scale ((0 : Nat) : R) = p := by
  cases d with
  | nonfin => simp [Chan.is_finite] at hd
  | fin v =>
    cases p with
    | nonfin => rfl
    | fin a =>
      show Chan.fin (a + v * ((0 : Nat) : R)) = Chan.fin a
      congr 1
      push_cast
      ring

/-- Spectrum addition is commutative. -/
theorem FSpectrum.sum_swap (s t : FSpectrum R) : s + t = t + s := by
  show FSpectrum.mk _ _ _ = FSpectrum.mk _ _ _
  rw [Chan.add_swap s.r, Chan.add_swap s.g, Chan.add_swap s.b]

/-- Spectrum addition is associative. -/
theorem FSpectrum.sum_group3 (s t u : FSpectrum R) : s + t + u = s + (t + u) := by
  show FSpectrum.mk _ _ _ = FSpectrum.mk _ _ _
  congr 1 <;> exact Chan.add_group3 _ _ _

/-- The channels of a finite spectrum are finite. -/
theorem FSpectrum.is_finite_channels {K : Type} (s : FSpectrum K) (h : s.is_finite = true) :
    s.r.is_finite = true ∧ s.g.is_finite = true ∧ s.b.is_finite = true := by
  simpa [FSpectrum.is_finite, and_assoc] using h

/-- Adding zero times a finite spectrum changes nothing. -/
theorem FSpectrum.sum_scale_zero (p d : FSpectrum R) (hd : d.is_finite = true) :
    p + d.scale ((0 : Nat) : R) = p := by
  obtain ⟨h1, h2, h3⟩ := FSpectrum.is_finite_channels d hd
  cases p with
  | mk r g b =>
    show FSpectrum.mk _ _ _ = FSpectrum.mk r g b
    simp only [FSpectrum.mk.injEq]
    exact ⟨Chan.add_scale_zero _ _ h1, Chan.add_scale_zero _ _ h2, Chan.add_scale_zero _ _ h3⟩

/-- Adding a finite spectrum once and then `k` times is adding it `k + 1` times. -/
theorem FSpectrum.sum_scale_succ (p d : FSpectrum R) (k : Nat) (hd : d.is_finite = true) :
    p + d + d.scale (k : R) = p + d.scale ((k + 1 : Nat) : R) := by
  obtain ⟨h1, h2, h3⟩ := FSpectrum.is_finite_channels d hd
  show FSpectrum.mk _ _ _ = FSpectrum.mk _ _ _
  simp only [FSpectrum.mk.injEq]
  exact ⟨Chan.add_scale_succ _ _ k h1, Chan.add_scale_succ _ _ k h2,
    Chan.add_scale_succ _ _ k h3⟩

/-- The spectrum written by `deposit` is the component-wise sum. -/
theorem Pixel.deposit_phi (pixel : Pixel R) (d : FSpectrum R) :
    (pixel.deposit d).phi = pixel.phi + d := rfl

/-- The effect of `k` nodes on a pixel the photon misses. -/
theorem photon_effect_miss (bsdf_eval : Nat → FVec3 R → FVec3 R → TransMode → FSpectrum R)
    (photon_pos : FVec3 R) (phi : FSpectrum R) (wr : FVec3 R) (k : Nat) (pixel : Pixel R)
    (h : distance2 pixel.vp.pos photon_pos > pixel.radius * pixel.radius) :
    photon_effect bsdf_eval photon_pos phi wr k pixel = pixel := by
  unfold photon_effect
  rw [if_pos h]

/-- The effect of `k` nodes on a pixel whose contribution is not finite. -/
theorem photon_effect_nonfinite (bsdf_eval : Nat → FVec3 R → FVec3 R → TransMode → FSpectrum R)
    (photon_pos : FVec3 R) (phi : FSpectrum R) (wr : FVec3 R) (k : Nat) (pixel : Pixel R)
    (b : Nat) (hb : pixel.vp.bsdf = some b)
    (hfin : (phi * bsdf_eval b wr pixel.vp.wr TransMode.Radiance).is_finite = false) :
    photon_effect bsdf_eval photon_pos phi wr k pixel = pixel := by
  unfold photon_effect
  split
  · rfl
  · simp only [hb, hfin, Bool.not_false, if_true]

/-- The effect of `k` nodes on a pixel the photon hits with a finite contribution. -/
theorem photon_effect_hit (bsdf_eval : Nat → FVec3 R → FVec3 R → TransMode → FSpectrum R)
    (photon_pos : FVec3 R) (phi : FSpectrum R) (wr : FVec3 R) (k : Nat) (pixel : Pixel R)
    (h : ¬ distance2 pixel.vp.pos photon_pos > pixel.radius * pixel.radius)
    (b : Nat) (hb : pixel.vp.bsdf = some b)
    (hfin : (phi * bsdf_eval b wr pixel.vp.wr TransMode.Radiance).is_finite = true) :
    photon_effect bsdf_eval photon_pos phi wr k pixel =
      { pixel with
        phi := pixel.phi + (phi * bsdf_eval b wr pixel.vp.wr TransMode.Radiance).scale (k : R)
        M := pixel.M + (k : Int) } := by
  unfold photon_effect
  rw [if_neg h]
  simp only [hb, hfin, Bool.not_true, Bool.false_eq_true, if_false]

/-- Zero nodes have no effect. -/
theorem photon_effect_zero (bsdf_eval : Nat → FVec3 R → FVec3 R → TransMode → FSpectrum R)
    (photon_pos : FVec3 R) (phi : FSpectrum R) (wr : FVec3 R) (pixel : Pixel R) :
    photon_effect bsdf_eval photon_pos phi wr 0 pixel = pixel := by
  by_cases h : distance2 pixel.vp.pos photon_pos > pixel.radius * pixel.radius
  · exact photon_effect_miss bsdf_eval photon_pos phi wr 0 pixel h
  · cases hb : pixel.vp.bsdf with
    | none =>
      unfold photon_effect
      rw [if_neg h]
      simp only [hb]
    | some b =>
      cases hfin : (phi * bsdf_eval b wr pixel.vp.wr TransMode.Radiance).is_finite with
      | false => exact photon_effect_nonfinite bsdf_eval photon_pos phi wr 0 pixel b hb hfin
      | true =>
        rw [photon_effect_hit bsdf_eval photon_pos phi wr 0 pixel h b hb hfin,
          FSpectrum.sum_scale_zero _ _ hfin]
        have e : pixel.M + ((0 : Nat) : Int) = pixel.M := by simp
        rw [e]

/-- The effect of `k` nodes after one deposit is the effect of `k + 1` nodes. -/
theorem photon_effect_deposit (bsdf_eval : Nat → FVec3 R → FVec3 R → TransMode → FSpectrum R)
    (photon_pos : FVec3 R) (phi : FSpectrum R) (wr : FVec3 R) (k : Nat) (pixel : Pixel R)
    (h : ¬ distance2 pixel.vp.pos photon_pos > pixel.radius * pixel.radius)
    (b : Nat) (hb : pixel.vp.bsdf = some b)
    (hfin : (phi * bsdf_eval b wr pixel.vp.wr TransMode.Radiance).is_finite = true) :
    photon_effect bsdf_eval photon_pos phi wr k
        (pixel.deposit (phi * bsdf_eval b wr pixel.vp.wr TransMode.Radiance)) =
      photon_effect bsdf_eval photon_pos phi wr (k + 1) pixel := by
  rw [photon_effect_hit bsdf_eval photon_pos phi wr (k + 1) pixel h b hb hfin,
    photon_effect_hit bsdf_eval photon_pos phi wr k
      (pixel.deposit (phi * bsdf_eval b wr pixel.vp.wr TransMode.Radiance)) h b hb hfin]
  have e1 : (pixel.deposit (phi * bsdf_eval b wr pixel.vp.wr TransMode.Radiance)).phi
      + (phi * bsdf_eval b wr pixel.vp.wr TransMode.Radiance).scale (k : R)
      = pixel.phi + (phi * bsdf_eval b wr pixel.vp.wr TransMode.Radiance).scale
          ((k + 1 : Nat) : R) := by
    rw [Pixel.deposit_phi]
    exact FSpectrum.sum_scale_succ _ _ k hfin
  have e2 : (pixel.deposit (phi * bsdf_eval b wr pixel.vp.wr TransMode.Radiance)).M + (k : Int)
      = pixel.M + ((k + 1 : Nat) : Int) := by
    show pixel.M + 1 + (k : Int) = pixel.M + ((k + 1 : Nat) : Int)
    push_cast
    ring
  show Pixel.mk pixel.vp pixel.radius pixel.N
      ((pixel.deposit (phi * bsdf_eval b wr pixel.vp.wr TransMode.Radiance)).M + (k : Int))
      ((pixel.deposit (phi * bsdf_eval b wr pixel.vp.wr TransMode.Radiance)).phi
        + (phi * bsdf_eval b wr pixel.vp.wr TransMode.Radiance).scale (k : R))
      pixel.tau pixel.direct_illum = _
  rw [e1, e2]

/-- Counting the nodes of a pixel in a bucket, head first. -/
theorem node_count_cons (node : VPNode) (next : List VPNode) (i : Nat) :
    node_count (node :: next) i = node_count next i + (if node.pixel = i then 1 else 0) := by
  unfold node_count
  by_cases h : node.pixel = i <;> simp [List.filter_cons, h]

/-- Counting the nodes of a pixel in a concatenation. -/
theorem node_count_append (l₁ l₂ : List VPNode) (i : Nat) :
    node_count (l₁ ++ l₂) i = node_count l₁ i + node_count l₂ i := by
  unfold node_count
  simp [List.filter_append]

/-- A pixel with no node in the bucket has count zero. -/
theorem node_count_pos_iff (l : List VPNode) (i : Nat) :
    0 < node_count l i ↔ (⟨i⟩ : VPNode) ∈ l := by
  unfold node_count
  rw [List.length_pos_iff_exists_mem]
  constructor
  · rintro ⟨a, ha⟩
    rw [List.mem_filter] at ha
    obtain ⟨ha1, ha2⟩ := ha
    have : a = ⟨i⟩ := by
      cases a
      simp only [decide_eq_true_eq] at ha2
      simp [ha2]
    rw [← this]; exact ha1
  · intro h
    exact ⟨⟨i⟩, by simp [List.mem_filter, h]⟩

/-- A deposit into one pixel does not change which nodes fault. -/
theorem node_faults_update_deposit (photon_pos : FVec3 R) (pixels : Nat → Pixel R) (j : Nat)
    (d : FSpectrum R) (node : VPNode) :
    node_faults photon_pos (Function.update pixels j ((pixels j).deposit d)) node
      = node_faults photon_pos pixels node := by
  unfold node_faults
  by_cases h : node.pixel = j
  · rw [h, Function.update_same]
    rfl
  · rw [Function.update_noteq h]

/-- The node loop of `add_photon` in closed form: it faults when some node of the bucket
faults, and otherwise every pixel receives the effect of as many nodes as reference it. -/
theorem add_photon_walk_eq (bsdf_eval : Nat → FVec3 R → FVec3 R → TransMode → FSpectrum R)
    (photon_pos : FVec3 R) (phi : FSpectrum R) (wr : FVec3 R) (l : List VPNode)
    (pixels : Nat → Pixel R) :
    add_photon_walk bsdf_eval photon_pos phi wr l pixels =
      if l.any (node_faults photon_pos pixels) = true then none
      else some (fun i =>
        photon_effect bsdf_eval photon_pos phi wr (node_count l i) (pixels i)) := by
  induction l generalizing pixels with
  | nil =>
    simp only [add_photon_walk, List.any_nil, Bool.false_eq_true, if_false, node_count,
      List.filter_nil, List.length_nil]
    congr 1
    funext i
    exact (photon_effect_zero bsdf_eval photon_pos phi wr (pixels i)).symm
  | cons node next ih =>
    have skip : (∀ k, photon_effect bsdf_eval photon_pos phi wr k (pixels node.pixel)
          = pixels node.pixel) →
        (fun i => photon_effect bsdf_eval photon_pos phi wr (node_count (node :: next) i)
            (pixels i))
          = (fun i => photon_effect bsdf_eval photon_pos phi wr (node_count next i)
            (pixels i)) := by
      intro hk
      funext i
      by_cases hi : node.pixel = i
      · rw [← hi, hk, hk]
      · rw [node_count_cons, if_neg hi, Nat.add_zero]
    simp only [add_photon_walk, List.any_cons]
    by_cases hmiss : distance2 (pixels node.pixel).vp.pos photon_pos
        > (pixels node.pixel).radius * (pixels node.pixel).radius
    · rw [if_pos hmiss, ih pixels,
        skip (fun k => photon_effect_miss bsdf_eval photon_pos phi wr k _ hmiss)]
      have hf : node_faults photon_pos pixels node = false := by
        simp [node_faults, hmiss]
      simp only [hf, Bool.false_or]
    · rw [if_neg hmiss]
      cases hb : (pixels node.pixel).vp.bsdf with
      | none =>
        have hf : node_faults photon_pos pixels node = true := by
          simp [node_faults, hmiss, hb]
        simp only [hf, Bool.true_or, if_true]
      | some b =>
        have hf : node_faults photon_pos pixels node = false := by
          simp [node_faults, hb]
        simp only [hf, Bool.false_or]
        cases hfin : (phi * bsdf_eval b wr (pixels node.pixel).vp.wr
            TransMode.Radiance).is_finite with
        | false =>
          simp only [Bool.not_false, if_true]
          rw [ih pixels, skip (fun k =>
            photon_effect_nonfinite bsdf_eval photon_pos phi wr k _ b hb hfin)]
        | true =>
          simp only [Bool.not_true, Bool.false_eq_true, if_false]
          rw [ih]
          have hany : next.any (node_faults photon_pos (Function.update pixels node.pixel
                ((pixels node.pixel).deposit (phi * bsdf_eval b wr (pixels node.pixel).vp.wr
                  TransMode.Radiance))))
              = next.any (node_faults photon_pos pixels) := by
            congr 1
            funext n
            exact node_faults_update_deposit photon_pos pixels node.pixel _ n
          rw [hany]
          congr 2
          funext i
          by_cases hi : node.pixel = i
          · rw [← hi, Function.update_same, node_count_cons, if_pos rfl]
            exact photon_effect_deposit bsdf_eval photon_pos phi wr _ _ hmiss b hb hfin
          · rw [Function.update_noteq (Ne.symm hi), node_count_cons, if_neg hi, Nat.add_zero]

/-- A walk over nodes whose pixels all fail the radius test changes nothing. -/
theorem add_photon_walk_all_miss
    (bsdf_eval : Nat → FVec3 R → FVec3 R → TransMode → FSpectrum R)
    (photon_pos : FVec3 R) (phi : FSpectrum R) (wr : FVec3 R) (l : List VPNode)
    (pixels : Nat → Pixel R)
    (h : ∀ node ∈ l, distance2 (pixels node.pixel).vp.pos photon_pos
      > (pixels node.pixel).radius * (pixels node.pixel).radius) :
    add_photon_walk bsdf_eval photon_pos phi wr l pixels = some pixels := by
  induction l with
  | nil => rfl
  | cons node next ih =>
    simp only [add_photon_walk]
    rw [if_pos (h node (List.mem_cons_self _ _))]
    exact ih (fun n hn => h n (List.mem_cons_of_mem _ hn))

/-- Claim C7: if the photon position `q` is farther than the (non-negative) radius from
the visible point of every pixel that has a node in the searcher, compared on squares,
then `add_photon(q, flux, wr)` returns with every pixel exactly as before, whichever
pixels share the bucket of `q`. -/
theorem add_photon_far_from_all (s : VisiblePointSearcher R)
    (bsdf_eval : Nat → FVec3 R → FVec3 R → TransMode → FSpectrum R)
    (q : FVec3 R) (flux : FSpectrum R) (wr : FVec3 R) (pixels : Nat → Pixel R)
    (hfar : ∀ (e : Nat), ∀ node ∈ s.node_entries e,
      0 ≤ (pixels node.pixel).radius ∧
        (pixels node.pixel).radius * (pixels node.pixel).radius
          < distance2 (pixels node.pixel).vp.pos q) :
    s.add_photon bsdf_eval q flux wr pixels = some pixels := by
  unfold VisiblePointSearcher.add_photon
  exact add_photon_walk_all_miss bsdf_eval q flux wr _ pixels
    (fun node hn => (hfar _ node hn).2)

/-- The method `add_photon` when no node of the walked bucket faults: every pixel
receives the effect of as many nodes as reference it on that bucket. -/
theorem add_photon_eq_effect (s : VisiblePointSearcher R)
    (bsdf_eval : Nat → FVec3 R → FVec3 R → TransMode → FSpectrum R)
    (pos : FVec3 R) (flux : FSpectrum R) (wr : FVec3 R) (pixels : Nat → Pixel R)
    (hvalid : ∀ node ∈ s.node_entries (s.hashed_grid_aux.pos_to_entry pos),
      distance2 (pixels node.pixel).vp.pos pos
          ≤ (pixels node.pixel).radius * (pixels node.pixel).radius →
        (pixels node.pixel).vp.bsdf ≠ none) :
    s.add_photon bsdf_eval pos flux wr pixels =
      some (fun i => photon_effect bsdf_eval pos flux wr
        (node_count (s.node_entries (s.hashed_grid_aux.pos_to_entry pos)) i) (pixels i)) := by
  have hnofault : (s.node_entries (s.hashed_grid_aux.pos_to_entry pos)).any
      (node_faults pos pixels) = false := by
    rw [List.any_eq_false]
    intro node hn
    unfold node_faults
    by_cases hd : distance2 (pixels node.pixel).vp.pos pos
        > (pixels node.pixel).radius * (pixels node.pixel).radius
    · simp [hd]
    · have hne := hvalid node hn (not_lt.mp hd)
      cases hb : (pixels node.pixel).vp.bsdf with
      | none => exact absurd hb hne
      | some b => simp
  unfold VisiblePointSearcher.add_photon
  rw [add_photon_walk_eq, hnofault]
  simp only [Bool.false_eq_true, if_false]

/-- Claim C8: `add_photon(pos, flux, wr)` walks the bucket at `pos_to_entry(pos)`.  When no
node of that bucket faults (every pixel on it that passes the radius test has a BSDF), it
returns a store in which `radius`, `N`, `tau`, `direct_illum` and `vp` of every pixel are
as before; a pixel with `k` nodes on the bucket that passes the radius test
`distance2(vp.pos, pos) <= radius^2` with a finite contribution
`c = flux * bsdf.eval(wr, vp.wr, Radiance)` has `phi` increased by `k` times `c` and `M` by
`k` (one `c` and one count per node); every other pixel is unchanged.  The bucket lists
are not part of the result: they are not written. -/
theorem add_photon_spec (s : VisiblePointSearcher R)
    (bsdf_eval : Nat → FVec3 R → FVec3 R → TransMode → FSpectrum R)
    (pos : FVec3 R) (flux : FSpectrum R) (wr : FVec3 R) (pixels : Nat → Pixel R)
    (hvalid : ∀ node ∈ s.node_entries (s.hashed_grid_aux.pos_to_entry pos),
      distance2 (pixels node.pixel).vp.pos pos
          ≤ (pixels node.pixel).radius * (pixels node.pixel).radius →
        (pixels node.pixel).vp.bsdf ≠ none) :
    ∃ pixels', s.add_photon bsdf_eval pos flux wr pixels = some pixels' ∧
      ∀ i : Nat,
        (pixels' i).radius = (pixels i).radius ∧ (pixels' i).N = (pixels i).N ∧
        (pixels' i).tau = (pixels i).tau ∧
        (pixels' i).direct_illum = (pixels i).direct_illum ∧
        (pixels' i).vp = (pixels i).vp ∧
        (∀ b, (pixels i).vp.bsdf = some b →
          distance2 (pixels i).vp.pos pos ≤ (pixels i).radius * (pixels i).radius →
          (flux * bsdf_eval b wr (pixels i).vp.wr TransMode.Radiance).is_finite = true →
          (pixels' i).phi = (pixels i).phi
              + (flux * bsdf_eval b wr (pixels i).vp.wr TransMode.Radiance).scale
                ((node_count (s.node_entries (s.hashed_grid_aux.pos_to_entry pos)) i : Nat) : R) ∧
            (pixels' i).M = (pixels i).M
              + ((node_count (s.node_entries (s.hashed_grid_aux.pos_to_entry pos)) i : Nat)
                : Int)) ∧
        ((node_count (s.node_entries (s.hashed_grid_aux.pos_to_entry pos)) i = 0 ∨
            (pixels i).radius * (pixels i).radius < distance2 (pixels i).vp.pos pos ∨
            ∃ b, (pixels i).vp.bsdf = some b ∧
              (flux * bsdf_eval b wr (pixels i).vp.wr TransMode.Radiance).is_finite = false) →
          pixels' i = pixels i) := by
  refine ⟨fun i => photon_effect bsdf_eval pos flux wr
    (node_count (s.node_entries (s.hashed_grid_aux.pos_to_entry pos)) i) (pixels i),
    add_photon_eq_effect s bsdf_eval pos flux wr pixels hvalid, ?_⟩
  · intro i
    beta_reduce
    by_cases hmiss : distance2 (pixels i).vp.pos pos > (pixels i).radius * (pixels i).radius
    · rw [photon_effect_miss bsdf_eval pos flux wr _ _ hmiss]
      refine ⟨rfl, rfl, rfl, rfl, rfl, ?_, fun _ => rfl⟩
      intro b _ hin _
      exact absurd hmiss (not_lt.mpr hin)
    · cases hb : (pixels i).vp.bsdf with
      | none =>
        have e : photon_effect bsdf_eval pos flux wr
            (node_count (s.node_entries (s.hashed_grid_aux.pos_to_entry pos)) i) (pixels i)
            = pixels i := by
          unfold photon_effect
          rw [if_neg hmiss]
          simp only [hb]
        rw [e]
        refine ⟨rfl, rfl, rfl, rfl, rfl, ?_, fun _ => rfl⟩
        intro b hb' _ _
        cases hb'
      | some b =>
        cases hfin : (flux * bsdf_eval b wr (pixels i).vp.wr TransMode.Radiance).is_finite with
        | false =>
          rw [photon_effect_nonfinite bsdf_eval pos flux wr _ _ b hb hfin]
          refine ⟨rfl, rfl, rfl, rfl, rfl, ?_, fun _ => rfl⟩
          intro b' hb' _ hf
          cases hb'
          rw [hfin] at hf
          cases hf
        | true =>
          rw [photon_effect_hit bsdf_eval pos flux wr _ _ hmiss b hb hfin]
          refine ⟨rfl, rfl, rfl, rfl, rfl, ?_, ?_⟩
          · intro b' hb' _ _
            cases hb'
            exact ⟨rfl, rfl⟩
          · rintro (h0 | hfar | ⟨b', hb', hf⟩)
            · rw [h0]
              have := photon_effect_zero bsdf_eval pos flux wr (pixels i)
              rw [photon_effect_hit bsdf_eval pos flux wr 0 _ hmiss b hb hfin] at this
              exact this
            · exact absurd hfar hmiss
            · cases hb'
              rw [hfin] at hf
              cases hf

/-- Claim C9: a node whose pixel has a non-finite contribution (in any channel) changes
nothing, and the walk goes on with the remaining nodes: the walk over a bucket that
contains the node equals the walk over the bucket without it; in particular that pixel
leaves the walk with `M`, `phi` and every other field as it entered. -/
theorem add_photon_walk_skips_nonfinite
    (bsdf_eval : Nat → FVec3 R → FVec3 R → TransMode → FSpectrum R)
    (photon_pos : FVec3 R) (phi : FSpectrum R) (wr : FVec3 R)
    (pre post : List VPNode) (node : VPNode) (pixels : Nat → Pixel R) (b : Nat)
    (hb : (pixels node.pixel).vp.bsdf = some b)
    (hfin : (phi * bsdf_eval b wr (pixels node.pixel).vp.wr TransMode.Radiance).is_finite
      = false) :
    add_photon_walk bsdf_eval photon_pos phi wr (pre ++ node :: post) pixels
        = add_photon_walk bsdf_eval photon_pos phi wr (pre ++ post) pixels ∧
      ∀ pixels', add_photon_walk bsdf_eval photon_pos phi wr (pre ++ node :: post) pixels
          = some pixels' → pixels' node.pixel = pixels node.pixel := by
  have hf : node_faults photon_pos pixels node = false := by
    simp [node_faults, hb]
  have hany : (pre ++ node :: post).any (node_faults photon_pos pixels)
      = (pre ++ post).any (node_faults photon_pos pixels) := by
    simp only [List.any_append, List.any_cons, hf, Bool.false_or]
  have hk : ∀ k, photon_effect bsdf_eval photon_pos phi wr k (pixels node.pixel)
      = pixels node.pixel :=
    fun k => photon_effect_nonfinite bsdf_eval photon_pos phi wr k _ b hb hfin
  have heff : (fun i => photon_effect bsdf_eval photon_pos phi wr
        (node_count (pre ++ node :: post) i) (pixels i))
      = (fun i => photon_effect bsdf_eval photon_pos phi wr
        (node_count (pre ++ post) i) (pixels i)) := by
    funext i
    by_cases hi : node.pixel = i
    · rw [← hi, hk, hk]
    · rw [node_count_append, node_count_cons, if_neg hi, Nat.add_zero, node_count_append]
  refine ⟨?_, ?_⟩
  · rw [add_photon_walk_eq, add_photon_walk_eq, hany, heff]
  · intro pixels' hw
    rw [add_photon_walk_eq] at hw
    split at hw
    · cases hw
    · cases hw
      exact hk _

/-! ### Insertion of a visible point -/

/-- The loop `for(int v = lo; v <= hi; ++v)` visits exactly the integers of `[lo, hi]`. -/
theorem mem_loop_range (lo hi v : Int) : v ∈ loop_range lo hi ↔ lo ≤ v ∧ v ≤ hi := by
  unfold loop_range
  simp only [List.mem_map, List.mem_range]
  constructor
  · rintro ⟨i, hi', rfl⟩
    omega
  · rintro ⟨h1, h2⟩
    exact ⟨(v - lo).toNat, by omega, by omega⟩

/-- A property kept by every step of a fold holds at its end. -/
theorem foldl_keeps {S α : Type} (f : S → α → S) (P : S → Prop)
    (hkeep : ∀ s a, P s → P (f s a)) (l : List α) (s : S) (hs : P s) : P (l.foldl f s) := by
  induction l generalizing s with
  | nil => exact hs
  | cons a l ih => exact ih _ (hkeep s a hs)

/-- A property set up by the step for `a` and kept by every step holds at the end of a
fold over a list that contains `a`. -/
theorem foldl_sets_up {S α : Type} (f : S → α → S) (P : S → Prop)
    (hkeep : ∀ s a, P s → P (f s a)) (l : List α) (a : α) (ha : a ∈ l)
    (hset : ∀ s, P (f s a)) (s : S) : P (l.foldl f s) := by
  induction l generalizing s with
  | nil => cases ha
  | cons b l ih =>
    rcases List.mem_cons.mp ha with h | h
    · subst h
      exact foldl_keeps f P hkeep l _ (hset s)
    · exact ih h _

/-- A push keeps the nodes that are already in a bucket. -/
theorem push_keeps_node {K : Type} (s : VisiblePointSearcher K) (entry_idx pixel : Nat) (e : Nat)
    (node : VPNode) (h : node ∈ s.node_entries e) :
    node ∈ (s.push entry_idx pixel).node_entries e := by
  unfold VisiblePointSearcher.push
  by_cases he : e = entry_idx
  · subst he
    simp only [Function.update_same]
    exact List.mem_cons_of_mem _ h
  · simp only [Function.update_noteq he]
    exact h

/-- A push puts a node for the pixel into the bucket it names. -/
theorem push_adds_node {K : Type} (s : VisiblePointSearcher K) (entry_idx pixel : Nat) :
    (⟨pixel⟩ : VPNode) ∈ (s.push entry_idx pixel).node_entries entry_idx := by
  unfold VisiblePointSearcher.push
  simp only [Function.update_same]
  exact List.mem_cons_self _ _

/-- The method `add_vp` does not touch the grid maps. -/
theorem add_vp_hashed_grid_aux (s : VisiblePointSearcher R) (pixels : Nat → Pixel R)
    (p : Nat) : (s.add_vp pixels p).hashed_grid_aux = s.hashed_grid_aux := by
  unfold VisiblePointSearcher.add_vp
  refine foldl_keeps _ (fun t => t.hashed_grid_aux = s.hashed_grid_aux) ?_ _ s rfl
  intro t z ht
  refine foldl_keeps _ (fun t => t.hashed_grid_aux = s.hashed_grid_aux) ?_ _ t ht
  intro t y ht
  refine foldl_keeps _ (fun t => t.hashed_grid_aux = s.hashed_grid_aux) ?_ _ t ht
  intro t x ht
  exact ht

/-- After `add_vp`, every cell between the two corner cells of the pixel's box has a
node for the pixel in its bucket. -/
theorem add_vp_covers_cell (s : VisiblePointSearcher R) (pixels : Nat → Pixel R) (p : Nat)
    (c : Vec3i)
    (hx : (s.hashed_grid_aux.pos_to_grid
          ((pixels p).vp.pos - FVec3.splat (pixels p).radius)).x ≤ c.x ∧
        c.x ≤ (s.hashed_grid_aux.pos_to_grid
          ((pixels p).vp.pos + FVec3.splat (pixels p).radius)).x)
    (hy : (s.hashed_grid_aux.pos_to_grid
          ((pixels p).vp.pos - FVec3.splat (pixels p).radius)).y ≤ c.y ∧
        c.y ≤ (s.hashed_grid_aux.pos_to_grid
          ((pixels p).vp.pos + FVec3.splat (pixels p).radius)).y)
    (hz : (s.hashed_grid_aux.pos_to_grid
          ((pixels p).vp.pos - FVec3.splat (pixels p).radius)).z ≤ c.z ∧
        c.z ≤ (s.hashed_grid_aux.pos_to_grid
          ((pixels p).vp.pos + FVec3.splat (pixels p).radius)).z) :
    (⟨p⟩ : VPNode) ∈ (s.add_vp pixels p).node_entries (s.hashed_grid_aux.grid_to_entry c) := by
  unfold VisiblePointSearcher.add_vp
  have keepx : ∀ (z y : Int) (t : VisiblePointSearcher R) (x : Int),
      (⟨p⟩ : VPNode) ∈ t.node_entries (s.hashed_grid_aux.grid_to_entry c) →
      (⟨p⟩ : VPNode) ∈ (t.push (s.hashed_grid_aux.grid_to_entry ⟨x, y, z⟩) p).node_entries
        (s.hashed_grid_aux.grid_to_entry c) :=
    fun z y t x h => push_keeps_node t _ p _ _ h
  have keepy : ∀ (z : Int) (t : VisiblePointSearcher R) (y : Int),
      (⟨p⟩ : VPNode) ∈ t.node_entries (s.hashed_grid_aux.grid_to_entry c) →
      (⟨p⟩ : VPNode) ∈ ((loop_range
          (s.hashed_grid_aux.pos_to_grid ((pixels p).vp.pos - FVec3.splat (pixels p).radius)).x
          (s.hashed_grid_aux.pos_to_grid ((pixels p).vp.pos + FVec3.splat (pixels p).radius)).x).foldl
        (fun t x => t.push (s.hashed_grid_aux.grid_to_entry ⟨x, y, z⟩) p) t).node_entries
        (s.hashed_grid_aux.grid_to_entry c) :=
    fun z t y h => foldl_keeps _
      (fun t => (⟨p⟩ : VPNode) ∈ t.node_entries (s.hashed_grid_aux.grid_to_entry c))
      (keepx z y) _ t h
  refine foldl_sets_up _
    (fun t => (⟨p⟩ : VPNode) ∈ t.node_entries (s.hashed_grid_aux.grid_to_entry c))
    ?_ _ c.z ((mem_loop_range _ _ _).mpr hz) ?_ s
  · intro t z h
    exact foldl_keeps _
      (fun t => (⟨p⟩ : VPNode) ∈ t.node_entries (s.hashed_grid_aux.grid_to_entry c))
      (keepy z) _ t h
  · intro t
    refine foldl_sets_up _
      (fun t => (⟨p⟩ : VPNode) ∈ t.node_entries (s.hashed_grid_aux.grid_to_entry c))
      (keepy c.z) _ c.y ((mem_loop_range _ _ _).mpr hy) ?_ t
    intro t
    refine foldl_sets_up _
      (fun t => (⟨p⟩ : VPNode) ∈ t.node_entries (s.hashed_grid_aux.grid_to_entry c))
      (keepx c.z c.y) _ c.x ((mem_loop_range _ _ _).mpr hx) ?_ t
    intro t
    exact push_adds_node t _ p

/-- A point within distance `r` of `p` lies in the box `p ± r`, coordinate by coordinate. -/
theorem box_of_distance2_le (p q : FVec3 R) (r : R) (hr : 0 ≤ r)
    (h : distance2 p q ≤ r * r) :
    (p.x - r ≤ q.x ∧ q.x ≤ p.x + r) ∧ (p.y - r ≤ q.y ∧ q.y ≤ p.y + r) ∧
      (p.z - r ≤ q.z ∧ q.z ≤ p.z + r) := by
  unfold distance2 at h
  have hx := mul_self_nonneg (p.x - q.x)
  have hy := mul_self_nonneg (p.y - q.y)
  have hz := mul_self_nonneg (p.z - q.z)
  have key : ∀ d : R, d * d ≤ r * r → -r ≤ d ∧ d ≤ r := by
    intro d hd
    exact abs_le_of_sq_le_sq' (by nlinarith) hr
  have kx := key (p.x - q.x) (by linarith)
  have ky := key (p.y - q.y) (by linarith)
  have kz := key (p.z - q.z) (by linarith)
  refine ⟨⟨?_, ?_⟩, ⟨?_, ?_⟩, ⟨?_, ?_⟩⟩ <;> linarith [kx.1, kx.2, ky.1, ky.2, kz.1, kz.2]

/-- Claim C6: let the grid satisfy `pos_to_entry(q) = grid_to_entry(pos_to_grid(q))` with
`pos_to_grid` monotone in each coordinate.  After `add_vp(pixel)`, for every photon
position `q` with `distance(q, vp.pos) <= radius` (stated on squares, `radius >= 0`; this
includes `q = vp.pos`), the bucket walked by `add_photon(q, flux, wr)` contains a node of
the pixel; and when the pixel's contribution is finite and no node of that bucket
faults, `add_photon` adds the contribution to the pixel's `phi` and increments its `M`,
once per node of the pixel on the bucket, at least once. -/
theorem add_vp_reaches_photon (s : VisiblePointSearcher R) (pixels : Nat → Pixel R) (p : Nat)
    (hmono : ∀ a b : FVec3 R, a.x ≤ b.x → a.y ≤ b.y → a.z ≤ b.z →
      (s.hashed_grid_aux.pos_to_grid a).x ≤ (s.hashed_grid_aux.pos_to_grid b).x ∧
      (s.hashed_grid_aux.pos_to_grid a).y ≤ (s.hashed_grid_aux.pos_to_grid b).y ∧
      (s.hashed_grid_aux.pos_to_grid a).z ≤ (s.hashed_grid_aux.pos_to_grid b).z)
    (hentry : ∀ q : FVec3 R, s.hashed_grid_aux.pos_to_entry q
      = s.hashed_grid_aux.grid_to_entry (s.hashed_grid_aux.pos_to_grid q))
    (q : FVec3 R) (hr : 0 ≤ (pixels p).radius)
    (hq : distance2 (pixels p).vp.pos q ≤ (pixels p).radius * (pixels p).radius) :
    (⟨p⟩ : VPNode) ∈ (s.add_vp pixels p).node_entries
        ((s.add_vp pixels p).hashed_grid_aux.pos_to_entry q) ∧
      ∀ (bsdf_eval : Nat → FVec3 R → FVec3 R → TransMode → FSpectrum R)
        (flux : FSpectrum R) (wr : FVec3 R) (b : Nat),
        (pixels p).vp.bsdf = some b →
        (flux * bsdf_eval b wr (pixels p).vp.wr TransMode.Radiance).is_finite = true →
        (∀ node ∈ (s.add_vp pixels p).node_entries
            ((s.add_vp pixels p).hashed_grid_aux.pos_to_entry q),
          distance2 (pixels node.pixel).vp.pos q
              ≤ (pixels node.pixel).radius * (pixels node.pixel).radius →
            (pixels node.pixel).vp.bsdf ≠ none) →
        ∃ (pixels' : Nat → Pixel R) (k : Nat),
          (s.add_vp pixels p).add_photon bsdf_eval q flux wr pixels = some pixels' ∧
            1 ≤ k ∧ (pixels' p).M = (pixels p).M + (k : Int) ∧
            (pixels' p).phi = (pixels p).phi
              + (flux * bsdf_eval b wr (pixels p).vp.wr TransMode.Radiance).scale (k : R) := by
  obtain ⟨⟨x1, x2⟩, ⟨y1, y2⟩, ⟨z1, z2⟩⟩ := box_of_distance2_le _ _ _ hr hq
  have hmem : (⟨p⟩ : VPNode) ∈ (s.add_vp pixels p).node_entries
      ((s.add_vp pixels p).hashed_grid_aux.pos_to_entry q) := by
    rw [add_vp_hashed_grid_aux, hentry]
    have lo := hmono ((pixels p).vp.pos - FVec3.splat (pixels p).radius) q x1 y1 z1
    have hi := hmono q ((pixels p).vp.pos + FVec3.splat (pixels p).radius) x2 y2 z2
    exact add_vp_covers_cell s pixels p _ ⟨lo.1, hi.1⟩ ⟨lo.2.1, hi.2.1⟩ ⟨lo.2.2, hi.2.2⟩
  refine ⟨hmem, ?_⟩
  intro bsdf_eval flux wr b hb hfin hvalid
  refine ⟨_, node_count ((s.add_vp pixels p).node_entries
      ((s.add_vp pixels p).hashed_grid_aux.pos_to_entry q)) p,
    add_photon_eq_effect _ bsdf_eval q flux wr pixels hvalid,
    (node_count_pos_iff _ _).mpr hmem, ?_⟩
  beta_reduce
  rw [photon_effect_hit bsdf_eval q flux wr _ _ (not_lt.mpr hq) b hb hfin]
  exact ⟨rfl, rfl⟩

/-! ### Order of the deposits -/

/-- The effect of a photon on a pixel depends on the pixel's visible point and radius
only: either it is the identity on all pixels that share them, or it adds one fixed
spectrum `k` times and `k` to the count. -/
theorem photon_effect_cases (bsdf_eval : Nat → FVec3 R → FVec3 R → TransMode → FSpectrum R)
    (photon_pos : FVec3 R) (phi : FSpectrum R) (wr : FVec3 R) (x : Pixel R) :
    (∀ (k : Nat) (y : Pixel R), y.vp = x.vp → y.radius = x.radius →
        photon_effect bsdf_eval photon_pos phi wr k y = y) ∨
      (∃ d : FSpectrum R, ∀ (k : Nat) (y : Pixel R), y.vp = x.vp → y.radius = x.radius →
        photon_effect bsdf_eval photon_pos phi wr k y =
          Pixel.mk y.vp y.radius y.N (y.M + (k : Int)) (y.phi + d.scale (k : R)) y.tau
            y.direct_illum) := by
  by_cases hmiss : distance2 x.vp.pos photon_pos > x.radius * x.radius
  · left
    intro k y hv hr
    apply photon_effect_miss
    rw [hv, hr]
    exact hmiss
  · cases hb : x.vp.bsdf with
    | none =>
      left
      intro k y hv hr
      unfold photon_effect
      rw [hv, hr, if_neg hmiss]
      simp only [hb]
    | some b =>
      cases hfin : (phi * bsdf_eval b wr x.vp.wr TransMode.Radiance).is_finite with
      | false =>
        left
        intro k y hv hr
        apply photon_effect_nonfinite bsdf_eval photon_pos phi wr k y b
        · rw [hv]; exact hb
        · rw [hv]; exact hfin
      | true =>
        right
        refine ⟨phi * bsdf_eval b wr x.vp.wr TransMode.Radiance, ?_⟩
        intro k y hv hr
        rw [photon_effect_hit bsdf_eval photon_pos phi wr k y (by rw [hv, hr]; exact hmiss) b
          (by rw [hv]; exact hb) (by rw [hv]; exact hfin), hv]

/-- The effect of a photon keeps the visible point and the radius of a pixel. -/
theorem photon_effect_keeps (bsdf_eval : Nat → FVec3 R → FVec3 R → TransMode → FSpectrum R)
    (photon_pos : FVec3 R) (phi : FSpectrum R) (wr : FVec3 R) (k : Nat) (x : Pixel R) :
    (photon_effect bsdf_eval photon_pos phi wr k x).vp = x.vp ∧
      (photon_effect bsdf_eval photon_pos phi wr k x).radius = x.radius := by
  rcases photon_effect_cases bsdf_eval photon_pos phi wr x with h | ⟨d, h⟩
  · rw [h k x rfl rfl]
    exact ⟨rfl, rfl⟩
  · rw [h k x rfl rfl]
    exact ⟨rfl, rfl⟩

/-- The effects of two photons on one pixel commute. -/
theorem photon_effect_comm (bsdf_eval : Nat → FVec3 R → FVec3 R → TransMode → FSpectrum R)
    (a b : Photon R) (ka kb : Nat) (x : Pixel R) :
    photon_effect bsdf_eval a.pos a.flux a.wr ka
        (photon_effect bsdf_eval b.pos b.flux b.wr kb x) =
      photon_effect bsdf_eval b.pos b.flux b.wr kb
        (photon_effect bsdf_eval a.pos a.flux a.wr ka x) := by
  obtain ⟨bv, br⟩ := photon_effect_keeps bsdf_eval b.pos b.flux b.wr kb x
  obtain ⟨av, ar⟩ := photon_effect_keeps bsdf_eval a.pos a.flux a.wr ka x
  rcases photon_effect_cases bsdf_eval a.pos a.flux a.wr x with ha | ⟨da, ha⟩
  · rw [ha ka _ bv br, ha ka x rfl rfl]
  · rcases photon_effect_cases bsdf_eval b.pos b.flux b.wr x with hb | ⟨db, hb⟩
    · rw [hb kb _ av ar, hb kb x rfl rfl]
    · rw [ha ka _ bv br, hb kb _ av ar, ha ka x rfl rfl, hb kb x rfl rfl]
      simp only [Pixel.mk.injEq, true_and, and_true]
      refine ⟨by ring, ?_⟩
      rw [FSpectrum.sum_group3, FSpectrum.sum_group3, FSpectrum.sum_swap (db.scale _)]

/-- The effect of a photon on the store does not change which nodes fault for another
photon. -/
theorem node_faults_effect (bsdf_eval : Nat → FVec3 R → FVec3 R → TransMode → FSpectrum R)
    (a : Photon R) (k : Nat → Nat) (photon_pos : FVec3 R) (pixels : Nat → Pixel R)
    (node : VPNode) :
    node_faults photon_pos
        (fun i => photon_effect bsdf_eval a.pos a.flux a.wr (k i) (pixels i)) node
      = node_faults photon_pos pixels node := by
  obtain ⟨hv, hr⟩ := photon_effect_keeps bsdf_eval a.pos a.flux a.wr (k node.pixel)
    (pixels node.pixel)
  unfold node_faults
  beta_reduce
  rw [hv, hr]

/-- The method `add_photon` in closed form. -/
theorem add_photon_eq (s : VisiblePointSearcher R)
    (bsdf_eval : Nat → FVec3 R → FVec3 R → TransMode → FSpectrum R)
    (a : Photon R) (pixels : Nat → Pixel R) :
    s.add_photon bsdf_eval a.pos a.flux a.wr pixels =
      if (s.node_entries (s.hashed_grid_aux.pos_to_entry a.pos)).any
          (node_faults a.pos pixels) = true then none
      else some (fun i => photon_effect bsdf_eval a.pos a.flux a.wr
        (node_count (s.node_entries (s.hashed_grid_aux.pos_to_entry a.pos)) i) (pixels i)) := by
  unfold VisiblePointSearcher.add_photon
  exact add_photon_walk_eq bsdf_eval a.pos a.flux a.wr _ pixels

/-- Two `add_photon` calls give the same result in either order. -/
theorem add_photon_comm (s : VisiblePointSearcher R)
    (bsdf_eval : Nat → FVec3 R → FVec3 R → TransMode → FSpectrum R)
    (a b : Photon R) (pixels : Nat → Pixel R) :
    (s.add_photon bsdf_eval a.pos a.flux a.wr pixels).bind
        (fun px => s.add_photon bsdf_eval b.pos b.flux b.wr px) =
      (s.add_photon bsdf_eval b.pos b.flux b.wr pixels).bind
        (fun px => s.add_photon bsdf_eval a.pos a.flux a.wr px) := by
  have hfa : ∀ k : Nat → Nat,
      (s.node_entries (s.hashed_grid_aux.pos_to_entry a.pos)).any (node_faults a.pos
        (fun i => photon_effect bsdf_eval b.pos b.flux b.wr (k i) (pixels i)))
      = (s.node_entries (s.hashed_grid_aux.pos_to_entry a.pos)).any
        (node_faults a.pos pixels) := by
    intro k
    congr 1
    funext n
    exact node_faults_effect bsdf_eval b k a.pos pixels n
  have hfb : ∀ k : Nat → Nat,
      (s.node_entries (s.hashed_grid_aux.pos_to_entry b.pos)).any (node_faults b.pos
        (fun i => photon_effect bsdf_eval a.pos a.flux a.wr (k i) (pixels i)))
      = (s.node_entries (s.hashed_grid_aux.pos_to_entry b.pos)).any
        (node_faults b.pos pixels) := by
    intro k
    congr 1
    funext n
    exact node_faults_effect bsdf_eval a k b.pos pixels n
  rw [add_photon_eq s bsdf_eval a pixels, add_photon_eq s bsdf_eval b pixels]
  by_cases ha : (s.node_entries (s.hashed_grid_aux.pos_to_entry a.pos)).any
      (node_faults a.pos pixels) = true
  · by_cases hb : (s.node_entries (s.hashed_grid_aux.pos_to_entry b.pos)).any
        (node_faults b.pos pixels) = true
    · simp only [if_pos ha, if_pos hb, Option.none_bind]
    · simp only [if_pos ha, if_neg hb, Option.none_bind, Option.some_bind]
      rw [add_photon_eq, hfa, if_pos ha]
  · by_cases hb : (s.node_entries (s.hashed_grid_aux.pos_to_entry b.pos)).any
        (node_faults b.pos pixels) = true
    · simp only [if_neg ha, if_pos hb, Option.none_bind, Option.some_bind]
      rw [add_photon_eq, hfb, if_pos hb]
    · simp only [if_neg ha, if_neg hb, Option.some_bind]
      rw [add_photon_eq, add_photon_eq, hfa, hfb, if_neg ha, if_neg hb]
      congr 1
      funext i
      exact (photon_effect_comm bsdf_eval a b _ _ (pixels i)).symm

/-- A monadic fold in `Option` as a plain fold over optional states. -/
theorem foldlM_option_eq_foldl {S α : Type} (f : S → α → Option S) (l : List α)
    (o : Option S) :
    o.bind (fun st => l.foldlM f st) = l.foldl (fun o a => o.bind (fun st => f st a)) o := by
  induction l generalizing o with
  | nil =>
    cases o <;> rfl
  | cons a l ih =>
    rw [List.foldl_cons, ← ih]
    cases o with
    | none => rfl
    | some st =>
      simp only [Option.some_bind, List.foldlM_cons]
      rfl

/-- Claim C10: for a fixed searcher and BSDF table, depositing the photons of a list in
any permuted order gives the same result: the same store, hence the same `M` and the
same `phi` in every channel for every pixel (and a fault in one order is a fault in
the other). -/
theorem deposit_photons_perm (s : VisiblePointSearcher R)
    (bsdf_eval : Nat → FVec3 R → FVec3 R → TransMode → FSpectrum R)
    (photons photons' : List (Photon R)) (hperm : photons.Perm photons')
    (pixels : Nat → Pixel R) :
    deposit_photons s bsdf_eval photons pixels = deposit_photons s bsdf_eval photons' pixels := by
  unfold deposit_photons
  have e := foldlM_option_eq_foldl
    (fun px (ph : Photon R) => s.add_photon bsdf_eval ph.pos ph.flux ph.wr px)
  have e1 := e photons (some pixels)
  have e2 := e photons' (some pixels)
  rw [Option.some_bind] at e1 e2
  rw [e1, e2]
  apply List.Perm.foldl_eq' hperm
  intro a _ b _ o
  cases o with
  | none => rfl
  | some px =>
    simp only [Option.some_bind]
    exact add_photon_comm s bsdf_eval a b px

/-! ### Concrete instances -/

/-- Witness for claim C6: pixel `0` of `sample_pixels` (at the origin, radius `1`) is
inserted into an empty searcher over `sample_grid`; a photon at the origin finds a node
of the pixel and deposits at least once. -/
theorem add_vp_reaches_photon_witness :
    (⟨0⟩ : VPNode) ∈ ((sample_searcher (fun _ => [])).add_vp sample_pixels 0).node_entries
        (((sample_searcher (fun _ => [])).add_vp sample_pixels 0).hashed_grid_aux.pos_to_entry
          ⟨0, 0, 0⟩) ∧
      ∃ (pixels' : Nat → Pixel ℚ) (k : Nat),
        ((sample_searcher (fun _ => [])).add_vp sample_pixels 0).add_photon sample_eval
            ⟨0, 0, 0⟩ (FSpectrum.splat 2) ⟨0, 0, 1⟩ sample_pixels = some pixels' ∧
          1 ≤ k ∧ (pixels' 0).M = (sample_pixels 0).M + (k : Int) ∧
          (pixels' 0).phi = (sample_pixels 0).phi
            + (FSpectrum.splat 2 * sample_eval 0 ⟨0, 0, 1⟩ (sample_pixels 0).vp.wr
                TransMode.Radiance).scale (k : ℚ) := by
  have h := add_vp_reaches_photon (sample_searcher (fun _ => [])) sample_pixels 0
    (fun a b hx hy hz => ⟨Int.floor_le_floor hx, Int.floor_le_floor hy,
      Int.floor_le_floor hz⟩)
    (fun q => rfl) ⟨0, 0, 0⟩ (by simp [sample_pixels, sample_pixel])
    (by simp [sample_pixels, sample_pixel, distance2])
  refine ⟨h.1, h.2 sample_eval (FSpectrum.splat 2) ⟨0, 0, 1⟩ 0 rfl rfl ?_⟩
  intro node _ _
  unfold sample_pixels
  split <;> simp [sample_pixel]

/-- Witness for claim C7: a photon at `(3, 0, 0)` is farther than the radius `1` from
both pixels of `sample_entries`, and `add_photon` leaves the store as it is. -/
theorem add_photon_far_from_all_witness :
    (sample_searcher sample_entries).add_photon sample_eval ⟨3, 0, 0⟩ (FSpectrum.splat 2)
      ⟨0, 0, 1⟩ sample_pixels = some sample_pixels :=
  add_photon_far_from_all (sample_searcher sample_entries) sample_eval ⟨3, 0, 0⟩
    (FSpectrum.splat 2) ⟨0, 0, 1⟩ sample_pixels (by
      intro e node _
      unfold sample_pixels
      split <;> norm_num [sample_pixel, distance2])

/-- Witness for claim C8: a photon at the origin on `sample_entries`; every pixel of
`sample_pixels` has a BSDF, so no node faults. -/
theorem add_photon_spec_witness :
    ∃ pixels', (sample_searcher sample_entries).add_photon sample_eval ⟨0, 0, 0⟩
        (FSpectrum.splat 2) ⟨0, 0, 1⟩ sample_pixels = some pixels' ∧
      (pixels' 0).M = (sample_pixels 0).M + 2 ∧ pixels' 1 = sample_pixels 1 := by
  obtain ⟨pixels', h1, h2⟩ := add_photon_spec (sample_searcher sample_entries) sample_eval
    ⟨0, 0, 0⟩ (FSpectrum.splat 2) ⟨0, 0, 1⟩ sample_pixels (by
      intro node _ _
      unfold sample_pixels
      split <;> simp [sample_pixel])
  refine ⟨pixels', h1, ?_, ?_⟩
  · have h := ((h2 0).2.2.2.2.2.1 0 rfl (by norm_num [sample_pixels, sample_pixel, distance2])
      rfl).2
    rw [h]
    rfl
  · exact (h2 1).2.2.2.2.2.2 (Or.inr (Or.inr ⟨1, rfl, rfl⟩))

/-- Witness for claim C9: on the bucket `[0, 1, 0]` of `sample_entries` the node of
pixel `1`, whose contribution has a non-finite red channel, is skipped. -/
theorem add_photon_walk_skips_nonfinite_witness :
    add_photon_walk sample_eval ⟨0, 0, 0⟩ (FSpectrum.splat 2) ⟨0, 0, 1⟩
        ([⟨0⟩] ++ ⟨1⟩ :: [⟨0⟩]) sample_pixels
      = add_photon_walk sample_eval ⟨0, 0, 0⟩ (FSpectrum.splat 2) ⟨0, 0, 1⟩
        ([⟨0⟩] ++ [⟨0⟩]) sample_pixels :=
  (add_photon_walk_skips_nonfinite sample_eval ⟨0, 0, 0⟩ (FSpectrum.splat 2) ⟨0, 0, 1⟩
    [⟨0⟩] [⟨0⟩] ⟨1⟩ sample_pixels 1 rfl rfl).1

/-- Witness for claim C10: two photons on `sample_entries`, deposited in both orders. -/
theorem deposit_photons_perm_witness :
    List.Perm
        [(⟨⟨0, 0, 0⟩, FSpectrum.splat 2, ⟨0, 0, 1⟩⟩ : Photon ℚ),
          ⟨⟨1 / 2, 0, 0⟩, FSpectrum.splat 3, ⟨0, 1, 0⟩⟩]
        [(⟨⟨1 / 2, 0, 0⟩, FSpectrum.splat 3, ⟨0, 1, 0⟩⟩ : Photon ℚ),
          ⟨⟨0, 0, 0⟩, FSpectrum.splat 2, ⟨0, 0, 1⟩⟩] ∧
      deposit_photons (sample_searcher sample_entries) sample_eval
          [(⟨⟨0, 0, 0⟩, FSpectrum.splat 2, ⟨0, 0, 1⟩⟩ : Photon ℚ),
            ⟨⟨1 / 2, 0, 0⟩, FSpectrum.splat 3, ⟨0, 1, 0⟩⟩] sample_pixels
        = deposit_photons (sample_searcher sample_entries) sample_eval
          [(⟨⟨1 / 2, 0, 0⟩, FSpectrum.splat 3, ⟨0, 1, 0⟩⟩ : Photon ℚ),
            ⟨⟨0, 0, 0⟩, FSpectrum.splat 2, ⟨0, 0, 1⟩⟩] sample_pixels :=
  ⟨List.Perm.swap _ _ _,
    deposit_photons_perm (sample_searcher sample_entries) sample_eval _ _
      (List.Perm.swap _ _ _) sample_pixels⟩

end Searcher

/-! ## Theorems: the camera pass -/

section CameraPass

variable {R : Type} [LinearOrderedField R] {Smp : Type}

/-- A product with a non-finite channel on the left is non-finite. -/
theorem Chan.mul_nonfinite (a b : Chan R) (h : a.is_finite = false) :
    (a * b).is_finite = false := by
  cases a with
  | fin v => simp [Chan.is_finite] at h
  | nonfin => rfl

/-- A product with a non-finite spectrum on the left is non-finite. -/
theorem FSpectrum.product_nonfinite (s t : FSpectrum R) (h : s.is_finite = false) :
    (s * t).is_finite = false := by
  have e : (s * t).is_finite
      = ((s.r * t.r).is_finite && (s.g * t.g).is_finite && (s.b * t.b).is_finite) := rfl
  rw [e]
  unfold FSpectrum.is_finite at h
  cases hr : s.r.is_finite with
  | false => rw [Chan.mul_nonfinite _ _ hr]; rfl
  | true =>
    cases hg : s.g.is_finite with
    | false => rw [Chan.mul_nonfinite _ _ hg]; simp
    | true =>
      cases hb : s.b.is_finite with
      | false => rw [Chan.mul_nonfinite _ _ hb]; simp
      | true => rw [hr, hg, hb] at h; simp at h

/-- The invalid visible point is not valid. -/
theorem VisiblePoint.invalid_not_valid :
    (VisiblePoint.invalid : VisiblePoint R).is_valid = false := rfl

/-- A `return` of the loop body with a valid visible point: the ray hit a surface that
stops the path, the throughput is finite, and the visible point is that hit. -/
theorem tracer_vp_body_returns_valid (env : SceneEnv R Smp) (max_fwd_depth spv : Int)
    (st : TracerVpState R Smp) (res : TracerVpResult R Smp)
    (h : tracer_vp_body env max_fwd_depth spv st = Sum.inl res)
    (hv : res.vp.is_valid = true) :
    ∃ inct, env.closest_intersection st.ray = some inct ∧
      (env.bsdf_has_diffuse_component (env.shade inct).bsdf = true ∨
        st.depth = max_fwd_depth - 1) ∧
      st.coef.is_finite = true ∧
      res.vp = ⟨inct.pos, st.coef, inct.wr, some (env.shade inct).bsdf⟩ := by
  unfold tracer_vp_body at h
  split at h
  · simp only [Sum.inl.injEq] at h
    rw [← h] at hv
    simp [VisiblePoint.invalid_not_valid] at hv
  · rename_i inct hhit
    refine ⟨inct, hhit, ?_⟩
    simp only at h
    split at h
    · rename_i hstop
      split at h
      · simp only [Sum.inl.injEq] at h
        rw [← h] at hv
        simp [VisiblePoint.invalid_not_valid] at hv
      · rename_i hfin
        simp only [Sum.inl.injEq] at h
        refine ⟨?_, ?_, ?_⟩
        · simpa using hstop
        · simpa using hfin
        · rw [← h]
    · split at h
      · simp only [Sum.inl.injEq] at h
        rw [← h] at hv
        simp [VisiblePoint.invalid_not_valid] at hv
      · cases h

/-- A loop body that goes on to the next iteration: the ray hit a surface that does not
stop the path, the BSDF sample has a non-null factor, the depth grows by one, the next
ray is spawned along the sampled direction and the throughput is multiplied by the
bounce factor. -/
theorem tracer_vp_body_continues (env : SceneEnv R Smp) (max_fwd_depth spv : Int)
    (st st1 : TracerVpState R Smp)
    (h : tracer_vp_body env max_fwd_depth spv st = Sum.inr st1) :
    ∃ (inct : EntityIntersection R) (sam : Sample3 R),
      env.closest_intersection st.ray = some inct ∧
      env.bsdf_has_diffuse_component (env.shade inct).bsdf = false ∧
      st.depth ≠ max_fwd_depth - 1 ∧
      (env.bsdf_sample (env.shade inct).bsdf inct.wr TransMode.Radiance sam).f.is_black
        = false ∧
      st1.depth = st.depth + 1 ∧
      st1.ray = Ray.make (env.eps_offset inct
          (env.bsdf_sample (env.shade inct).bsdf inct.wr TransMode.Radiance sam).dir)
        (env.bsdf_sample (env.shade inct).bsdf inct.wr TransMode.Radiance sam).dir 0 ∧
      st1.coef = st.coef * bounce_factor env inct
        (env.bsdf_sample (env.shade inct).bsdf inct.wr TransMode.Radiance sam) := by
  unfold tracer_vp_body at h
  split at h
  · cases h
  · rename_i inct hhit
    simp only at h
    split at h
    · split at h <;> cases h
    · rename_i hstop
      split at h
      · cases h
      · rename_i hblack
        simp only [Sum.inr.injEq] at h
        simp only [Bool.or_eq_true, decide_eq_true_eq, not_or] at hstop
        refine ⟨inct, _, hhit, by simpa using hstop.1, hstop.2, by simpa using hblack, ?_, ?_, ?_⟩
        · rw [← h]
        · rw [← h]
        · rw [← h]

/-- A valid visible point returned by the loop is the end of a camera path that starts
at the loop state; its throughput is finite and is the state's throughput multiplied by
the bounce factors of the path. -/
theorem tracer_vp_loop_valid (env : SceneEnv R Smp) (max_fwd_depth spv : Int) (fuel : Nat)
    (st : TracerVpState R Smp)
    (hv : (tracer_vp_loop env max_fwd_depth spv fuel st).vp.is_valid = true) :
    ∃ (bounces : List (EntityIntersection R × BSDFSampleResult (FSpectrum R) R))
      (final : EntityIntersection R),
      is_camera_path env max_fwd_depth st.depth st.ray bounces final ∧
      (tracer_vp_loop env max_fwd_depth spv fuel st).vp.pos = final.pos ∧
      (tracer_vp_loop env max_fwd_depth spv fuel st).vp.wr = final.wr ∧
      (tracer_vp_loop env max_fwd_depth spv fuel st).vp.bsdf = some (env.shade final).bsdf ∧
      (tracer_vp_loop env max_fwd_depth spv fuel st).vp.coef
        = bounces.foldl (fun c b => c * bounce_factor env b.1 b.2) st.coef ∧
      (tracer_vp_loop env max_fwd_depth spv fuel st).vp.coef.is_finite = true := by
  induction fuel generalizing st with
  | zero =>
    simp [tracer_vp_loop, VisiblePoint.invalid_not_valid] at hv
  | succ fuel ih =>
    unfold tracer_vp_loop at hv ⊢
    by_cases hlt : st.depth < max_fwd_depth
    · simp only [if_pos hlt] at hv ⊢
      cases hb : tracer_vp_body env max_fwd_depth spv st with
      | inl res =>
        simp only [hb] at hv ⊢
        obtain ⟨inct, hhit, hstop, hfin, hres⟩ :=
          tracer_vp_body_returns_valid env max_fwd_depth spv st res hb hv
        refine ⟨[], inct, ⟨hhit, hlt, hstop⟩, ?_, ?_, ?_, ?_, ?_⟩ <;> rw [hres]
        · rfl
        · exact hfin
      | inr st1 =>
        simp only [hb] at hv ⊢
        obtain ⟨bounces, final, hpath, h1, h2, h3, h4, h5⟩ := ih st1 hv
        obtain ⟨inct, sam, hhit, hnd, hnl, hnb, hd, hray, hcoef⟩ :=
          tracer_vp_body_continues env max_fwd_depth spv st st1 hb
        refine ⟨(inct, env.bsdf_sample (env.shade inct).bsdf inct.wr TransMode.Radiance sam)
          :: bounces, final, ?_, h1, h2, h3, ?_, h5⟩
        · refine ⟨hhit, hlt, hnd, hnl, ⟨sam, rfl⟩, hnb, ?_⟩
          rw [← hd, ← hray]
          exact hpath
        · rw [h4, hcoef]
          rfl
    · simp only [if_neg hlt] at hv
      simp [VisiblePoint.invalid_not_valid] at hv

/-- Once the throughput is non-finite the loop returns the invalid visible point. -/
theorem tracer_vp_loop_nonfinite (env : SceneEnv R Smp) (max_fwd_depth spv : Int) (fuel : Nat)
    (st : TracerVpState R Smp) (hnf : st.coef.is_finite = false) :
    (tracer_vp_loop env max_fwd_depth spv fuel st).vp = VisiblePoint.invalid := by
  induction fuel generalizing st with
  | zero => rfl
  | succ fuel ih =>
    unfold tracer_vp_loop
    by_cases hlt : st.depth < max_fwd_depth
    · simp only [if_pos hlt]
      cases hb : tracer_vp_body env max_fwd_depth spv st with
      | inl res =>
        simp only
        unfold tracer_vp_body at hb
        split at hb
        · simp only [Sum.inl.injEq] at hb
          rw [← hb]
        · simp only at hb
          split at hb
          · rw [hnf] at hb
            simp only [Bool.not_false, if_true, Sum.inl.injEq] at hb
            rw [← hb]
          · split at hb
            · simp only [Sum.inl.injEq] at hb
              rw [← hb]
            · cases hb
      | inr st1 =>
        simp only
        obtain ⟨inct, sam, _, _, _, _, _, _, hcoef⟩ :=
          tracer_vp_body_continues env max_fwd_depth spv st st1 hb
        exact ih st1 (by rw [hcoef]; exact FSpectrum.product_nonfinite _ _ hnf)
    · simp only [if_neg hlt]

/-- Claim C11: when `tracer_vp` returns a valid visible point, there is a camera path from
the primary ray: a list of earlier hits, none with a diffuse component and none at depth
`max_fwd_depth - 1`, each followed by a BSDF sample along which the next ray is spawned,
ending at a hit `final` that has a diffuse component or lies at depth
`max_fwd_depth - 1`.  The visible point has the position, the outgoing direction and the
BSDF of `final`, and its `coef` is `init_coef` multiplied, for each earlier bounce in
order, by `f / pdf * |cos(geometry_coord.z, dir)|` of that bounce. -/
theorem tracer_vp_valid_is_first_stop (env : SceneEnv R Smp) (max_fwd_depth spv : Int)
    (r : Ray R) (init_coef : FSpectrum R) (sampler : Smp) (gpixel : Option (GBufferPixel R))
    (direct_illum : FSpectrum R)
    (hv : (tracer_vp env max_fwd_depth spv r init_coef sampler gpixel direct_illum).vp.is_valid
      = true) :
    ∃ (bounces : List (EntityIntersection R × BSDFSampleResult (FSpectrum R) R))
      (final : EntityIntersection R),
      is_camera_path env max_fwd_depth 0 r bounces final ∧
      (tracer_vp env max_fwd_depth spv r init_coef sampler gpixel direct_illum).vp.pos
        = final.pos ∧
      (tracer_vp env max_fwd_depth spv r init_coef sampler gpixel direct_illum).vp.wr
        = final.wr ∧
      (tracer_vp env max_fwd_depth spv r init_coef sampler gpixel direct_illum).vp.bsdf
        = some (env.shade final).bsdf ∧
      (tracer_vp env max_fwd_depth spv r init_coef sampler gpixel direct_illum).vp.coef
        = bounces.foldl
          (fun c b => c * (b.2.f.divs b.2.pdf).scale |env.cos b.1.geometry_coord_z b.2.dir|)
          init_coef := by
  obtain ⟨bounces, final, h0, h1, h2, h3, h4, _⟩ :=
    tracer_vp_loop_valid env max_fwd_depth spv max_fwd_depth.toNat _ hv
  exact ⟨bounces, final, h0, h1, h2, h3, h4⟩

/-- Claim C12: a valid visible point returned by `tracer_vp` has a finite `coef`; and an
iteration that reaches the place where a visible point is recorded (a hit with a diffuse
component, or at depth `max_fwd_depth - 1`) with a throughput that is non-finite in some
channel returns the invalid visible point, whose BSDF pointer is null. -/
theorem tracer_vp_valid_coef_finite (env : SceneEnv R Smp) (max_fwd_depth spv : Int)
    (r : Ray R) (init_coef : FSpectrum R) (sampler : Smp) (gpixel : Option (GBufferPixel R))
    (direct_illum : FSpectrum R) :
    ((tracer_vp env max_fwd_depth spv r init_coef sampler gpixel direct_illum).vp.is_valid
        = true →
      (tracer_vp env max_fwd_depth spv r init_coef sampler gpixel direct_illum).vp.coef.is_finite
        = true) ∧
    ∀ (st : TracerVpState R Smp) (inct : EntityIntersection R),
      env.closest_intersection st.ray = some inct →
      (env.bsdf_has_diffuse_component (env.shade inct).bsdf = true ∨
        st.depth = max_fwd_depth - 1) →
      st.coef.is_finite = false →
      ∃ res, tracer_vp_body env max_fwd_depth spv st = Sum.inl res ∧
        res.vp = VisiblePoint.invalid ∧ res.vp.bsdf = none := by
  refine ⟨?_, ?_⟩
  · intro hv
    exact (tracer_vp_loop_valid env max_fwd_depth spv max_fwd_depth.toNat _ hv).choose_spec.choose_spec.2.2.2.2.2
  · intro st inct hhit hstop hnf
    have hstop' : (env.bsdf_has_diffuse_component (env.shade inct).bsdf
        || decide (st.depth = max_fwd_depth - 1)) = true := by
      rcases hstop with h | h
      · rw [h]; rfl
      · simp [h]
    unfold tracer_vp_body
    rw [hhit]
    simp only [hstop', hnf, Bool.not_false, if_true]
    exact ⟨_, rfl, rfl, rfl⟩

/-- Claim C13, counterexample: in `sample_scene` with a sampler that makes the first BSDF
sample have `pdf = 0`, the iteration at depth `0` leaves `direct_illum = 2` and a
throughput that is non-finite; the iteration at depth `1` still adds its
direct-lighting term, weighted by that throughput, so that `direct_illum` changes (it
becomes non-finite). -/
theorem tracer_vp_adds_after_nonfinite :
    tracer_vp_body sample_scene 2 1
        { depth := 0, ray := Ray.make ⟨0, 0, 0⟩ ⟨0, 0, 1⟩ 0, coef := FSpectrum.splat 1,
          direct_illum := FSpectrum.splat 0, gpixel := none, sampler := (0, 1) }
      = Sum.inr
        { depth := 1, ray := Ray.make ⟨0, 0, 1⟩ ⟨0, 0, 1⟩ 0,
          coef := ⟨Chan.nonfin, Chan.nonfin, Chan.nonfin⟩,
          direct_illum := FSpectrum.splat 2, gpixel := none, sampler := (0, 1) } ∧
    (tracer_vp_loop sample_scene 2 1 1
        { depth := 1, ray := Ray.make ⟨0, 0, 1⟩ ⟨0, 0, 1⟩ 0,
          coef := ⟨Chan.nonfin, Chan.nonfin, Chan.nonfin⟩,
          direct_illum := FSpectrum.splat 2, gpixel := none, sampler := (0, 1) }).direct_illum
      = ⟨Chan.nonfin, Chan.nonfin, Chan.nonfin⟩ ∧
    (⟨Chan.nonfin, Chan.nonfin, Chan.nonfin⟩ : FSpectrum ℚ) ≠ FSpectrum.splat 2 := by
  decide!

/-- Claim C13, amended: once the throughput is non-finite in some channel, whatever the
number of iterations left, `tracer_vp` produces no visible point: the loop returns the
invalid visible point. -/
theorem tracer_vp_nonfinite_no_visible_point (env : SceneEnv R Smp)
    (max_fwd_depth spv : Int) (fuel : Nat) (st : TracerVpState R Smp)
    (hnf : st.coef.is_finite = false) :
    (tracer_vp_loop env max_fwd_depth spv fuel st).vp = VisiblePoint.invalid ∧
      (tracer_vp_loop env max_fwd_depth spv fuel st).vp.is_valid = false := by
  have h := tracer_vp_loop_nonfinite env max_fwd_depth spv fuel st hnf
  exact ⟨h, by rw [h]; rfl⟩

/-- Witness for claim C13 amended: the state of `sample_scene` after a first bounce with
`pdf = 0`. -/
theorem tracer_vp_nonfinite_no_visible_point_witness :
    (⟨Chan.nonfin, Chan.nonfin, Chan.nonfin⟩ : FSpectrum ℚ).is_finite = false ∧
    (tracer_vp_loop sample_scene 2 1 1
        { depth := 1, ray := Ray.make ⟨0, 0, 1⟩ ⟨0, 0, 1⟩ 0,
          coef := ⟨Chan.nonfin, Chan.nonfin, Chan.nonfin⟩,
          direct_illum := FSpectrum.splat 2, gpixel := none, sampler := (0, 1) }).vp
      = VisiblePoint.invalid :=
  ⟨rfl, (tracer_vp_nonfinite_no_visible_point sample_scene 2 1 1
    { depth := 1, ray := Ray.make ⟨0, 0, 1⟩ ⟨0, 0, 1⟩ 0,
      coef := ⟨Chan.nonfin, Chan.nonfin, Chan.nonfin⟩,
      direct_illum := FSpectrum.splat 2, gpixel := none, sampler := (0, 1) } rfl).1⟩

/-- Witness for claim C11: in `sample_scene` with `max_fwd_depth = 2` and BSDF samples of
`pdf = 1/2`, `f = 1`, the camera path bounces once and stops at the diffuse surface. -/
theorem tracer_vp_valid_is_first_stop_witness :
    (tracer_vp sample_scene 2 1 (Ray.make ⟨0, 0, 0⟩ ⟨0, 0, 1⟩ 0) (FSpectrum.splat 1)
        (1 / 2, 1) none (FSpectrum.splat 0)).vp.is_valid = true ∧
    ∃ (bounces : List (EntityIntersection ℚ × BSDFSampleResult (FSpectrum ℚ) ℚ))
      (final : EntityIntersection ℚ),
      is_camera_path sample_scene 2 0 (Ray.make ⟨0, 0, 0⟩ ⟨0, 0, 1⟩ 0) bounces final ∧
      (tracer_vp sample_scene 2 1 (Ray.make ⟨0, 0, 0⟩ ⟨0, 0, 1⟩ 0) (FSpectrum.splat 1)
          (1 / 2, 1) none (FSpectrum.splat 0)).vp.pos = final.pos ∧
      (tracer_vp sample_scene 2 1 (Ray.make ⟨0, 0, 0⟩ ⟨0, 0, 1⟩ 0) (FSpectrum.splat 1)
          (1 / 2, 1) none (FSpectrum.splat 0)).vp.wr = final.wr ∧
      (tracer_vp sample_scene 2 1 (Ray.make ⟨0, 0, 0⟩ ⟨0, 0, 1⟩ 0) (FSpectrum.splat 1)
          (1 / 2, 1) none (FSpectrum.splat 0)).vp.bsdf = some (sample_scene.shade final).bsdf ∧
      (tracer_vp sample_scene 2 1 (Ray.make ⟨0, 0, 0⟩ ⟨0, 0, 1⟩ 0) (FSpectrum.splat 1)
          (1 / 2, 1) none (FSpectrum.splat 0)).vp.coef
        = bounces.foldl
          (fun c b => c * (b.2.f.divs b.2.pdf).scale
            |sample_scene.cos b.1.geometry_coord_z b.2.dir|)
          (FSpectrum.splat 1) :=
  ⟨by decide!, tracer_vp_valid_is_first_stop sample_scene 2 1 (Ray.make ⟨0, 0, 0⟩ ⟨0, 0, 1⟩ 0)
    (FSpectrum.splat 1) (1 / 2, 1) none (FSpectrum.splat 0) (by decide!)⟩

end CameraPass

/-! ## Theorems: the photon pass -/

section PhotonPass

variable {R : Type} [LinearOrderedField R] {Smp : Type}

/-- Depositing a list of photons: the first `add_photon`, then the rest. -/
theorem deposit_photons_cons (s : VisiblePointSearcher R)
    (bsdf_eval : Nat → FVec3 R → FVec3 R → TransMode → FSpectrum R)
    (ph : Photon R) (l : List (Photon R)) (pixels : Nat → Pixel R) :
    deposit_photons s bsdf_eval (ph :: l) pixels
      = (s.add_photon bsdf_eval ph.pos ph.flux ph.wr pixels).bind
        (fun px => deposit_photons s bsdf_eval l px) := by
  unfold deposit_photons
  rw [List.foldlM_cons]
  rfl

/-- Depositing no photon returns the store. -/
theorem deposit_photons_nil (s : VisiblePointSearcher R)
    (bsdf_eval : Nat → FVec3 R → FVec3 R → TransMode → FSpectrum R)
    (pixels : Nat → Pixel R) :
    deposit_photons s bsdf_eval [] pixels = some pixels := rfl

/-- The loop of `trace_photon` deposits, in order, the vertices of the photon path that lie
at a depth greater than `1`, and leaves the sampler of the path behind. -/
theorem trace_photon_loop_replay (s : VisiblePointSearcher R) (env : SceneEnv R Smp)
    (min_depth max_depth : Int) (cont_prob : R) (fuel : Nat)
    (st : TracePhotonState R Smp) (free : FSpectrum R) :
    trace_photon_loop s env min_depth max_depth cont_prob fuel st =
      (deposit_photons s env.bsdf_eval
        (((photon_vertices_loop env min_depth max_depth cont_prob fuel
            ⟨st.depth, st.ray, st.coef, free, st.sampler⟩).1.filter
          (fun v => decide (v.depth > 1))).map PhotonVertex.photon) st.pixels).map
        (fun px => (px, (photon_vertices_loop env min_depth max_depth cont_prob fuel
          ⟨st.depth, st.ray, st.coef, free, st.sampler⟩).2)) := by
  induction fuel generalizing st free with
  | zero => rfl
  | succ fuel ih =>
    unfold trace_photon_loop photon_vertices_loop
    by_cases hle : st.depth ≤ max_depth
    · simp only [if_pos hle]
      unfold trace_photon_body
      cases hrr : (roulette env min_depth cont_prob st.depth st.coef st.sampler).1 with
      | none => rfl
      | some coef =>
        simp only
        cases hhit : env.closest_intersection st.ray with
        | none => rfl
        | some inct =>
          simp only
          by_cases hd : st.depth > 1
          · simp only [if_pos hd]
            cases hadd : s.add_photon env.bsdf_eval inct.pos coef inct.wr st.pixels with
            | none =>
              simp only
              by_cases hb : (env.bsdf_sample (env.shade inct).bsdf inct.wr TransMode.Importance
                  (env.sample3 (roulette env min_depth cont_prob st.depth st.coef
                    st.sampler).2).1).f.is_black = true
              · simp only [if_pos hb, List.filter_cons, hd, decide_True, if_true, List.map_cons,
                  deposit_photons_cons, PhotonVertex.photon, hadd, Option.none_bind,
                  Option.map_none']
              · simp only [if_neg hb, List.filter_cons, hd, decide_True, if_true, List.map_cons,
                  deposit_photons_cons, PhotonVertex.photon, hadd, Option.none_bind,
                  Option.map_none']
            | some pixels =>
              simp only
              by_cases hb : (env.bsdf_sample (env.shade inct).bsdf inct.wr TransMode.Importance
                  (env.sample3 (roulette env min_depth cont_prob st.depth st.coef
                    st.sampler).2).1).f.is_black = true
              · simp only [if_pos hb, List.filter_cons, hd, decide_True, if_true, List.map_cons,
                  deposit_photons_cons, PhotonVertex.photon, hadd, Option.some_bind,
                  List.filter_nil, List.map_nil, deposit_photons_nil, Option.map_some']
              · simp only [if_neg hb, List.filter_cons, hd, decide_True, if_true, List.map_cons,
                  deposit_photons_cons, PhotonVertex.photon, hadd, Option.some_bind]
                rw [ih _ (free * bounce_factor env inct
                  (env.bsdf_sample (env.shade inct).bsdf inct.wr TransMode.Importance
                    (env.sample3 (roulette env min_depth cont_prob st.depth st.coef
                      st.sampler).2).1))]
          · simp only [if_neg hd]
            by_cases hb : (env.bsdf_sample (env.shade inct).bsdf inct.wr TransMode.Importance
                (env.sample3 (roulette env min_depth cont_prob st.depth st.coef
                  st.sampler).2).1).f.is_black = true
            · simp only [if_pos hb, List.filter_cons, hd, decide_False, if_false,
                List.filter_nil, List.map_nil, deposit_photons_nil, Option.map_some',
                Bool.false_eq_true]
            · simp only [if_neg hb, List.filter_cons, hd, decide_False, if_false,
                Bool.false_eq_true]
              rw [ih _ (free * bounce_factor env inct
                (env.bsdf_sample (env.shade inct).bsdf inct.wr TransMode.Importance
                  (env.sample3 (roulette env min_depth cont_prob st.depth st.coef
                    st.sampler).2).1))]
    · simp only [if_neg hle]
      rfl

/-- The vertices of a photon path lie at consecutive depths, starting at the depth of
the loop state, and there are at most `fuel` of them. -/
theorem photon_vertices_loop_depths (env : SceneEnv R Smp) (min_depth max_depth : Int)
    (cont_prob : R) (fuel : Nat) (st : PhotonPathState R Smp) :
    (photon_vertices_loop env min_depth max_depth cont_prob fuel st).1.length ≤ fuel ∧
      ∀ (i : Nat) (v : PhotonVertex R),
        (photon_vertices_loop env min_depth max_depth cont_prob fuel st).1[i]? = some v →
        v.depth = st.depth + (i : Int) := by
  induction fuel generalizing st with
  | zero =>
    refine ⟨le_refl _, ?_⟩
    intro i v h
    simp [photon_vertices_loop] at h
  | succ fuel ih =>
    unfold photon_vertices_loop
    by_cases hle : st.depth ≤ max_depth
    · simp only [if_pos hle]
      cases hrr : (roulette env min_depth cont_prob st.depth st.coef st.sampler).1 with
      | none => simp
      | some coef =>
        simp only
        cases hhit : env.closest_intersection st.ray with
        | none => simp
        | some inct =>
          simp only
          by_cases hb : (env.bsdf_sample (env.shade inct).bsdf inct.wr TransMode.Importance
              (env.sample3 (roulette env min_depth cont_prob st.depth st.coef
                st.sampler).2).1).f.is_black = true
          · simp only [if_pos hb]
            refine ⟨by simp, ?_⟩
            intro i v h
            cases i with
            | zero =>
              simp only [List.getElem?_cons_zero, Option.some.injEq] at h
              rw [← h]; simp
            | succ i => simp at h
          · simp only [if_neg hb]
            obtain ⟨h1, h2⟩ := ih
              { depth := st.depth + 1
                ray := Ray.make (env.eps_offset inct (env.bsdf_sample (env.shade inct).bsdf
                    inct.wr TransMode.Importance (env.sample3 (roulette env min_depth
                      cont_prob st.depth st.coef st.sampler).2).1).dir)
                  (env.bsdf_sample (env.shade inct).bsdf inct.wr TransMode.Importance
                    (env.sample3 (roulette env min_depth cont_prob st.depth st.coef
                      st.sampler).2).1).dir 0
                coef := coef * bounce_factor env inct (env.bsdf_sample (env.shade inct).bsdf
                  inct.wr TransMode.Importance (env.sample3 (roulette env min_depth cont_prob
                    st.depth st.coef st.sampler).2).1)
                free := st.free * bounce_factor env inct (env.bsdf_sample (env.shade inct).bsdf
                  inct.wr TransMode.Importance (env.sample3 (roulette env min_depth cont_prob
                    st.depth st.coef st.sampler).2).1)
                sampler := (env.sample3 (roulette env min_depth cont_prob st.depth st.coef
                  st.sampler).2).2 }
            refine ⟨by simp only [List.length_cons]; omega, ?_⟩
            intro i v h
            cases i with
            | zero =>
              simp only [List.getElem?_cons_zero, Option.some.injEq] at h
              rw [← h]; simp
            | succ i =>
              simp only [List.getElem?_cons_succ] at h
              have := h2 i v h
              rw [this]
              push_cast
              ring
    · simp [if_neg hle]

/-- On a list of vertices at depths `1, 2, 3, ...` the vertices deeper than `1` are all
but the first. -/
theorem filter_deeper_eq_drop {K : Type} (vs : List (PhotonVertex K))
    (h : ∀ (i : Nat) (v : PhotonVertex K), vs[i]? = some v → v.depth = 1 + (i : Int)) :
    vs.filter (fun v => decide (v.depth > 1)) = vs.drop 1 := by
  cases vs with
  | nil => rfl
  | cons v rest =>
    have h0 : v.depth = 1 := by simpa using h 0 v (by simp)
    have hrest : ∀ a ∈ rest, decide (a.depth > 1) = true := by
      intro a ha
      obtain ⟨i, hi⟩ := List.getElem?_of_mem ha
      have := h (i + 1) a (by simpa using hi)
      simp only [decide_eq_true_eq]
      rw [this]
      push_cast
      omega
    simp only [List.filter_cons, h0, gt_iff_lt, lt_self_iff_false, decide_False,
      Bool.false_eq_true, if_false, List.drop_succ_cons, List.drop_zero]
    exact List.filter_eq_self.mpr hrest

/-- The photon path of a `trace_photon` call has at most `max_depth` vertices, at depths
`1, 2, 3, ...`. -/
theorem photon_vertices_depths (min_depth max_depth : Int) (cont_prob : R)
    (env : SceneEnv R Smp) (sampler : Smp) :
    (photon_vertices min_depth max_depth cont_prob env sampler).1.length ≤ max_depth.toNat ∧
      ∀ (i : Nat) (v : PhotonVertex R),
        (photon_vertices min_depth max_depth cont_prob env sampler).1[i]? = some v →
        v.depth = 1 + (i : Int) := by
  unfold photon_vertices
  cases hl : (env.sample_light (env.sample1 sampler).1).1 with
  | none => simp
  | some light =>
    simp only
    by_cases hb : (env.sample_emit light (env.sample5 (env.sample1 sampler).2).1).radiance.is_black
        = true
    · simp [if_pos hb]
    · simp only [if_neg hb]
      exact photon_vertices_loop_depths env min_depth max_depth cont_prob max_depth.toNat _

/-- The function `trace_photon` deposits, in order, the vertices of its photon path that
lie at a depth greater than `1`. -/
theorem trace_photon_replay (min_depth max_depth : Int) (cont_prob : R)
    (s : VisiblePointSearcher R) (env : SceneEnv R Smp) (sampler : Smp)
    (pixels : Nat → Pixel R) :
    trace_photon min_depth max_depth cont_prob s env sampler pixels =
      (deposit_photons s env.bsdf_eval
        (((photon_vertices min_depth max_depth cont_prob env sampler).1.filter
          (fun v => decide (v.depth > 1))).map PhotonVertex.photon) pixels).map
        (fun px => (px, (photon_vertices min_depth max_depth cont_prob env sampler).2)) := by
  unfold trace_photon photon_vertices
  cases hl : (env.sample_light (env.sample1 sampler).1).1 with
  | none => rfl
  | some light =>
    simp only
    by_cases hb : (env.sample_emit light (env.sample5 (env.sample1 sampler).2).1).radiance.is_black
        = true
    · simp only [if_pos hb]
      rfl
    · simp only [if_neg hb]
      exact trace_photon_loop_replay s env min_depth max_depth cont_prob max_depth.toNat _ _

/-- Claim C15: `trace_photon` calls `add_photon` exactly at the vertices of its photon path
after the first, once each and in order, with the position, the carried flux and the
outgoing direction of that vertex; the vertices lie at depths `1, 2, 3, ...`, so there is
no deposit at depth `1`.  There are at most `max_depth - 1` deposits, and with
`max_depth <= 1` the pixel store is returned unchanged. -/
theorem trace_photon_deposits_after_first (min_depth max_depth : Int) (cont_prob : R)
    (s : VisiblePointSearcher R) (env : SceneEnv R Smp) (sampler : Smp)
    (pixels : Nat → Pixel R) :
    trace_photon min_depth max_depth cont_prob s env sampler pixels =
        (deposit_photons s env.bsdf_eval
          (((photon_vertices min_depth max_depth cont_prob env sampler).1.drop 1).map
            PhotonVertex.photon) pixels).map
          (fun px => (px, (photon_vertices min_depth max_depth cont_prob env sampler).2)) ∧
      (∀ (i : Nat) (v : PhotonVertex R),
        (photon_vertices min_depth max_depth cont_prob env sampler).1[i]? = some v →
        v.depth = (i : Int) + 1) ∧
      ((photon_vertices min_depth max_depth cont_prob env sampler).1.drop 1).length
        ≤ (max_depth - 1).toNat ∧
      (max_depth ≤ 1 →
        trace_photon min_depth max_depth cont_prob s env sampler pixels
          = some (pixels, (photon_vertices min_depth max_depth cont_prob env sampler).2)) := by
  obtain ⟨hlen, hdep⟩ := photon_vertices_depths min_depth max_depth cont_prob env sampler
  have hrep := trace_photon_replay min_depth max_depth cont_prob s env sampler pixels
  rw [filter_deeper_eq_drop _ hdep] at hrep
  have hcount : ((photon_vertices min_depth max_depth cont_prob env sampler).1.drop 1).length
      ≤ (max_depth - 1).toNat := by
    rw [List.length_drop]
    omega
  refine ⟨hrep, ?_, hcount, ?_⟩
  · intro i v h
    rw [hdep i v h]
    ring
  · intro hmax
    have h0 : ((photon_vertices min_depth max_depth cont_prob env sampler).1.drop 1) = [] := by
      apply List.eq_nil_of_length_eq_zero
      have : (max_depth - 1).toNat = 0 := by omega
      omega
    rw [hrep, h0]
    rfl

/-- Claim C14, counterexample: in `sample_scene` with a sampler that gives every BSDF
sample `f = 1` and `pdf = -1`, the sample at the first hit has a non-positive pdf, yet
`tracer_vp` goes on and returns a valid visible point whose `coef` was divided by that
pdf, and `trace_photon` goes on to a second vertex, where it makes a deposit call with
the flux divided by that pdf. -/
theorem nonpositive_pdf_does_not_short_circuit :
    (sample_scene.bsdf_sample 1 ⟨0, 0, 1⟩ TransMode.Radiance ⟨-1, 1, 0⟩).pdf ≤ 0 ∧
      (tracer_vp sample_scene 2 1 (Ray.make ⟨0, 0, 0⟩ ⟨0, 0, 1⟩ 0) (FSpectrum.splat 1)
          (-1, 1) none (FSpectrum.splat 0)).vp.is_valid = true ∧
      (tracer_vp sample_scene 2 1 (Ray.make ⟨0, 0, 0⟩ ⟨0, 0, 1⟩ 0) (FSpectrum.splat 1)
          (-1, 1) none (FSpectrum.splat 0)).vp.coef = FSpectrum.splat (-1) ∧
      ((photon_vertices 5 5 1 sample_scene ((-1 : ℚ), (1 : ℚ))).1.drop 1).map
          PhotonVertex.photon
        = [⟨⟨0, 0, 1⟩, FSpectrum.splat (-1), ⟨0, 0, 1⟩⟩] := by
  decide!

/-- Claim C14, amended: a BSDF sample with a null weighting factor `f` makes the caller
return at once.  In `tracer_vp` the iteration returns the invalid visible point; in
`trace_photon` the iteration returns after the deposit of its own depth (none at depth
`1`), with no further iteration; in both the returned value does not involve the
sample's pdf. -/
theorem null_factor_short_circuits (env : SceneEnv R Smp) :
    (∀ (max_fwd_depth spv : Int) (st : TracerVpState R Smp) (inct : EntityIntersection R),
      env.closest_intersection st.ray = some inct →
      env.bsdf_has_diffuse_component (env.shade inct).bsdf = false →
      st.depth ≠ max_fwd_depth - 1 →
      (env.bsdf_sample (env.shade inct).bsdf inct.wr TransMode.Radiance
        (env.sample3 (sum_direct_illum env spv inct (env.shade inct) st.sampler).2).1).f.is_black
        = true →
      ∃ res, tracer_vp_body env max_fwd_depth spv st = Sum.inl res ∧
        res.vp = VisiblePoint.invalid ∧
        res.sampler
          = (env.sample3 (sum_direct_illum env spv inct (env.shade inct) st.sampler).2).2) ∧
    (∀ (s : VisiblePointSearcher R) (min_depth : Int) (cont_prob : R)
      (st : TracePhotonState R Smp) (coef : FSpectrum R) (inct : EntityIntersection R),
      (roulette env min_depth cont_prob st.depth st.coef st.sampler).1 = some coef →
      env.closest_intersection st.ray = some inct →
      (env.bsdf_sample (env.shade inct).bsdf inct.wr TransMode.Importance
        (env.sample3 (roulette env min_depth cont_prob st.depth st.coef st.sampler).2).1).f.is_black
        = true →
      trace_photon_body s env min_depth cont_prob st
        = (if st.depth > 1 then s.add_photon env.bsdf_eval inct.pos coef inct.wr st.pixels
            else some st.pixels).map
          (fun px => Sum.inl (px,
            (env.sample3 (roulette env min_depth cont_prob st.depth st.coef st.sampler).2).2))) := by
  refine ⟨?_, ?_⟩
  · intro max_fwd_depth spv st inct hhit hnd hnl hblack
    have hstop : (env.bsdf_has_diffuse_component (env.shade inct).bsdf
        || decide (st.depth = max_fwd_depth - 1)) = false := by
      simp [hnd, hnl]
    unfold tracer_vp_body
    rw [hhit]
    simp only [hstop, Bool.false_eq_true, if_false, hblack, if_true]
    exact ⟨_, rfl, rfl, rfl⟩
  · intro s min_depth cont_prob st coef inct hrr hhit hblack
    unfold trace_photon_body
    rw [hrr, hhit]
    simp only
    cases hadd : (if st.depth > 1 then
        s.add_photon env.bsdf_eval inct.pos coef inct.wr st.pixels else some st.pixels) with
    | none => rfl
    | some px =>
      simp only [hblack, if_true, Option.map_some']

/-- Witness for claim C14 amended: in `sample_scene` with a sampler that gives every BSDF
sample `f = 0`, the first iteration of `tracer_vp` returns the invalid visible point. -/
theorem null_factor_short_circuits_witness :
    ∃ res, tracer_vp_body sample_scene 2 1
        { depth := 0, ray := Ray.make ⟨0, 0, 0⟩ ⟨0, 0, 1⟩ 0, coef := FSpectrum.splat 1,
          direct_illum := FSpectrum.splat 0, gpixel := none, sampler := (1 / 2, 0) }
        = Sum.inl res ∧
      res.vp = VisiblePoint.invalid ∧
      res.sampler = (sample_scene.sample3 (sum_direct_illum sample_scene 1 (sample_inct 0 1)
        (sample_scene.shade (sample_inct 0 1)) (1 / 2, 0)).2).2 :=
  (null_factor_short_circuits sample_scene).1 2 1
    { depth := 0, ray := Ray.make ⟨0, 0, 0⟩ ⟨0, 0, 1⟩ 0, coef := FSpectrum.splat 1,
      direct_illum := FSpectrum.splat 0, gpixel := none, sampler := (1 / 2, 0) }
    (sample_inct 0 1) (by decide!) (by decide!) (by decide!) (by decide!)

end PhotonPass

/-! ## Theorems: the scene without lights -/

section DarkScene

variable {R : Type} [LinearOrderedField R] {Smp : Type}

end DarkScene

/-! ## Theorems: `DisneyBRDF` evaluation, density and sampling -/

section Disney

variable {R : Type} [LinearOrderedField R]

theorem FVec3.sum_x (a b : FVec3 R) : (a + b).x = a.x + b.x := rfl

theorem FVec3.sum_y (a b : FVec3 R) : (a + b).y = a.y + b.y := rfl

theorem FVec3.sum_z (a b : FVec3 R) : (a + b).z = a.z + b.z := rfl

/-- A vector's dot product with itself is a sum of squares. -/
theorem FVec3.dot_self_nonneg (v : FVec3 R) : 0 ≤ v.dot v := by
  unfold FVec3.dot
  linarith [mul_self_nonneg v.x, mul_self_nonneg v.y, mul_self_nonneg v.z]

/-- The inequality of Cauchy and Schwarz for `FVec3.dot`. -/
theorem FVec3.dot_sq_le (a b : FVec3 R) : a.dot b * a.dot b ≤ a.dot a * b.dot b := by
  unfold FVec3.dot
  linarith [mul_self_nonneg (a.x * b.y - a.y * b.x), mul_self_nonneg (a.x * b.z - a.z * b.x),
    mul_self_nonneg (a.y * b.z - a.z * b.y)]

/-- A normalised vector with a positive `z` has a positive length before it is normalised
and is a unit vector. -/
theorem FVec3.normalize_facts (sqrt : R → R)
    (hsqrt : ∀ x, 0 ≤ x → 0 ≤ sqrt x ∧ sqrt x * sqrt x = x) (v : FVec3 R)
    (hz : 0 < (v.normalize sqrt).z) :
    0 < v.length sqrt ∧ (v.normalize sqrt).dot (v.normalize sqrt) = 1 := by
  have hL := hsqrt (v.dot v) (FVec3.dot_self_nonneg v)
  have hne : v.length sqrt ≠ 0 := by
    intro h
    have hz0 : (v.normalize sqrt).z = 0 := by
      show v.z / v.length sqrt = 0
      rw [h, div_zero]
    rw [hz0] at hz
    exact lt_irrefl _ hz
  have hpos : 0 < v.length sqrt := lt_of_le_of_ne hL.1 (Ne.symm hne)
  refine ⟨hpos, ?_⟩
  have hLL : v.length sqrt * v.length sqrt = v.x * v.x + v.y * v.y + v.z * v.z := hL.2
  show v.x / v.length sqrt * (v.x / v.length sqrt) + v.y / v.length sqrt * (v.y / v.length sqrt)
    + v.z / v.length sqrt * (v.z / v.length sqrt) = 1
  field_simp
  linarith

/-- The half vector of two unit vectors above the hemisphere: it is above the hemisphere,
and its cosine with the first vector lies in `(0, 1]`. -/
theorem half_vector_facts (sqrt : R → R)
    (hsqrt : ∀ x, 0 ≤ x → 0 ≤ sqrt x ∧ sqrt x * sqrt x = x) (wi wo : FVec3 R)
    (hi : wi.dot wi = 1) (ho : wo.dot wo = 1) (hiz : 0 < wi.z) (hoz : 0 < wo.z) :
    0 < ((wi + wo).normalize sqrt).z ∧ 0 < wi.dot ((wi + wo).normalize sqrt)
      ∧ wi.dot ((wi + wo).normalize sqrt) ≤ 1 := by
  have hL := hsqrt ((wi + wo).dot (wi + wo)) (FVec3.dot_self_nonneg _)
  have hcs := FVec3.dot_sq_le wi wo
  rw [hi, ho] at hcs
  have hss : (wi + wo).dot (wi + wo) = 2 + 2 * wi.dot wo := by
    unfold FVec3.dot at hi ho ⊢
    simp only [FVec3.sum_x, FVec3.sum_y, FVec3.sum_z]
    linarith
  have hws : wi.dot (wi + wo) = 1 + wi.dot wo := by
    unfold FVec3.dot at hi ho ⊢
    simp only [FVec3.sum_x, FVec3.sum_y, FVec3.sum_z]
    linarith
  have hsz : (wi.z + wo.z) * (wi.z + wo.z) ≤ (wi + wo).dot (wi + wo) := by
    unfold FVec3.dot
    simp only [FVec3.sum_x, FVec3.sum_y, FVec3.sum_z]
    linarith [mul_self_nonneg (wi.x + wo.x), mul_self_nonneg (wi.y + wo.y)]
  have hsum : 0 < wi.z + wo.z := add_pos hiz hoz
  have hsspos : 0 < (wi + wo).dot (wi + wo) := lt_of_lt_of_le (mul_pos hsum hsum) hsz
  have hLL : (wi + wo).length sqrt * (wi + wo).length sqrt = (wi + wo).dot (wi + wo) := hL.2
  have hL0 : 0 ≤ (wi + wo).length sqrt := hL.1
  have hLpos : 0 < (wi + wo).length sqrt := by
    rcases eq_or_lt_of_le hL0 with h | h
    · rw [← h, mul_zero] at hLL
      rw [← hLL] at hsspos
      exact absurd hsspos (lt_irrefl _)
    · exact h
  have hdot : wi.dot ((wi + wo).normalize sqrt) = wi.dot (wi + wo) / (wi + wo).length sqrt := by
    show wi.x * ((wi + wo).x / (wi + wo).length sqrt) + wi.y * ((wi + wo).y / (wi + wo).length sqrt)
      + wi.z * ((wi + wo).z / (wi + wo).length sqrt)
      = (wi.x * (wi + wo).x + wi.y * (wi + wo).y + wi.z * (wi + wo).z) / (wi + wo).length sqrt
    field_simp
  have hwo1 : wi.dot wo ≤ 1 := by
    have h := mul_self_nonneg (wi.dot wo - 1)
    linarith
  have hL2 : (wi + wo).length sqrt ≤ 2 := by
    by_contra h
    have h2 : 2 < (wi + wo).length sqrt := lt_of_not_le h
    have h4 := mul_lt_mul'' h2 h2 (by norm_num) (by norm_num)
    linarith
  refine ⟨?_, ?_, ?_⟩
  · show 0 < (wi + wo).z / (wi + wo).length sqrt
    exact div_pos (by rw [FVec3.sum_z]; exact hsum) hLpos
  · rw [hdot, hws]
    apply div_pos _ hLpos
    linarith
  · rw [hdot, hws, div_le_one hLpos]
    have h1 : (wi + wo).length sqrt * (wi + wo).length sqrt = 2 + 2 * wi.dot wo := by
      rw [hLL, hss]
    have h2 : 0 ≤ (wi + wo).length sqrt * (2 - (wi + wo).length sqrt) :=
      mul_nonneg hL0 (sub_nonneg.2 hL2)
    linarith

/-- The shape of a result of `DisneyBRDF::sample` other than
`BSDF_SAMPLE_RESULT_INVALID`, outside the black-fringe case: `out_dir` is above the local
hemisphere, a local direction was drawn, its density is at least `EPS`, and the result
holds the global direction with the values of `eval` and `pdf` at it. -/
theorem DisneyBRDF.sample_valid_form (ext : DisneyExt R) (base : LocalBSDF R)
    (self : DisneyBRDF R) (out_dir : FVec3 R) (mode : TransMode) (sam : Sample3 R)
    (hfringe : ext.cause_black_fringes_dir out_dir = false)
    (hvalid : self.sample ext base out_dir mode sam ≠ BSDF_SAMPLE_RESULT_INVALID) :
    0 < ((base.shading_coord.global_to_local out_dir).normalize ext.sqrt).z ∧
      ∃ wi, self.sample_wi ext
          ((base.shading_coord.global_to_local out_dir).normalize ext.sqrt) sam = some wi ∧
        ext.EPS ≤ self.pdf ext base (base.shading_coord.local_to_global wi) out_dir ∧
        self.sample ext base out_dir mode sam =
          ⟨base.shading_coord.local_to_global wi,
            self.eval ext base (base.shading_coord.local_to_global wi) out_dir mode,
            self.pdf ext base (base.shading_coord.local_to_global wi) out_dir, false⟩ := by
  unfold DisneyBRDF.sample at hvalid ⊢
  simp only [hfringe, Bool.false_eq_true, if_false] at hvalid ⊢
  by_cases hz : ((base.shading_coord.global_to_local out_dir).normalize ext.sqrt).z ≤ 0
  · rw [if_pos hz] at hvalid
    exact absurd rfl hvalid
  · rw [if_neg hz] at hvalid ⊢
    refine ⟨lt_of_not_le hz, ?_⟩
    cases hwi : self.sample_wi ext
        ((base.shading_coord.global_to_local out_dir).normalize ext.sqrt) sam with
    | none =>
      rw [hwi] at hvalid
      exact absurd rfl hvalid
    | some wi =>
      rw [hwi] at hvalid
      simp only at hvalid ⊢
      by_cases hp : self.pdf ext base (base.shading_coord.local_to_global wi) out_dir < ext.EPS
      · rw [if_pos hp] at hvalid
        exact absurd rfl hvalid
      · exact ⟨wi, rfl, le_of_not_lt hp, by rw [if_neg hp]⟩

/-- What `DisneyBRDF::sample_wi` checked when it drew a direction from the specular or
the clearcoat lobe: the half vector and the direction are above the local hemisphere. -/
theorem DisneyBRDF.sample_wi_checks (ext : DisneyExt R) (self : DisneyBRDF R)
    (wo wi : FVec3 R) (sam : Sample3 R) (h : self.sample_wi ext wo sam = some wi) :
    (self.sample_lobe sam.u = Lobe.specular →
        0 < (ext.sample_anisotropic_gtr2 self.ax self.ay (sam.v, sam.w)).z ∧ 0 < wi.z) ∧
      (self.sample_lobe sam.u = Lobe.clearcoat →
        0 < (ext.sample_gtr1 self.clearcoat_roughness (sam.v, sam.w)).z ∧ 0 < wi.z) := by
  unfold DisneyBRDF.sample_wi at h
  constructor
  · intro hl
    rw [hl] at h
    simp only at h
    split_ifs at h with h1 h2
    injection h with h
    rw [← h]
    exact ⟨lt_of_not_le h1, lt_of_not_le (fun hc => h2 (Or.inl hc))⟩
  · intro hl
    rw [hl] at h
    simp only at h
    split_ifs at h with h1 h2
    injection h with h
    rw [← h]
    exact ⟨lt_of_not_le h1, lt_of_not_le (fun hc => h2 (Or.inl hc))⟩

/-- Claim C18, sample/pdf round trip: outside the black-fringe case, a result `r` of
`DisneyBRDF::sample` other than `BSDF_SAMPLE_RESULT_INVALID` has `r.pdf` equal to
`DisneyBRDF::pdf(r.dir, out_dir)` and `r.f` equal to `DisneyBRDF::eval(r.dir, out_dir,
mode)`. -/
theorem DisneyBRDF_sample_round_trip (ext : DisneyExt R) (base : LocalBSDF R)
    (self : DisneyBRDF R) (out_dir : FVec3 R) (mode : TransMode) (sam : Sample3 R)
    (hfringe : ext.cause_black_fringes_dir out_dir = false)
    (hvalid : self.sample ext base out_dir mode sam ≠ BSDF_SAMPLE_RESULT_INVALID) :
    (self.sample ext base out_dir mode sam).pdf
        = self.pdf ext base (self.sample ext base out_dir mode sam).dir out_dir ∧
      (self.sample ext base out_dir mode sam).f
        = self.eval ext base (self.sample ext base out_dir mode sam).dir out_dir mode := by
  obtain ⟨_, wi, _, _, hr⟩ := DisneyBRDF.sample_valid_form ext base self out_dir mode sam
    hfringe hvalid
  rw [hr]
  exact ⟨rfl, rfl⟩

/-- Witness for claim C18: the sample `DisneyBRDF` over `ℚ`, sampled from the local `z`
axis with `sam.u = 0` (the diffuse lobe). -/
theorem DisneyBRDF_sample_round_trip_witness :
    ((sample_disney_ext (fun x : ℚ => x)).cause_black_fringes_dir ⟨0, 0, 1⟩ = false ∧
        (sample_brdf (fun x : ℚ => x)).sample (sample_disney_ext (fun x : ℚ => x))
          sample_frame ⟨0, 0, 1⟩ TransMode.Radiance ⟨0, 0, 0⟩ ≠ BSDF_SAMPLE_RESULT_INVALID) ∧
      ((sample_brdf (fun x : ℚ => x)).sample (sample_disney_ext (fun x : ℚ => x))
          sample_frame ⟨0, 0, 1⟩ TransMode.Radiance ⟨0, 0, 0⟩).pdf
        = (sample_brdf (fun x : ℚ => x)).pdf (sample_disney_ext (fun x : ℚ => x)) sample_frame
            ((sample_brdf (fun x : ℚ => x)).sample (sample_disney_ext (fun x : ℚ => x))
              sample_frame ⟨0, 0, 1⟩ TransMode.Radiance ⟨0, 0, 0⟩).dir ⟨0, 0, 1⟩ ∧
      ((sample_brdf (fun x : ℚ => x)).sample (sample_disney_ext (fun x : ℚ => x))
          sample_frame ⟨0, 0, 1⟩ TransMode.Radiance ⟨0, 0, 0⟩).f
        = (sample_brdf (fun x : ℚ => x)).eval (sample_disney_ext (fun x : ℚ => x)) sample_frame
            ((sample_brdf (fun x : ℚ => x)).sample (sample_disney_ext (fun x : ℚ => x))
              sample_frame ⟨0, 0, 1⟩ TransMode.Radiance ⟨0, 0, 0⟩).dir ⟨0, 0, 1⟩
            TransMode.Radiance :=
  ⟨⟨rfl, by decide!⟩,
    DisneyBRDF_sample_round_trip (sample_disney_ext (fun x : ℚ => x)) sample_frame
      (sample_brdf (fun x : ℚ => x)) ⟨0, 0, 1⟩ TransMode.Radiance ⟨0, 0, 0⟩ rfl (by decide!)⟩

/-- The sampling weights that the constructor of `DisneyBRDF` stores are non-negative when
`metallic ≤ 1` and `0 ≤ clearcoat`. -/
theorem DisneyBRDF.construct_weights_nonneg (sqrt : R → R) (base_color : R × R × R)
    (metallic subsurface specular specular_tint roughness anisotropic sheen sheen_tint
      clearcoat clearcoat_gloss : R) (hm : metallic ≤ 1) (hc : 0 ≤ clearcoat) :
    0 ≤ (DisneyBRDF.construct sqrt base_color metallic subsurface specular specular_tint
        roughness anisotropic sheen sheen_tint clearcoat clearcoat_gloss).sample_weights.wd ∧
      0 ≤ (DisneyBRDF.construct sqrt base_color metallic subsurface specular specular_tint
        roughness anisotropic sheen sheen_tint clearcoat clearcoat_gloss).sample_weights.ws ∧
      0 ≤ (DisneyBRDF.construct sqrt base_color metallic subsurface specular specular_tint
        roughness anisotropic sheen sheen_tint clearcoat clearcoat_gloss).sample_weights.wc := by
  refine ⟨?_, ?_, ?_⟩
  · show 0 ≤ min (4 / 5) (1 - metallic)
    exact le_min (by norm_num) (by linarith)
  · show 0 ≤ (1 - (SampleWeights.init : SampleWeights R).wd) * 2 / (2 + clearcoat)
    have h1 : (SampleWeights.init : SampleWeights R).wd = 0 := rfl
    rw [h1]
    apply div_nonneg <;> linarith
  · show 0 ≤ (1 - (SampleWeights.init : SampleWeights R).wd) * clearcoat / (2 + clearcoat)
    have h1 : (SampleWeights.init : SampleWeights R).wd = 0 := rfl
    rw [h1]
    apply div_nonneg <;> linarith

/-- The density `DisneyBRDF::pdf` is non-negative outside the black-fringe case when the
sampling weights and the external densities are. -/
theorem DisneyBRDF.pdf_nonneg_of_weights (ext : DisneyExt R) (base : LocalBSDF R)
    (self : DisneyBRDF R) (in_dir out_dir : FVec3 R)
    (hsqrt : ∀ x, 0 ≤ x → 0 ≤ ext.sqrt x ∧ ext.sqrt x * ext.sqrt x = x)
    (hw : 0 ≤ self.sample_weights.wd ∧ 0 ≤ self.sample_weights.ws
      ∧ 0 ≤ self.sample_weights.wc)
    (hD : ∀ a b c d e f, 0 ≤ ext.anisotropic_gtr2 a b c d e f)
    (hD1 : ∀ a b c, 0 ≤ ext.gtr1 a b c)
    (hcos : ∀ z, 0 < z → 0 ≤ ext.zweighted_on_hemisphere_pdf z)
    (hfringe : ext.cause_black_fringes in_dir out_dir = false) :
    0 ≤ self.pdf ext base in_dir out_dir := by
  unfold DisneyBRDF.pdf
  simp only [hfringe, Bool.false_eq_true, if_false]
  by_cases hz : ((base.shading_coord.global_to_local in_dir).normalize ext.sqrt).z ≤ 0
      ∨ ((base.shading_coord.global_to_local out_dir).normalize ext.sqrt).z ≤ 0
  · rw [if_pos hz]
  · rw [if_neg hz]
    have hiz := lt_of_not_le (fun h => hz (Or.inl h))
    have hoz := lt_of_not_le (fun h => hz (Or.inr h))
    have hi := (FVec3.normalize_facts ext.sqrt hsqrt _ hiz).2
    have ho := (FVec3.normalize_facts ext.sqrt hsqrt _ hoz).2
    obtain ⟨hh, hd, _⟩ := half_vector_facts ext.sqrt hsqrt _ _ hi ho hiz hoz
    have h4 : 0 ≤ 4 * ((base.shading_coord.global_to_local in_dir).normalize ext.sqrt).dot
        (((base.shading_coord.global_to_local in_dir).normalize ext.sqrt
          + (base.shading_coord.global_to_local out_dir).normalize ext.sqrt).normalize
            ext.sqrt) := by
      linarith
    refine add_nonneg (add_nonneg (mul_nonneg hw.1 (hcos _ hiz)) (mul_nonneg hw.2.1 ?_))
      (mul_nonneg hw.2.2 ?_)
    · exact div_nonneg (mul_nonneg (le_of_lt hh) (hD _ _ _ _ _ _)) h4
    · exact div_nonneg (mul_nonneg (le_of_lt hh) (hD1 _ _ _)) h4

/-- Claim C19, `DisneyBRDF::pdf` of a `DisneyBRDF` constructed with `metallic ≤ 1` and
`0 ≤ clearcoat`, outside the black-fringe case and with non-negative external densities
`anisotropic_gtr2`, `gtr1` and `zweighted_on_hemisphere_pdf`: the density is non-negative,
and it is exactly `0` when the local `z` of either direction is not positive. -/
theorem DisneyBRDF_pdf_nonneg (ext : DisneyExt R) (base : LocalBSDF R)
    (base_color : R × R × R)
    (metallic subsurface specular specular_tint roughness anisotropic sheen sheen_tint
      clearcoat clearcoat_gloss : R) (in_dir out_dir : FVec3 R)
    (hsqrt : ∀ x, 0 ≤ x → 0 ≤ ext.sqrt x ∧ ext.sqrt x * ext.sqrt x = x)
    (hm : metallic ≤ 1) (hc : 0 ≤ clearcoat)
    (hD : ∀ a b c d e f, 0 ≤ ext.anisotropic_gtr2 a b c d e f)
    (hD1 : ∀ a b c, 0 ≤ ext.gtr1 a b c)
    (hcos : ∀ z, 0 < z → 0 ≤ ext.zweighted_on_hemisphere_pdf z)
    (hfringe : ext.cause_black_fringes in_dir out_dir = false) :
    0 ≤ (DisneyBRDF.construct ext.sqrt base_color metallic subsurface specular specular_tint
        roughness anisotropic sheen sheen_tint clearcoat clearcoat_gloss).pdf ext base
        in_dir out_dir ∧
      (((base.shading_coord.global_to_local in_dir).normalize ext.sqrt).z ≤ 0
          ∨ ((base.shading_coord.global_to_local out_dir).normalize ext.sqrt).z ≤ 0 →
        (DisneyBRDF.construct ext.sqrt base_color metallic subsurface specular specular_tint
          roughness anisotropic sheen sheen_tint clearcoat clearcoat_gloss).pdf ext base
          in_dir out_dir = 0) := by
  refine ⟨DisneyBRDF.pdf_nonneg_of_weights ext base _ in_dir out_dir hsqrt
    (DisneyBRDF.construct_weights_nonneg ext.sqrt base_color metallic subsurface specular
      specular_tint roughness anisotropic sheen sheen_tint clearcoat clearcoat_gloss hm hc)
    hD hD1 hcos hfringe, ?_⟩
  intro hz
  unfold DisneyBRDF.pdf
  simp only [hfringe, Bool.false_eq_true, if_false]
  rw [if_pos hz]

/-- Witness for claim C19: the sample `DisneyBRDF` over `ℝ` with both directions on the
local `z` axis. -/
theorem DisneyBRDF_pdf_nonneg_witness :
    (((1 / 2 : ℝ) ≤ 1 ∧ (0 : ℝ) ≤ 1 / 2) ∧
        (sample_disney_ext Real.sqrt).cause_black_fringes ⟨0, 0, 1⟩ ⟨0, 0, 1⟩ = false) ∧
      0 ≤ (sample_brdf Real.sqrt).pdf (sample_disney_ext Real.sqrt) sample_frame
        ⟨0, 0, 1⟩ ⟨0, 0, 1⟩ :=
  ⟨⟨⟨by norm_num, by norm_num⟩, rfl⟩,
    (DisneyBRDF_pdf_nonneg (sample_disney_ext Real.sqrt) sample_frame (1 / 2, 1 / 2, 1 / 2)
      (1 / 2) (1 / 2) (1 / 2) (1 / 2) (1 / 2) (1 / 2) (1 / 2) (1 / 2) (1 / 2) (1 / 2)
      ⟨0, 0, 1⟩ ⟨0, 0, 1⟩
      (fun x hx => ⟨Real.sqrt_nonneg x, Real.mul_self_sqrt hx⟩) (by norm_num) (by norm_num)
      (fun _ _ _ _ _ _ => zero_le_one) (fun _ _ _ => zero_le_one)
      (fun z hz => div_nonneg (mul_nonneg (le_of_lt hz) (by norm_num)) (by norm_num))
      rfl).1⟩

/-- The value of `DisneyBRDF::f_diffuse` is non-negative for Fresnel weights in `[0, 1]`. -/
theorem DisneyBRDF.f_diffuse_nonneg (FI FO cos_theta_d_2 roughness : R)
    (hI0 : 0 ≤ FI) (hI1 : FI ≤ 1) (hO0 : 0 ≤ FO) (hO1 : FO ≤ 1)
    (hc : 0 ≤ cos_theta_d_2) (hr : 0 ≤ roughness) :
    0 ≤ DisneyBRDF.f_diffuse FI FO cos_theta_d_2 roughness := by
  unfold DisneyBRDF.f_diffuse
  have hcr : 0 ≤ cos_theta_d_2 * roughness := mul_nonneg hc hr
  have h1 := mul_nonneg hcr hI0
  have h2 := mul_nonneg hcr hO0
  apply mul_nonneg <;> linarith

/-- The value of `DisneyBRDF::f_subsurface` is non-negative for Fresnel weights in `[0, 1]`
and cosines whose sum lies in `(0, 2]`. -/
theorem DisneyBRDF.f_subsurface_nonneg (cos_theta_i cos_theta_o FI FO cos_theta_d_2
    roughness : R) (hI0 : 0 ≤ FI) (hI1 : FI ≤ 1) (hO0 : 0 ≤ FO) (hO1 : FO ≤ 1)
    (hc : 0 ≤ cos_theta_d_2) (hr : 0 ≤ roughness)
    (hpos : 0 < cos_theta_i + cos_theta_o) (hle : cos_theta_i + cos_theta_o ≤ 2) :
    0 ≤ DisneyBRDF.f_subsurface cos_theta_i cos_theta_o FI FO cos_theta_d_2 roughness := by
  unfold DisneyBRDF.f_subsurface
  have hcr : 0 ≤ cos_theta_d_2 * roughness := mul_nonneg hc hr
  have h1 := mul_nonneg hcr hI0
  have h2 := mul_nonneg hcr hO0
  have hA : 0 ≤ 1 + (cos_theta_d_2 * roughness - 1) * FI := by linarith
  have hB : 0 ≤ 1 + (cos_theta_d_2 * roughness - 1) * FO := by linarith
  have hinv : 0 ≤ 1 / (cos_theta_i + cos_theta_o) - 1 / 2 := by
    exact sub_nonneg.2 (one_div_le_one_div_of_le hpos hle)
  have hF := mul_nonneg (mul_nonneg hA hB) hinv
  linarith

/-- One channel of `val` is non-negative when every term that enters it is. -/
theorem DisneyBRDF.val_channel_nonneg (self : DisneyBRDF R)
    (PI_r lum f_d f_ss FD Gs Ds Fc Gc Dc microfacet_dem base : R)
    (hm0 : 0 ≤ self.metallic) (hm1 : self.metallic ≤ 1)
    (hs0 : 0 ≤ self.subsurface) (hs1 : self.subsurface ≤ 1)
    (hsp : 0 ≤ self.specular)
    (hst0 : 0 ≤ self.specular_tint) (hst1 : self.specular_tint ≤ 1)
    (hsh0 : 0 ≤ self.sheen_tint) (hsh1 : self.sheen_tint ≤ 1)
    (hPI : 0 < PI_r) (hlum : 0 < lum) (hfd : 0 ≤ f_d) (hfss : 0 ≤ f_ss)
    (hFD0 : 0 ≤ FD) (hFD1 : FD ≤ 1) (hGs : 0 ≤ Gs) (hDs : 0 ≤ Ds)
    (hcF : 0 ≤ self.clearcoat * Fc) (hGc : 0 ≤ Gc) (hDc : 0 ≤ Dc)
    (hdem : 0 ≤ microfacet_dem) (hb : 0 ≤ base) :
    0 ≤ self.val_channel PI_r lum f_d f_ss FD Gs Ds Fc Gc Dc microfacet_dem base := by
  unfold DisneyBRDF.val_channel mix
  dsimp only
  have hC : 0 ≤ base / lum := div_nonneg hb (le_of_lt hlum)
  have hmix1 : 0 ≤ (1 - self.sheen_tint) * 1 + self.sheen_tint * (base / lum) :=
    add_nonneg (mul_nonneg (sub_nonneg.2 hsh1) zero_le_one) (mul_nonneg hsh0 hC)
  have hmix2 : 0 ≤ (1 - self.specular_tint) * 1 + self.specular_tint * (base / lum) :=
    add_nonneg (mul_nonneg (sub_nonneg.2 hst1) zero_le_one) (mul_nonneg hst0 hC)
  have hfsh : 0 ≤ (if self.metallic < 1 ∧ self.sheen > 0 then
      ((1 - self.sheen_tint) * 1 + self.sheen_tint * (base / lum)) * self.sheen * FD
      else 0) := by
    split_ifs with hcnd
    · exact mul_nonneg (mul_nonneg hmix1 (le_of_lt hcnd.2)) hFD0
    · exact le_refl 0
  have hCs : 0 ≤ (1 - self.metallic) * (8 / 100 * self.specular
      * ((1 - self.specular_tint) * 1 + self.specular_tint * (base / lum)))
      + self.metallic * base :=
    add_nonneg (mul_nonneg (sub_nonneg.2 hm1)
      (mul_nonneg (mul_nonneg (by norm_num) hsp) hmix2)) (mul_nonneg hm0 hb)
  have hFs : ∀ Cs : R, 0 ≤ Cs → 0 ≤ Cs + (1 - Cs) * FD := by
    intro Cs hCs0
    have := mul_nonneg hCs0 (sub_nonneg.2 hFD1)
    linarith
  have hdiff : 0 ≤ base / PI_r * ((1 - self.subsurface) * f_d + self.subsurface * f_ss) :=
    mul_nonneg (div_nonneg hb (le_of_lt hPI))
      (add_nonneg (mul_nonneg (sub_nonneg.2 hs1) hfd) (mul_nonneg hs0 hfss))
  refine add_nonneg (add_nonneg (mul_nonneg (sub_nonneg.2 hm1) (add_nonneg hdiff hfsh)) ?_) ?_
  · exact mul_nonneg (mul_nonneg (mul_nonneg (hFs _ hCs) hGs) hDs) hdem
  · exact mul_nonneg (mul_nonneg (mul_nonneg hcF hGc) hDc) hdem

/-- A spectrum computed channel by channel from non-negative channels by a function that
keeps non-negative values non-negative has non-negative channels. -/
theorem Spectrum.map_nonneg (f : R → R) (s : Spectrum R) (hf : ∀ b, 0 ≤ b → 0 ≤ f b)
    (hs : 0 ≤ s.1 ∧ 0 ≤ s.2.1 ∧ 0 ≤ s.2.2) :
    0 ≤ (Spectrum.map f s).1 ∧ 0 ≤ (Spectrum.map f s).2.1 ∧ 0 ≤ (Spectrum.map f s).2.2 :=
  ⟨hf _ hs.1, hf _ hs.2.1, hf _ hs.2.2⟩

/-- The factor `local_angle::normal_corr_factor` is non-negative. -/
theorem normal_corr_factor_nonneg (sqrt : R → R) (EPS : R) (geo shd wi : FVec3 R) :
    0 ≤ normal_corr_factor sqrt EPS geo shd wi := by
  unfold normal_corr_factor
  split_ifs
  · exact zero_le_one
  · exact abs_nonneg _

/-- Every channel of the value `val` of `DisneyBRDF::eval` is non-negative. -/
theorem DisneyBRDF.eval_val_nonneg (ext : DisneyExt R) (base : LocalBSDF R)
    (self : DisneyBRDF R) (in_dir out_dir : FVec3 R)
    (hsqrt : ∀ x, 0 ≤ x → 0 ≤ ext.sqrt x ∧ ext.sqrt x * ext.sqrt x = x)
    (hPI : 0 < ext.PI_r) (hEPS : 0 < ext.EPS)
    (hF : ∀ c, 0 ≤ c → c ≤ 1 → 0 ≤ ext.one_minus_5 c ∧ ext.one_minus_5 c ≤ 1)
    (hD : ∀ a b c d e f, 0 ≤ ext.anisotropic_gtr2 a b c d e f)
    (hGs : ∀ a b c d e, 0 ≤ ext.smith_anisotropic_gtr2 a b c d e)
    (hG : ∀ a b, 0 ≤ ext.smith_gtr2 a b)
    (hD1 : ∀ a b c, 0 ≤ ext.gtr1 a b c)
    (hm0 : 0 ≤ self.metallic) (hm1 : self.metallic ≤ 1)
    (hs0 : 0 ≤ self.subsurface) (hs1 : self.subsurface ≤ 1)
    (hsp : 0 ≤ self.specular)
    (hst0 : 0 ≤ self.specular_tint) (hst1 : self.specular_tint ≤ 1)
    (hr : 0 ≤ self.roughness)
    (hsh0 : 0 ≤ self.sheen_tint) (hsh1 : self.sheen_tint ≤ 1)
    (hbase : 0 ≤ self.base_color.1 ∧ 0 ≤ self.base_color.2.1 ∧ 0 ≤ self.base_color.2.2)
    (val : Spectrum R) (h : self.eval_val ext base in_dir out_dir = some val) :
    0 ≤ val.1 ∧ 0 ≤ val.2.1 ∧ 0 ≤ val.2.2 := by
  unfold DisneyBRDF.eval_val at h
  dsimp only at h
  by_cases hz : ((base.shading_coord.global_to_local in_dir).normalize ext.sqrt).z ≤ 0
      ∨ ((base.shading_coord.global_to_local out_dir).normalize ext.sqrt).z ≤ 0
  · rw [if_pos hz] at h
    exact Option.noConfusion h
  rw [if_neg hz] at h
  by_cases hl : ext.lum self.base_color < ext.EPS
  · rw [if_pos hl] at h
    exact Option.noConfusion h
  rw [if_neg hl] at h
  injection h with h
  rw [← h]
  have hlum : 0 < ext.lum self.base_color := lt_of_lt_of_le hEPS (le_of_not_lt hl)
  have hiz := lt_of_not_le (fun h => hz (Or.inl h))
  have hoz := lt_of_not_le (fun h => hz (Or.inr h))
  have hi := (FVec3.normalize_facts ext.sqrt hsqrt _ hiz).2
  have ho := (FVec3.normalize_facts ext.sqrt hsqrt _ hoz).2
  obtain ⟨_, hd0, hd1⟩ := half_vector_facts ext.sqrt hsqrt _ _ hi ho hiz hoz
  have hz1 : ∀ w : FVec3 R, w.dot w = 1 → w.z ≤ 1 := by
    intro w hw
    unfold FVec3.dot at hw
    by_contra hc
    have h1 : 1 < w.z := lt_of_not_le hc
    have h2 := mul_lt_mul'' h1 h1 zero_le_one zero_le_one
    linarith [mul_self_nonneg w.x, mul_self_nonneg w.y]
  have hi1 := hz1 _ hi
  have ho1 := hz1 _ ho
  have hFI := hF _ (le_of_lt hiz) hi1
  have hFO := hF _ (le_of_lt hoz) ho1
  have hFD := hF _ (le_of_lt hd0) hd1
  apply Spectrum.map_nonneg _ _ _ hbase
  intro b hb
  apply DisneyBRDF.val_channel_nonneg self _ _ _ _ _ _ _ _ _ _ _ b hm0 hm1 hs0 hs1 hsp hst0 hst1
    hsh0 hsh1 hPI hlum _ _ hFD.1 hFD.2 (mul_nonneg (hGs _ _ _ _ _) (hGs _ _ _ _ _))
    (hD _ _ _ _ _ _) _ _ _ _ hb
  · split_ifs
    · exact DisneyBRDF.f_diffuse_nonneg _ _ _ _ hFI.1 hFI.2 hFO.1 hFO.2 (mul_self_nonneg _) hr
    · exact le_refl 0
  · split_ifs
    · exact DisneyBRDF.f_subsurface_nonneg _ _ _ _ _ _ hFI.1 hFI.2 hFO.1 hFO.2
        (mul_self_nonneg _) hr (add_pos hiz hoz) (by
          show ((base.shading_coord.global_to_local in_dir).normalize ext.sqrt).z
            + ((base.shading_coord.global_to_local out_dir).normalize ext.sqrt).z ≤ 2
          linarith)
    · exact le_refl 0
  · split_ifs with hc
    · exact mul_nonneg (le_of_lt hc) (by linarith [hFD.1])
    · rw [mul_zero]
  · split_ifs
    · exact mul_nonneg (hG _ _) (hG _ _)
    · exact le_refl 0
  · split_ifs
    · exact hD1 _ _ _
    · exact le_refl 0
  · exact div_nonneg zero_le_one
      (mul_nonneg (mul_nonneg (by norm_num) (le_of_lt hiz)) (le_of_lt hoz))

/-- Claim C20, every channel of `DisneyBRDF::eval` is non-negative: outside the
black-fringe case, for parameters `metallic`, `subsurface`, `specular_tint`, `sheen_tint`
in `[0, 1]`, non-negative `specular` and `roughness`, non-negative base colour channels,
non-negative external terms `anisotropic_gtr2`, `smith_anisotropic_gtr2`, `smith_gtr2`,
`gtr1`, a Fresnel weight `one_minus_5` with values in `[0, 1]` on `[0, 1]`, and positive
constants `PI_r` and `EPS`. -/
theorem DisneyBRDF_eval_nonneg (ext : DisneyExt R) (base : LocalBSDF R)
    (self : DisneyBRDF R) (in_dir out_dir : FVec3 R) (mode : TransMode)
    (hsqrt : ∀ x, 0 ≤ x → 0 ≤ ext.sqrt x ∧ ext.sqrt x * ext.sqrt x = x)
    (hPI : 0 < ext.PI_r) (hEPS : 0 < ext.EPS)
    (hF : ∀ c, 0 ≤ c → c ≤ 1 → 0 ≤ ext.one_minus_5 c ∧ ext.one_minus_5 c ≤ 1)
    (hD : ∀ a b c d e f, 0 ≤ ext.anisotropic_gtr2 a b c d e f)
    (hGs : ∀ a b c d e, 0 ≤ ext.smith_anisotropic_gtr2 a b c d e)
    (hG : ∀ a b, 0 ≤ ext.smith_gtr2 a b)
    (hD1 : ∀ a b c, 0 ≤ ext.gtr1 a b c)
    (hm0 : 0 ≤ self.metallic) (hm1 : self.metallic ≤ 1)
    (hs0 : 0 ≤ self.subsurface) (hs1 : self.subsurface ≤ 1)
    (hsp : 0 ≤ self.specular)
    (hst0 : 0 ≤ self.specular_tint) (hst1 : self.specular_tint ≤ 1)
    (hr : 0 ≤ self.roughness)
    (hsh0 : 0 ≤ self.sheen_tint) (hsh1 : self.sheen_tint ≤ 1)
    (hbase : 0 ≤ self.base_color.1 ∧ 0 ≤ self.base_color.2.1 ∧ 0 ≤ self.base_color.2.2)
    (hfringe : ext.cause_black_fringes in_dir out_dir = false) :
    0 ≤ (self.eval ext base in_dir out_dir mode).1
      ∧ 0 ≤ (self.eval ext base in_dir out_dir mode).2.1
      ∧ 0 ≤ (self.eval ext base in_dir out_dir mode).2.2 := by
  unfold DisneyBRDF.eval
  simp only [hfringe, Bool.false_eq_true, if_false]
  cases hv : self.eval_val ext base in_dir out_dir with
  | none => exact ⟨le_refl _, le_refl _, le_refl _⟩
  | some val =>
    have hval := DisneyBRDF.eval_val_nonneg ext base self in_dir out_dir hsqrt hPI hEPS hF hD
      hGs hG hD1 hm0 hm1 hs0 hs1 hsp hst0 hst1 hr hsh0 hsh1 hbase val hv
    exact Spectrum.map_nonneg _ val
      (fun b hb => mul_nonneg hb (normal_corr_factor_nonneg _ _ _ _ _)) hval

/-- Witness for claim C20: the sample `DisneyBRDF` over `ℝ` with both directions on the
local `z` axis. -/
theorem DisneyBRDF_eval_nonneg_witness :
    ((0 : ℝ) ≤ (sample_brdf Real.sqrt).metallic ∧ (sample_brdf Real.sqrt).metallic ≤ 1 ∧
        (sample_disney_ext Real.sqrt).cause_black_fringes ⟨0, 0, 1⟩ ⟨0, 0, 1⟩ = false) ∧
      0 ≤ ((sample_brdf Real.sqrt).eval (sample_disney_ext Real.sqrt) sample_frame
        ⟨0, 0, 1⟩ ⟨0, 0, 1⟩ TransMode.Radiance).1 := by
  have hhalf : (0 : ℝ) ≤ 1 / 2 ∧ (1 / 2 : ℝ) ≤ 1 := ⟨by norm_num, by norm_num⟩
  exact ⟨⟨hhalf.1, hhalf.2, rfl⟩,
    (DisneyBRDF_eval_nonneg (sample_disney_ext Real.sqrt) sample_frame (sample_brdf Real.sqrt)
      ⟨0, 0, 1⟩ ⟨0, 0, 1⟩ TransMode.Radiance
      (fun x hx => ⟨Real.sqrt_nonneg x, Real.mul_self_sqrt hx⟩)
      (by show (0 : ℝ) < 22 / 7; norm_num) (by show (0 : ℝ) < 1 / 1000; norm_num)
      (fun c hc0 hc1 => ⟨pow_nonneg (sub_nonneg.2 hc1) 5,
        pow_le_one₀ (sub_nonneg.2 hc1) (by linarith)⟩)
      (fun _ _ _ _ _ _ => zero_le_one) (fun _ _ _ _ _ => zero_le_one)
      (fun _ _ => zero_le_one) (fun _ _ _ => zero_le_one)
      hhalf.1 hhalf.2 hhalf.1 hhalf.2 hhalf.1 hhalf.1 hhalf.2 hhalf.1 hhalf.1 hhalf.2
      ⟨hhalf.1, hhalf.1, hhalf.1⟩ rfl).1⟩

/-- Claim C21, valid results of `DisneyBRDF::sample`: outside the black-fringe case (for
`out_dir` in `sample` and for the pair of the sampled direction and `out_dir` in `pdf`) and
for a positive `EPS`, a result other than `BSDF_SAMPLE_RESULT_INVALID` has `pdf ≥ EPS`,
`is_delta = false`, a direction and an `out_dir` whose local `z` are strictly positive, and
was drawn from a half vector above the local hemisphere in the specular and clearcoat
lobes. -/
theorem DisneyBRDF_sample_valid (ext : DisneyExt R) (base : LocalBSDF R)
    (self : DisneyBRDF R) (out_dir : FVec3 R) (mode : TransMode) (sam : Sample3 R)
    (hEPS : 0 < ext.EPS)
    (hfringe : ext.cause_black_fringes_dir out_dir = false)
    (hpair : ext.cause_black_fringes (self.sample ext base out_dir mode sam).dir out_dir
      = false)
    (hvalid : self.sample ext base out_dir mode sam ≠ BSDF_SAMPLE_RESULT_INVALID) :
    ext.EPS ≤ (self.sample ext base out_dir mode sam).pdf ∧
      (self.sample ext base out_dir mode sam).is_delta = false ∧
      0 < ((base.shading_coord.global_to_local
        (self.sample ext base out_dir mode sam).dir).normalize ext.sqrt).z ∧
      0 < ((base.shading_coord.global_to_local out_dir).normalize ext.sqrt).z ∧
      (self.sample_lobe sam.u = Lobe.specular →
        0 < (ext.sample_anisotropic_gtr2 self.ax self.ay (sam.v, sam.w)).z) ∧
      (self.sample_lobe sam.u = Lobe.clearcoat →
        0 < (ext.sample_gtr1 self.clearcoat_roughness (sam.v, sam.w)).z) := by
  obtain ⟨hoz, wi, hwi, hpdf, hr⟩ := DisneyBRDF.sample_valid_form ext base self out_dir mode
    sam hfringe hvalid
  have hchk := DisneyBRDF.sample_wi_checks ext self _ wi sam hwi
  rw [hr] at hpair ⊢
  refine ⟨hpdf, rfl, ?_, hoz, fun hl => (hchk.1 hl).1, fun hl => (hchk.2 hl).1⟩
  by_contra hz
  have hz0 : ((base.shading_coord.global_to_local
      (base.shading_coord.local_to_global wi)).normalize ext.sqrt).z ≤ 0 := le_of_not_lt hz
  have h0 : self.pdf ext base (base.shading_coord.local_to_global wi) out_dir = 0 := by
    unfold DisneyBRDF.pdf
    simp only [hpair, Bool.false_eq_true, if_false]
    rw [if_pos (Or.inl hz0)]
  rw [h0] at hpdf
  exact absurd hEPS (not_lt.2 hpdf)

/-- Witness for claim C21: the sample `DisneyBRDF` over `ℚ`, sampled from the local `z`
axis with `sam.u = 0` (the diffuse lobe). -/
theorem DisneyBRDF_sample_valid_witness :
    ((0 : ℚ) < (sample_disney_ext (fun x : ℚ => x)).EPS ∧
        (sample_brdf (fun x : ℚ => x)).sample (sample_disney_ext (fun x : ℚ => x))
          sample_frame ⟨0, 0, 1⟩ TransMode.Radiance ⟨0, 0, 0⟩ ≠ BSDF_SAMPLE_RESULT_INVALID) ∧
      (sample_disney_ext (fun x : ℚ => x)).EPS
        ≤ ((sample_brdf (fun x : ℚ => x)).sample (sample_disney_ext (fun x : ℚ => x))
          sample_frame ⟨0, 0, 1⟩ TransMode.Radiance ⟨0, 0, 0⟩).pdf :=
  ⟨⟨by decide!, by decide!⟩,
    (DisneyBRDF_sample_valid (sample_disney_ext (fun x : ℚ => x)) sample_frame
      (sample_brdf (fun x : ℚ => x)) ⟨0, 0, 1⟩ TransMode.Radiance ⟨0, 0, 0⟩ (by decide!) rfl rfl
      (by decide!)).1⟩

/-- An exact square root maps `1` to `1`. -/
theorem sqrt_one_eq (sqrt : R → R) (hsqrt : ∀ x, 0 ≤ x → 0 ≤ sqrt x ∧ sqrt x * sqrt x = x) :
    sqrt 1 = 1 := by
  obtain ⟨h0, h1⟩ := hsqrt 1 zero_le_one
  have h2 : (sqrt 1 - 1) * (sqrt 1 + 1) = 0 := by
    have : (sqrt 1 - 1) * (sqrt 1 + 1) = sqrt 1 * sqrt 1 - 1 := by ring
    rw [this, h1, sub_self]
  rcases mul_eq_zero.1 h2 with h | h
  · exact sub_eq_zero.1 h
  · linarith

/-- The cosine of the angle between two unit vectors is their dot product, of absolute
value at most `1`. -/
theorem FVec3.cos_unit (sqrt : R → R) (hsqrt : ∀ x, 0 ≤ x → 0 ≤ sqrt x ∧ sqrt x * sqrt x = x)
    (a b : FVec3 R) (ha : a.dot a = 1) (hb : b.dot b = 1) :
    FVec3.cos sqrt a b = a.dot b ∧ abs (FVec3.cos sqrt a b) ≤ 1 := by
  have hc : FVec3.cos sqrt a b = a.dot b := by
    unfold FVec3.cos FVec3.length
    rw [ha, hb, sqrt_one_eq sqrt hsqrt, mul_one, div_one]
  refine ⟨hc, ?_⟩
  rw [hc, abs_le_one_iff_mul_self_le_one]
  have h := FVec3.dot_sq_le a b
  rw [ha, hb, mul_one] at h
  exact h

/-- Claim C22, `local_angle::normal_corr_factor` for unit vectors `shd` and `wi`, an exact
square root and `0 < EPS ≤ 1`: with `dem = |cos(geo, wi)|`, the factor is
`|cos(shd, wi)| / dem` with a non-zero divisor when `dem ≥ EPS` and `1` when `dem < EPS`;
it is non-negative and at most `1 / EPS`; and outside the black-fringe case
`DisneyBRDF::eval` returns its value `val` multiplied by the factor at `in_dir`. -/
theorem normal_corr_factor_spec (ext : DisneyExt R) (geo shd wi : FVec3 R)
    (base : LocalBSDF R) (self : DisneyBRDF R) (in_dir out_dir : FVec3 R) (mode : TransMode)
    (hsqrt : ∀ x, 0 ≤ x → 0 ≤ ext.sqrt x ∧ ext.sqrt x * ext.sqrt x = x)
    (hEPS : 0 < ext.EPS) (hEPS1 : ext.EPS ≤ 1)
    (hshd : shd.dot shd = 1) (hwi : wi.dot wi = 1) :
    (ext.EPS ≤ abs (FVec3.cos ext.sqrt geo wi) →
        abs (FVec3.cos ext.sqrt geo wi) ≠ 0 ∧
        normal_corr_factor ext.sqrt ext.EPS geo shd wi
          = abs (FVec3.cos ext.sqrt shd wi) / abs (FVec3.cos ext.sqrt geo wi)) ∧
      (abs (FVec3.cos ext.sqrt geo wi) < ext.EPS →
        normal_corr_factor ext.sqrt ext.EPS geo shd wi = 1) ∧
      0 ≤ normal_corr_factor ext.sqrt ext.EPS geo shd wi ∧
      normal_corr_factor ext.sqrt ext.EPS geo shd wi ≤ 1 / ext.EPS ∧
      (ext.cause_black_fringes in_dir out_dir = false →
        ∀ val, self.eval_val ext base in_dir out_dir = some val →
          self.eval ext base in_dir out_dir mode
            = Spectrum.map (fun c => c * normal_corr_factor ext.sqrt ext.EPS
                base.geometry_coord.z base.shading_coord.z in_dir) val) := by
  have hform : ext.EPS ≤ abs (FVec3.cos ext.sqrt geo wi) →
      normal_corr_factor ext.sqrt ext.EPS geo shd wi
        = abs (FVec3.cos ext.sqrt shd wi) / abs (FVec3.cos ext.sqrt geo wi) := by
    intro h
    unfold normal_corr_factor
    rw [if_neg (not_lt.2 h), abs_div, abs_abs]
  have hcs := (FVec3.cos_unit ext.sqrt hsqrt shd wi hshd hwi).2
  refine ⟨fun h => ⟨ne_of_gt (lt_of_lt_of_le hEPS h), hform h⟩, ?_,
    normal_corr_factor_nonneg _ _ _ _ _, ?_, ?_⟩
  · intro h
    unfold normal_corr_factor
    rw [if_pos h]
  · by_cases h : abs (FVec3.cos ext.sqrt geo wi) < ext.EPS
    · unfold normal_corr_factor
      rw [if_pos h]
      exact one_le_one_div hEPS hEPS1
    · rw [hform (le_of_not_lt h)]
      exact div_le_div₀ zero_le_one hcs hEPS (le_of_not_lt h)
  · intro hfringe val hv
    unfold DisneyBRDF.eval
    simp only [hfringe, Bool.false_eq_true, if_false]
    rw [hv]
    rfl

/-- Witness for claim C22: unit vectors on the `z` axis over `ℝ`, and the sample
`DisneyBRDF` evaluated there. -/
theorem normal_corr_factor_spec_witness :
    ((0 : ℝ) < (sample_disney_ext Real.sqrt).EPS ∧ (sample_disney_ext Real.sqrt).EPS ≤ 1 ∧
        FVec3.dot (⟨0, 0, 1⟩ : FVec3 ℝ) ⟨0, 0, 1⟩ = 1) ∧
      0 ≤ normal_corr_factor Real.sqrt (sample_disney_ext Real.sqrt).EPS
          (⟨0, 0, 1⟩ : FVec3 ℝ) ⟨0, 0, 1⟩ ⟨0, 0, 1⟩ ∧
      normal_corr_factor Real.sqrt (sample_disney_ext Real.sqrt).EPS
          (⟨0, 0, 1⟩ : FVec3 ℝ) ⟨0, 0, 1⟩ ⟨0, 0, 1⟩ ≤ 1 / (sample_disney_ext Real.sqrt).EPS := by
  have h0 : (0 : ℝ) < (sample_disney_ext Real.sqrt).EPS := by
    show (0 : ℝ) < 1 / 1000
    norm_num
  have h1 : (sample_disney_ext Real.sqrt).EPS ≤ (1 : ℝ) := by
    show (1 / 1000 : ℝ) ≤ 1
    norm_num
  have hu : FVec3.dot (⟨0, 0, 1⟩ : FVec3 ℝ) ⟨0, 0, 1⟩ = 1 := by
    show (0 : ℝ) * 0 + 0 * 0 + 1 * 1 = 1
    norm_num
  have h := normal_corr_factor_spec (sample_disney_ext Real.sqrt) ⟨0, 0, 1⟩ ⟨0, 0, 1⟩
    ⟨0, 0, 1⟩ sample_frame (sample_brdf Real.sqrt) ⟨0, 0, 1⟩ ⟨0, 0, 1⟩ TransMode.Radiance
    (fun x hx => ⟨Real.sqrt_nonneg x, Real.mul_self_sqrt hx⟩) h0 h1 hu hu
  exact ⟨⟨h0, h1, hu⟩, h.2.2.1, h.2.2.2.1⟩

end Disney

/-! ## Theorems: pixel statistics across a photon pass -/

section PixelStatistics

variable {R : Type} [LinearOrderedField R]

/-- A property of each pixel that every deposit keeps is kept by the node loop of
`add_photon`. -/
theorem add_photon_walk_invariant (Inv : Nat → Pixel R → Prop)
    (hdep : ∀ i p delta, Inv i p → Inv i (Pixel.deposit p delta))
    (bsdf_eval : Nat → FVec3 R → FVec3 R → TransMode → FSpectrum R)
    (photon_pos : FVec3 R) (phi : FSpectrum R) (wr : FVec3 R) :
    ∀ (l : List VPNode) (pixels pixels' : Nat → Pixel R),
      add_photon_walk bsdf_eval photon_pos phi wr l pixels = some pixels' →
      (∀ i, Inv i (pixels i)) → ∀ i, Inv i (pixels' i) := by
  intro l
  induction l with
  | nil =>
    intro pixels pixels' h hI
    simp only [add_photon_walk, Option.some.injEq] at h
    rw [← h]
    exact hI
  | cons node next ih =>
    intro pixels pixels' h hI
    simp only [add_photon_walk] at h
    split_ifs at h with h1
    · exact ih _ _ h hI
    · cases hb : (pixels node.pixel).vp.bsdf with
      | none =>
        rw [hb] at h
        exact Option.noConfusion h
      | some b =>
        rw [hb] at h
        simp only at h
        split_ifs at h with h2
        · exact ih _ _ h hI
        · refine ih _ _ h ?_
          intro i
          by_cases hi : i = node.pixel
          · rw [hi, Function.update_same]
            exact hdep _ _ _ (hI _)
          · rw [Function.update_noteq hi]
            exact hI i

/-- A property of each pixel that every deposit keeps is kept by any number of
`add_photon` calls. -/
theorem deposit_photons_invariant (Inv : Nat → Pixel R → Prop)
    (hdep : ∀ i p delta, Inv i p → Inv i (Pixel.deposit p delta))
    (s : VisiblePointSearcher R)
    (bsdf_eval : Nat → FVec3 R → FVec3 R → TransMode → FSpectrum R) :
    ∀ (photons : List (Photon R)) (pixels pixels' : Nat → Pixel R),
      deposit_photons s bsdf_eval photons pixels = some pixels' →
      (∀ i, Inv i (pixels i)) → ∀ i, Inv i (pixels' i) := by
  intro photons
  induction photons with
  | nil =>
    intro pixels pixels' h hI
    have h1 : some pixels = some pixels' := h
    injection h1 with h1
    rw [← h1]
    exact hI
  | cons ph rest ih =>
    intro pixels pixels' h hI
    unfold deposit_photons at h
    rw [List.foldlM_cons] at h
    cases hstep : s.add_photon bsdf_eval ph.pos ph.flux ph.wr pixels with
    | none =>
      rw [hstep] at h
      exact Option.noConfusion h
    | some mid =>
      rw [hstep] at h
      exact ih mid pixels' h
        (add_photon_walk_invariant Inv hdep bsdf_eval ph.pos ph.flux ph.wr _ pixels mid hstep hI)

/-- Claim C23, positive-radius invariant: for `alpha` in `(0, 1]` and a square root that
is positive on positive arguments, a pixel with `radius > 0` and `N ≥ 0` still has
`radius > 0` and `N ≥ 0` after any number of `add_photon` calls followed by
`update_pixel_params`; where the branch `M > 0` is taken the divisor `N + M` and the
argument of the square root are positive. -/
theorem positive_radius_invariant (sqrt : R → R) (hsqrt : ∀ x : R, 0 < x → 0 < sqrt x)
    (alpha : R) (h0 : 0 < alpha) (h1 : alpha ≤ 1) (s : VisiblePointSearcher R)
    (bsdf_eval : Nat → FVec3 R → FVec3 R → TransMode → FSpectrum R)
    (photons : List (Photon R)) (pixels pixels' : Nat → Pixel R)
    (hpass : deposit_photons s bsdf_eval photons pixels = some pixels') (i : Nat)
    (hr : 0 < (pixels i).radius) (hN : 0 ≤ (pixels i).N) :
    0 < (update_pixel_params sqrt alpha (pixels' i)).radius ∧
      0 ≤ (update_pixel_params sqrt alpha (pixels' i)).N ∧
      ((pixels' i).M > 0 →
        0 < (pixels' i).N + ((pixels' i).M : R) ∧
        0 < ((pixels' i).N + alpha * ((pixels' i).M : R))
          / ((pixels' i).N + ((pixels' i).M : R))) := by
  have hkeep := deposit_photons_invariant
    (fun j p => p.radius = (pixels j).radius ∧ p.N = (pixels j).N)
    (fun _ _ _ h => h) s bsdf_eval photons pixels pixels' hpass (fun _ => ⟨rfl, rfl⟩) i
  have hr1 : 0 < (pixels' i).radius := by rw [hkeep.1]; exact hr
  have hN1 : 0 ≤ (pixels' i).N := by rw [hkeep.2]; exact hN
  rw [update_pixel_params_radius, update_pixel_params_N]
  by_cases hM : (pixels' i).M > 0
  · have hMR : (0 : R) < ((pixels' i).M : R) := Int.cast_pos.2 hM
    have hratio := (shrink_ratio_bounds alpha (pixels' i).N (pixels' i).M hN1 hM h0 h1).1
    rw [if_pos hM, if_pos hM]
    refine ⟨mul_pos hr1 (hsqrt _ hratio), ?_, fun _ => ⟨by linarith, hratio⟩⟩
    have := mul_pos h0 hMR
    linarith
  · rw [if_neg hM, if_neg hM]
    exact ⟨hr1, hN1, fun h => absurd h hM⟩

/-- Witness for claim C23: the sample store after one photon at the origin. -/
theorem positive_radius_invariant_witness :
    ∃ pixels', deposit_photons (sample_searcher sample_entries) sample_eval
        [(⟨⟨0, 0, 0⟩, FSpectrum.splat 2, ⟨0, 0, 1⟩⟩ : Photon ℚ)] sample_pixels = some pixels' ∧
      0 < (update_pixel_params (fun x : ℚ => x) (1 / 2) (pixels' 0)).radius ∧
      0 ≤ (update_pixel_params (fun x : ℚ => x) (1 / 2) (pixels' 0)).N := by
  obtain ⟨pixels', h⟩ := Option.isSome_iff_exists.1
    (show (deposit_photons (sample_searcher sample_entries) sample_eval
      [(⟨⟨0, 0, 0⟩, FSpectrum.splat 2, ⟨0, 0, 1⟩⟩ : Photon ℚ)] sample_pixels).isSome = true by
      decide!)
  have hthm := positive_radius_invariant (fun x : ℚ => x) (fun _ hx => hx) (1 / 2)
    (by norm_num) (by norm_num) (sample_searcher sample_entries) sample_eval _ sample_pixels
    pixels' h 0 (by decide!) (by decide!)
  exact ⟨pixels', h, hthm.1, hthm.2.1⟩

/-- The fields `M` and `phi` after `update_pixel_params`. -/
theorem update_pixel_params_M_phi (sqrt : R → R) (alpha : R) (pixel : Pixel R) :
    (update_pixel_params sqrt alpha pixel).M = (if pixel.M > 0 then 0 else pixel.M) ∧
      (update_pixel_params sqrt alpha pixel).phi
        = (if pixel.M > 0 then FSpectrum.splat 0 else pixel.phi) := by
  unfold update_pixel_params
  by_cases h : pixel.M > 0
  · simp only [if_pos h]
    exact ⟨trivial, trivial⟩
  · simp only [if_neg h]
    exact ⟨trivial, trivial⟩

/-- Claim C24, reset of the photon statistics: a pixel with `M = 0` and `phi = 0` in every
channel has `M = 0` and `phi = 0` again after any sequence of `add_photon` calls followed
by one `update_pixel_params`; and `add_photon` keeps, for a pixel with `M ≥ 0`, the
property that `M = 0` implies `phi = 0`. -/
theorem photon_statistics_reset (sqrt : R → R) (alpha : R) (s : VisiblePointSearcher R)
    (bsdf_eval : Nat → FVec3 R → FVec3 R → TransMode → FSpectrum R)
    (photons : List (Photon R)) (pixels pixels' : Nat → Pixel R)
    (hpass : deposit_photons s bsdf_eval photons pixels = some pixels') (i : Nat)
    (hM : (pixels i).M = 0) (hphi : (pixels i).phi = FSpectrum.splat 0) :
    ((update_pixel_params sqrt alpha (pixels' i)).M = 0 ∧
        (update_pixel_params sqrt alpha (pixels' i)).phi = FSpectrum.splat 0) ∧
      ∀ (pos : FVec3 R) (flux : FSpectrum R) (wr : FVec3 R) (q q' : Nat → Pixel R),
        s.add_photon bsdf_eval pos flux wr q = some q' → 0 ≤ (q i).M →
        ((q i).M = 0 → (q i).phi = FSpectrum.splat 0) →
        0 ≤ (q' i).M ∧ ((q' i).M = 0 → (q' i).phi = FSpectrum.splat 0) := by
  have hdep : ∀ (j : Nat) (p : Pixel R) (delta : FSpectrum R),
      (j = i → 0 ≤ p.M ∧ (p.M = 0 → p.phi = FSpectrum.splat 0)) →
      (j = i → 0 ≤ (Pixel.deposit p delta).M
        ∧ ((Pixel.deposit p delta).M = 0 → (Pixel.deposit p delta).phi = FSpectrum.splat 0)) := by
    intro j p delta h hj
    have hp := (h hj).1
    have hM1 : (Pixel.deposit p delta).M = p.M + 1 := rfl
    rw [hM1]
    exact ⟨by omega, fun h0 => absurd h0 (by omega)⟩
  constructor
  · have hinv := deposit_photons_invariant
      (fun j p => j = i → 0 ≤ p.M ∧ (p.M = 0 → p.phi = FSpectrum.splat 0)) hdep
      s bsdf_eval photons pixels pixels' hpass
      (fun j hj => by rw [hj, hM]; exact ⟨le_refl 0, fun _ => hphi⟩) i rfl
    obtain ⟨hm, hp⟩ := update_pixel_params_M_phi sqrt alpha (pixels' i)
    rw [hm, hp]
    by_cases h : (pixels' i).M > 0
    · rw [if_pos h, if_pos h]
      exact ⟨rfl, rfl⟩
    · rw [if_neg h, if_neg h]
      have h0 : (pixels' i).M = 0 := le_antisymm (not_lt.1 h) hinv.1
      exact ⟨h0, hinv.2 h0⟩
  · intro pos flux wr q q' hq h0 hz
    exact add_photon_walk_invariant
      (fun j p => j = i → 0 ≤ p.M ∧ (p.M = 0 → p.phi = FSpectrum.splat 0)) hdep
      bsdf_eval pos flux wr _ q q' hq
      (fun j hj => by rw [hj]; exact ⟨h0, hz⟩) i rfl

/-- Witness for claim C24: pixel `0` of the store of zeroed pixels after one photon at the
origin. -/
theorem photon_statistics_reset_witness :
    ∃ pixels', deposit_photons (sample_searcher sample_entries) sample_eval
        [(⟨⟨0, 0, 0⟩, FSpectrum.splat 2, ⟨0, 0, 1⟩⟩ : Photon ℚ)] dark_pixels = some pixels' ∧
      (update_pixel_params (fun x : ℚ => x) (1 / 2) (pixels' 0)).M = 0 ∧
      (update_pixel_params (fun x : ℚ => x) (1 / 2) (pixels' 0)).phi = FSpectrum.splat 0 := by
  obtain ⟨pixels', h⟩ := Option.isSome_iff_exists.1
    (show (deposit_photons (sample_searcher sample_entries) sample_eval
      [(⟨⟨0, 0, 0⟩, FSpectrum.splat 2, ⟨0, 0, 1⟩⟩ : Photon ℚ)] dark_pixels).isSome = true by
      decide!)
  have hthm := photon_statistics_reset (fun x : ℚ => x) (1 / 2)
    (sample_searcher sample_entries) sample_eval _ dark_pixels pixels' h 0 rfl rfl
  exact ⟨pixels', h, hthm.1.1, hthm.1.2⟩

/-- Claim C25, `update_pixel_params` on a pixel with `M = 0`: `radius`, `N`, `tau`, `M`,
`phi` and `direct_illum` are unchanged; and for every pixel, `M = 0` or not, `vp.coef`
becomes the zero spectrum and `vp.bsdf` null, so that the visible point is invalid
afterwards. -/
theorem update_pixel_params_no_photons (sqrt : R → R) (alpha : R) (pixel : Pixel R)
    (hM : pixel.M = 0) :
    ((update_pixel_params sqrt alpha pixel).radius = pixel.radius ∧
        (update_pixel_params sqrt alpha pixel).N = pixel.N ∧
        (update_pixel_params sqrt alpha pixel).tau = pixel.tau ∧
        (update_pixel_params sqrt alpha pixel).M = pixel.M ∧
        (update_pixel_params sqrt alpha pixel).phi = pixel.phi ∧
        (update_pixel_params sqrt alpha pixel).direct_illum = pixel.direct_illum) ∧
      ∀ q : Pixel R, (update_pixel_params sqrt alpha q).vp.coef = FSpectrum.splat 0 ∧
        (update_pixel_params sqrt alpha q).vp.bsdf = none ∧
        (update_pixel_params sqrt alpha q).vp.is_valid = false := by
  constructor
  · have h : ¬ pixel.M > 0 := by rw [hM]; exact lt_irrefl 0
    unfold update_pixel_params
    simp [if_neg h]
  · intro q
    exact ⟨rfl, rfl, rfl⟩

/-- Witness for claim C25: the sample pixel with `M = 0`. -/
theorem update_pixel_params_no_photons_witness :
    (sample_pixel (0 : ℚ) 0).M = 0 ∧
      (update_pixel_params (fun x : ℚ => x) (1 / 2) (sample_pixel (0 : ℚ) 0)).radius
        = (sample_pixel (0 : ℚ) 0).radius ∧
      (update_pixel_params (fun x : ℚ => x) (1 / 2) (sample_pixel (0 : ℚ) 0)).vp.is_valid
        = false :=
  ⟨rfl,
    (update_pixel_params_no_photons (fun x : ℚ => x) (1 / 2) (sample_pixel (0 : ℚ) 0) rfl).1.1,
    ((update_pixel_params_no_photons (fun x : ℚ => x) (1 / 2) (sample_pixel (0 : ℚ) 0) rfl).2
      (sample_pixel (0 : ℚ) 0)).2.2⟩

/-- A channel of a sum of spectra is the sum of the channels. -/
theorem FSpectrum.get_sum (s t : FSpectrum R) (i : Fin 3) :
    (s + t).get i = s.get i + t.get i := by
  fin_cases i <;> rfl

/-- A channel of a quotient of a spectrum by a scalar is the quotient of the channel. -/
theorem FSpectrum.get_divs (s : FSpectrum R) (k : R) (i : Fin 3) :
    (s.divs k).get i = (s.get i).divs k := by
  fin_cases i <;> rfl

/-- Claim C28, `compute_pixel_radiance`: the result is `pixel.direct_illum /
direct_illum_N + pixel.tau / (photon_N * PI_r * radius * radius)`; for `PI_r > 0`,
`direct_illum_N > 0`, `photon_N > 0` and `radius > 0` both divisors are non-zero, a channel
with finite values `a` of `direct_illum` and `t` of `tau` is
`a / direct_illum_N + t / (photon_N * PI_r * radius ^ 2)`, and that value is non-negative
when `a` and `t` are. -/
theorem compute_pixel_radiance_spec (PI_r : R) (hPI : 0 < PI_r) (direct_illum_N : Int)
    (photon_N : Nat) (pixel : Pixel R) (hN : 0 < direct_illum_N) (hP : 0 < photon_N)
    (hr : 0 < pixel.radius) :
    compute_pixel_radiance PI_r direct_illum_N photon_N pixel
        = pixel.direct_illum.divs (direct_illum_N : R)
          + pixel.tau.divs ((photon_N : R) * PI_r * pixel.radius * pixel.radius) ∧
      (direct_illum_N : R) ≠ 0 ∧
      (photon_N : R) * PI_r * pixel.radius * pixel.radius ≠ 0 ∧
      ∀ (i : Fin 3) (a t : R), pixel.direct_illum.get i = Chan.fin a →
        pixel.tau.get i = Chan.fin t →
        (compute_pixel_radiance PI_r direct_illum_N photon_N pixel).get i
            = Chan.fin (a / (direct_illum_N : R)
              + t / ((photon_N : R) * PI_r * pixel.radius ^ 2)) ∧
          (0 ≤ a → 0 ≤ t →
            0 ≤ a / (direct_illum_N : R) + t / ((photon_N : R) * PI_r * pixel.radius ^ 2)) := by
  have hNR : (0 : R) < (direct_illum_N : R) := Int.cast_pos.2 hN
  have hPR : (0 : R) < (photon_N : R) := Nat.cast_pos.2 hP
  have hdem : 0 < (photon_N : R) * PI_r * pixel.radius * pixel.radius :=
    mul_pos (mul_pos (mul_pos hPR hPI) hr) hr
  have hsq : (photon_N : R) * PI_r * pixel.radius ^ 2
      = (photon_N : R) * PI_r * pixel.radius * pixel.radius := by ring
  refine ⟨rfl, ne_of_gt hNR, ne_of_gt hdem, ?_⟩
  intro i a t ha ht
  constructor
  · show (pixel.direct_illum.divs (direct_illum_N : R)
        + pixel.tau.divs ((photon_N : R) * PI_r * pixel.radius * pixel.radius)).get i = _
    rw [FSpectrum.get_sum, FSpectrum.get_divs, FSpectrum.get_divs, ha, ht, hsq]
    show Chan.add (Chan.divs (Chan.fin a) _) (Chan.divs (Chan.fin t) _) = _
    simp only [Chan.divs, if_neg (ne_of_gt hNR), if_neg (ne_of_gt hdem), Chan.add]
  · intro ha0 ht0
    rw [hsq]
    exact add_nonneg (div_nonneg ha0 (le_of_lt hNR)) (div_nonneg ht0 (le_of_lt hdem))

/-- Witness for claim C28: a pixel of radius `1` with `direct_illum = 1` and `tau = 1 / 2`
in every channel. -/
theorem compute_pixel_radiance_spec_witness :
    ((0 : ℚ) < 22 / 7 ∧ (0 : Int) < 4 ∧ 0 < 2 ∧
        0 < sample_lit_pixel.radius) ∧
      (compute_pixel_radiance (22 / 7) 4 2
          sample_lit_pixel).get 0
        = Chan.fin (1 / ((4 : Int) : ℚ) + 1 / 2 / (((2 : Nat) : ℚ) * (22 / 7) * 1 ^ 2)) := by
  have hPI : (0 : ℚ) < 22 / 7 := by norm_num
  have hr : 0 < sample_lit_pixel.radius := by
    show (0 : ℚ) < 1
    norm_num
  exact ⟨⟨hPI, by decide, by decide, hr⟩,
    ((compute_pixel_radiance_spec (22 / 7) hPI 4 2 _ (by decide) (by decide) hr).2.2.2
      0 1 (1 / 2) rfl rfl).1⟩

end PixelStatistics

/-! ## Theorems: the nodes added for a visible point -/

section GridCells

variable {R : Type} [LinearOrderedField R]

/-- A fold over the concatenation of lists is the fold of the folds. -/
theorem foldl_flatMap_nested {S α β : Type} (f : S → β → S) (g : α → List β) (l : List α)
    (s : S) : (l.flatMap g).foldl f s = l.foldl (fun s a => (g a).foldl f s) s := by
  induction l generalizing s with
  | nil => rfl
  | cons a rest ih => rw [List.flatMap_cons, List.foldl_append, List.foldl_cons, ih]

/-- The method `add_vp` pushes one node for each cell of `box_cells`, in that order. -/
theorem add_vp_eq_foldl_cells (s : VisiblePointSearcher R) (pixels : Nat → Pixel R)
    (p : Nat) :
    s.add_vp pixels p
      = (box_cells
          (s.hashed_grid_aux.pos_to_grid ((pixels p).vp.pos - FVec3.splat (pixels p).radius))
          (s.hashed_grid_aux.pos_to_grid ((pixels p).vp.pos + FVec3.splat (pixels p).radius))).foldl
        (fun st c => st.push (s.hashed_grid_aux.grid_to_entry c) p) s := by
  unfold VisiblePointSearcher.add_vp box_cells
  simp only [foldl_flatMap_nested, List.foldl_map]

/-- Pushing one node of `pixel` for each cell of a list prepends to every bucket as many
nodes as cells of the list map to it. -/
theorem foldl_push_cells {K : Type} (g : Vec3i → Nat) (pixel : Nat) (cells : List Vec3i)
    (s : VisiblePointSearcher K) (e : Nat) :
    (cells.foldl (fun st c => st.push (g c) pixel) s).node_entries e
      = List.replicate (cells.countP (fun c => decide (g c = e))) (⟨pixel⟩ : VPNode)
        ++ s.node_entries e := by
  induction cells generalizing s with
  | nil => rfl
  | cons c rest ih =>
    rw [List.foldl_cons, ih, List.countP_cons]
    by_cases h : g c = e
    · have h1 : (s.push (g c) pixel).node_entries e = (⟨pixel⟩ : VPNode) :: s.node_entries e := by
        show Function.update s.node_entries (g c) _ e = _
        rw [h, Function.update_same]
      rw [h1, if_pos (by simpa using h), List.replicate_succ', List.append_assoc]
      rfl
    · have h1 : (s.push (g c) pixel).node_entries e = s.node_entries e := by
        show Function.update s.node_entries (g c) _ e = _
        rw [Function.update_noteq (Ne.symm h)]
      rw [h1, if_neg (by simpa using h), Nat.add_zero]

/-- The values of a loop from `lo` to `hi` are distinct, and there are `hi + 1 - lo` of
them. -/
theorem loop_range_nodup_length (lo hi : Int) :
    (loop_range lo hi).Nodup ∧ (loop_range lo hi).length = (hi + 1 - lo).toNat := by
  unfold loop_range
  refine ⟨(List.nodup_range _).map ?_, by rw [List.length_map, List.length_range]⟩
  intro a b hab
  have h : lo + (a : Int) = lo + (b : Int) := hab
  omega

/-- The value `v` is taken by a loop from `lo` to `hi` exactly when it lies between
them. -/
theorem loop_range_mem (lo hi v : Int) : v ∈ loop_range lo hi ↔ lo ≤ v ∧ v ≤ hi := by
  unfold loop_range
  rw [List.mem_map]
  constructor
  · rintro ⟨i, hi1, rfl⟩
    rw [List.mem_range] at hi1
    omega
  · intro h
    refine ⟨(v - lo).toNat, ?_, by omega⟩
    rw [List.mem_range]
    omega

/-- A concatenation of lists of one length. -/
theorem length_flatMap_const {α β : Type} (g : α → List β) (k : Nat) (l : List α)
    (h : ∀ a, (g a).length = k) : (l.flatMap g).length = l.length * k := by
  induction l with
  | nil => simp
  | cons a rest ih =>
    rw [List.flatMap_cons, List.length_append, ih, h a, List.length_cons]
    ring

/-- The cells of a box: exactly the integer cells between the corners, each once, and
their number is the product of the three extents. -/
theorem box_cells_facts (lo hi : Vec3i) :
    (∀ c : Vec3i, c ∈ box_cells lo hi ↔
        (lo.x ≤ c.x ∧ c.x ≤ hi.x) ∧ (lo.y ≤ c.y ∧ c.y ≤ hi.y) ∧ (lo.z ≤ c.z ∧ c.z ≤ hi.z)) ∧
      (box_cells lo hi).Nodup ∧
      (box_cells lo hi).length
        = (hi.x + 1 - lo.x).toNat * (hi.y + 1 - lo.y).toNat * (hi.z + 1 - lo.z).toNat := by
  refine ⟨?_, ?_, ?_⟩
  · intro c
    unfold box_cells
    simp only [List.mem_flatMap, List.mem_map, loop_range_mem]
    constructor
    · rintro ⟨z, hz, y, hy, x, hx, rfl⟩
      exact ⟨hx, hy, hz⟩
    · rintro ⟨hx, hy, hz⟩
      exact ⟨c.z, hz, c.y, hy, c.x, hx, rfl⟩
  · unfold box_cells
    rw [List.nodup_flatMap]
    refine ⟨fun z _ => ?_, ?_⟩
    · rw [List.nodup_flatMap]
      refine ⟨fun y _ => ?_, ?_⟩
      · refine (loop_range_nodup_length lo.x hi.x).1.map ?_
        intro a b hab
        injection hab
      · refine (loop_range_nodup_length lo.y hi.y).1.imp ?_
        intro a b hab c hca hcb
        rw [List.mem_map] at hca hcb
        obtain ⟨_, _, rfl⟩ := hca
        obtain ⟨_, _, h⟩ := hcb
        injection h with _ h2 _
        exact hab h2.symm
    · refine (loop_range_nodup_length lo.z hi.z).1.imp ?_
      intro a b hab c hca hcb
      simp only [List.mem_flatMap, List.mem_map] at hca hcb
      obtain ⟨_, _, _, _, rfl⟩ := hca
      obtain ⟨_, _, _, _, h⟩ := hcb
      injection h with _ _ h3
      exact hab h3.symm
  · unfold box_cells
    rw [length_flatMap_const _ ((hi.y + 1 - lo.y).toNat * (hi.x + 1 - lo.x).toNat),
      (loop_range_nodup_length lo.z hi.z).2]
    · ring
    · intro z
      rw [length_flatMap_const _ ((hi.x + 1 - lo.x).toNat),
        (loop_range_nodup_length lo.y hi.y).2]
      intro y
      rw [List.length_map, (loop_range_nodup_length lo.x hi.x).2]

/-- Claim C26, `add_vp(pixel, arena)`: every bucket `e` is, afterwards, one new node of the
pixel for each cell of the box that `grid_to_entry` maps to `e`, followed by the bucket as
it was before, its nodes in the same order; the cells of the box are exactly the integer
cells between `pos_to_grid(vp.pos - radius)` and `pos_to_grid(vp.pos + radius)`
component-wise, each taken once, and their number is the product of the three extents
`max - min + 1`. -/
theorem add_vp_prepends (s : VisiblePointSearcher R) (pixels : Nat → Pixel R) (p : Nat) :
    (∀ e : Nat, (s.add_vp pixels p).node_entries e
        = List.replicate
            ((box_cells
              (s.hashed_grid_aux.pos_to_grid
                ((pixels p).vp.pos - FVec3.splat (pixels p).radius))
              (s.hashed_grid_aux.pos_to_grid
                ((pixels p).vp.pos + FVec3.splat (pixels p).radius))).countP
              (fun c => decide (s.hashed_grid_aux.grid_to_entry c = e)))
            (⟨p⟩ : VPNode)
          ++ s.node_entries e) ∧
      ∀ lo hi : Vec3i,
        (∀ c : Vec3i, c ∈ box_cells lo hi ↔
          (lo.x ≤ c.x ∧ c.x ≤ hi.x) ∧ (lo.y ≤ c.y ∧ c.y ≤ hi.y) ∧ (lo.z ≤ c.z ∧ c.z ≤ hi.z)) ∧
        (box_cells lo hi).Nodup ∧
        (box_cells lo hi).length
          = (hi.x + 1 - lo.x).toNat * (hi.y + 1 - lo.y).toNat * (hi.z + 1 - lo.z).toNat := by
  refine ⟨fun e => ?_, box_cells_facts⟩
  rw [add_vp_eq_foldl_cells]
  exact foldl_push_cells _ p _ s e

end GridCells

/-! ## Theorems: a camera ray that misses the scene -/

section CameraMiss

variable {R : Type} [LinearOrderedField R] {Smp : Type}

/-- One iteration of the loop of `tracer_vp` on a ray that misses the scene. -/
theorem tracer_vp_body_miss (env : SceneEnv R Smp) (max_fwd_depth direct_illum_spv : Int)
    (st : TracerVpState R Smp) (hmiss : env.closest_intersection st.ray = none) :
    tracer_vp_body env max_fwd_depth direct_illum_spv st
      = Sum.inl ⟨VisiblePoint.invalid,
          (if st.depth = 0 then
            match env.envir_light with
            | some e => st.direct_illum + st.coef * env.envir_radiance e st.ray.o st.ray.d
            | none => st.direct_illum
          else st.direct_illum),
          st.gpixel, st.sampler⟩ := by
  unfold tracer_vp_body
  rw [hmiss]

/-- Claim C27, a miss in `tracer_vp`: when the first ray misses the scene (depth `0`, with
`max_fwd_depth > 0` so that the loop runs), `direct_illum` grows by exactly
`init_coef * env.radiance(ray.o, ray.d)` if the scene has an environment light and is
unchanged otherwise, and the invalid visible point is returned; when the ray of a later
iteration (depth `> 0`) misses, `direct_illum` is as it was at the head of the iteration and
the invalid visible point is returned. -/
theorem tracer_vp_miss (env : SceneEnv R Smp) (max_fwd_depth direct_illum_spv : Int)
    (r : Ray R) (init_coef : FSpectrum R) (sampler : Smp) (gpixel : Option (GBufferPixel R))
    (direct_illum : FSpectrum R)
    (hdepth : 0 < max_fwd_depth) (hmiss : env.closest_intersection r = none) :
    tracer_vp env max_fwd_depth direct_illum_spv r init_coef sampler gpixel direct_illum
        = ⟨VisiblePoint.invalid,
            (match env.envir_light with
              | some e => direct_illum + init_coef * env.envir_radiance e r.o r.d
              | none => direct_illum),
            gpixel, sampler⟩ ∧
      ∀ (fuel : Nat) (st : TracerVpState R Smp), 0 < st.depth → st.depth < max_fwd_depth →
        env.closest_intersection st.ray = none →
        tracer_vp_loop env max_fwd_depth direct_illum_spv (fuel + 1) st
          = ⟨VisiblePoint.invalid, st.direct_illum, st.gpixel, st.sampler⟩ := by
  constructor
  · obtain ⟨n, hn⟩ : ∃ n, max_fwd_depth.toNat = n + 1 :=
      ⟨max_fwd_depth.toNat - 1, by omega⟩
    unfold tracer_vp
    rw [hn, tracer_vp_loop]
    simp only [if_pos hdepth]
    rw [tracer_vp_body_miss env max_fwd_depth direct_illum_spv _ hmiss]
    simp only [if_true]
  · intro fuel st h0 hlt hm
    rw [tracer_vp_loop]
    simp only [if_pos hlt]
    rw [tracer_vp_body_miss env max_fwd_depth direct_illum_spv st hm]
    simp only [if_neg (ne_of_gt h0)]

/-- Witness for claim C27: a ray from height `2` misses the scene under a sky of radiance
`1`. -/
theorem tracer_vp_miss_witness :
    ((0 : Int) < 3 ∧
        sample_sky_scene.closest_intersection (Ray.make ⟨0, 0, 2⟩ ⟨0, 0, 1⟩ 0) = none) ∧
      (tracer_vp sample_sky_scene 3 1 (Ray.make ⟨0, 0, 2⟩ ⟨0, 0, 1⟩ 0) (FSpectrum.splat 1)
        ((1 / 2 : ℚ), (1 : ℚ)) none (FSpectrum.splat 0)).direct_illum = FSpectrum.splat 1 := by
  have hm : sample_sky_scene.closest_intersection (Ray.make ⟨0, 0, 2⟩ ⟨0, 0, 1⟩ 0) = none := by
    show (if (2 : ℚ) = 0 then some (sample_inct 0 1)
      else if (2 : ℚ) = 1 then some (sample_inct 1 0) else none) = none
    norm_num
  refine ⟨⟨by decide, hm⟩, ?_⟩
  rw [(tracer_vp_miss sample_sky_scene 3 1 (Ray.make ⟨0, 0, 2⟩ ⟨0, 0, 1⟩ 0)
    (FSpectrum.splat 1) ((1 / 2 : ℚ), (1 : ℚ)) none (FSpectrum.splat 0) (by decide) hm).1]
  decide!

end CameraMiss

/-! ## Theorems: the glass `BxDF` -/

section Glass

variable {R : Type} [LinearOrderedField R]

/-- A spectrum divided by a non-zero scalar and multiplied by it again is unchanged. -/
theorem Spectrum.map_div_mul (s : Spectrum R) (k : R) (hk : k ≠ 0) :
    Spectrum.map (fun c => c * k) (Spectrum.map (fun c => c / k) s) = s := by
  unfold Spectrum.map
  simp only [div_mul_cancel₀ _ hk]

/-- A sample of the refraction block of `GlassBxDF::Sample` has `pdf = 1` and the colour
`refrColor` divided by `|dot(wi, ez)|`. -/
theorem GlassBxDF.Sample_refracted_shape (sqrt : R → R) (self : GlassBxDF R) (wi : FVec3 R)
    (type : BxDFType) (rand : R) (ret : BxDFSample R)
    (h : self.Sample_refracted sqrt wi type rand = some ret) :
    ret.pdf = 1 ∧ ret.coef = Spectrum.map (fun c => c / abs (wi.dot self.ez)) self.refrColor := by
  unfold GlassBxDF.Sample_refracted at h
  dsimp only at h
  split_ifs at h <;> split at h <;>
    first
    | exact Option.noConfusion h
    | (injection h with h
       rw [← h]
       exact ⟨rfl, rfl⟩)

/-- The two shapes of a sample of `GlassBxDF::Sample_tagged`: each has `pdf = 1` and the
colour of its lobe divided by `|dot(wi, ez)|`. -/
theorem GlassBxDF.Sample_tagged_shape (sqrt : R → R) (self : GlassBxDF R) (wi : FVec3 R)
    (type : BxDFType) (rand : R) (lobe : GlassLobe) (ret : BxDFSample R)
    (h : self.Sample_tagged sqrt wi type rand = some (lobe, ret)) :
    ret.pdf = 1 ∧
      ret.coef = Spectrum.map (fun c => c / abs (wi.dot self.ez)) (self.lobe_color lobe) := by
  unfold GlassBxDF.Sample_tagged at h
  dsimp only at h
  cases hrf : self.Sample_refracted sqrt wi type rand with
  | some r =>
    rw [hrf] at h
    simp only [Option.some.injEq, Prod.mk.injEq] at h
    obtain ⟨h1, h2⟩ := h
    rw [← h1, ← h2]
    exact GlassBxDF.Sample_refracted_shape sqrt self wi type rand r hrf
  | none =>
    rw [hrf] at h
    simp only at h
    split_ifs at h
    all_goals
      simp only [Option.some.injEq, Prod.mk.injEq] at h
      obtain ⟨h1, h2⟩ := h
      rw [← h1, ← h2]
      exact ⟨rfl, rfl⟩

/-- Claim C29, delta convention of the glass `BxDF`: `GlassBxDF::Eval` is black for every
pair of directions, and every sample returned by `GlassBxDF::Sample` has `pdf = 1` and,
for `dot(wi, ez) ≠ 0`, a weighting factor `coef` with `coef * |dot(wi, ez)|` equal to
`refrColor` for a refraction and to `reflColor` for a reflection. -/
theorem GlassBxDF_delta_convention (sqrt : R → R) (self : GlassBxDF R) (wi wo : FVec3 R)
    (type : BxDFType) (rand : R) :
    self.Eval wi wo = (0, 0, 0) ∧
      ∀ ret : BxDFSample R, self.Sample sqrt wi type rand = some ret →
        ∃ lobe, self.Sample_tagged sqrt wi type rand = some (lobe, ret) ∧ ret.pdf = 1 ∧
          (wi.dot self.ez ≠ 0 →
            Spectrum.map (fun c => c * abs (wi.dot self.ez)) ret.coef
              = self.lobe_color lobe) := by
  refine ⟨rfl, ?_⟩
  intro ret hret
  unfold GlassBxDF.Sample at hret
  cases ht : self.Sample_tagged sqrt wi type rand with
  | none =>
    rw [ht] at hret
    exact Option.noConfusion hret
  | some pr =>
    obtain ⟨lobe, r⟩ := pr
    rw [ht] at hret
    have hr : r = ret := by
      injection hret
    subst hr
    obtain ⟨hpdf, hcoef⟩ := GlassBxDF.Sample_tagged_shape sqrt self wi type rand lobe r ht
    refine ⟨lobe, rfl, hpdf, fun hdot => ?_⟩
    rw [hcoef]
    exact Spectrum.map_div_mul (self.lobe_color lobe) _ (abs_ne_zero.2 hdot)

/-- Witness for claim C29: the sample glass hit along its axis refracts when the random
number is `1 / 2`. -/
theorem GlassBxDF_delta_convention_witness :
    sample_glass.Sample (fun x : ℚ => x) ⟨0, 0, 1⟩ ⟨true, true, true⟩ (1 / 2)
        = some ⟨⟨0, 0, -1⟩, (1 / 2, 1 / 2, 1 / 2), 1⟩ ∧
      (⟨⟨0, 0, -1⟩, (1 / 2, 1 / 2, 1 / 2), 1⟩ : BxDFSample ℚ).pdf = 1 := by
  have h : sample_glass.Sample (fun x : ℚ => x) ⟨0, 0, 1⟩ ⟨true, true, true⟩ (1 / 2)
      = some ⟨⟨0, 0, -1⟩, (1 / 2, 1 / 2, 1 / 2), 1⟩ := by decide!
  obtain ⟨_, _, hpdf, _⟩ := (GlassBxDF_delta_convention (fun x : ℚ => x) sample_glass
    ⟨0, 0, 1⟩ ⟨0, 0, 1⟩ ⟨true, true, true⟩ (1 / 2)).2 _ h
  exact ⟨h, hpdf⟩

/-- Claim C30, lobe selection of `GlassBxDF::Sample`: the `return` statement reached is the
one the specification words, `GlassBxDF.lobe_spec`; in particular no refraction is returned
when transmission is not requested and no reflection when reflection is not requested. -/
theorem GlassBxDF_lobe_selection (sqrt : R → R) (self : GlassBxDF R) (wi : FVec3 R)
    (type : BxDFType) (rand : R) :
    (self.Sample_tagged sqrt wi type rand).map Prod.fst = self.lobe_spec sqrt wi type rand ∧
      (type.transmission = false →
        (self.Sample_tagged sqrt wi type rand).map Prod.fst ≠ some GlassLobe.refraction) ∧
      (type.reflection = false →
        (self.Sample_tagged sqrt wi type rand).map Prod.fst ≠ some GlassLobe.reflection) := by
  have hspec : (self.Sample_tagged sqrt wi type rand).map Prod.fst
      = self.lobe_spec sqrt wi type rand := by
    obtain ⟨r, t, sp⟩ := type
    unfold GlassBxDF.Sample_tagged GlassBxDF.Sample_refracted GlassBxDF.lobe_spec
    dsimp only
    generalize Refract sqrt wi (if wi.dot self.ez < 0 then self.ez.neg else self.ez)
      (if wi.dot self.ez < 0 then self.refIdx else 1 / self.refIdx) = rf
    generalize ChristopheSchlick
      (if wi.dot self.ez < 0 then abs (wi.dot self.ez) * self.refIdx
        else abs (wi.dot self.ez)) self.refIdx = cs
    cases rf <;> by_cases hrand : rand > cs <;> cases r <;> cases t <;> cases sp <;>
      simp [BxDFType.Contains, BxDFType.union, BXDF_REFLECTION, BXDF_TRANSMISSION,
        BXDF_SPECULAR, hrand]
  refine ⟨hspec, ?_, ?_⟩
  · intro ht
    rw [hspec]
    unfold GlassBxDF.lobe_spec
    simp [ht]
  · intro hr
    rw [hspec]
    unfold GlassBxDF.lobe_spec
    simp [hr]

end Glass

/-! ## Theorems: the ACES tone mapper -/

section ToneMapper

variable {R : Type} [LinearOrderedField R]

/-- The value of `math::clamp(x, 0, 1)` lies in `[0, 1]`. -/
theorem clamp_unit (x : R) : 0 ≤ clamp x 0 1 ∧ clamp x 0 1 ≤ 1 := by
  unfold clamp
  exact ⟨le_max_left _ _, max_le zero_le_one (min_le_right _ _)⟩

/-- Claim C31, the ACES tone mapper: `create_aces_tone_mapper(exposure)` throws
`ObjectConstructionException` exactly when `exposure < 0`; for every `exposure ≥ 0`, zero
included, it returns the tone mapper with that exposure, and `process` then replaces each
channel `c` of each pixel by `aces_curve(c * exposure)`, a value in `[0, 1]` (the divisor
inside the curve is positive for every argument). -/
theorem create_aces_tone_mapper_spec (exposure : R) :
    ((∃ e, create_aces_tone_mapper exposure = Except.error e) ↔ exposure < 0) ∧
      (0 ≤ exposure →
        create_aces_tone_mapper exposure = Except.ok ⟨exposure⟩ ∧
        ∀ image : List (List (Spectrum R)),
          (ACESToneMapper.mk exposure).process image
            = image.map (fun row => row.map (fun pixel =>
                Spectrum.map (fun c => ACESToneMapper.aces_curve (c * exposure)) pixel))) ∧
      ∀ x : R, 0 < x * (243 / 100 * x + 59 / 100) + 14 / 100 ∧
        0 ≤ ACESToneMapper.aces_curve x ∧ ACESToneMapper.aces_curve x ≤ 1 := by
  refine ⟨?_, ?_, fun x => ⟨?_, clamp_unit _⟩⟩
  rotate_left 2
  · have h := mul_self_nonneg (x + 59 / 486)
    linarith
  · unfold create_aces_tone_mapper ACESToneMapper.construct
    by_cases h : exposure < 0
    · rw [if_pos h]
      exact ⟨fun _ => h, fun _ => ⟨_, rfl⟩⟩
    · rw [if_neg h]
      constructor
      · rintro ⟨e, he⟩
        exact Except.noConfusion he
      · intro h1
        exact absurd h1 h
  · intro h
    constructor
    · unfold create_aces_tone_mapper ACESToneMapper.construct
      rw [if_neg (not_lt.2 h)]
    · intro image
      rfl

/-- Witness for claim C31: exposure `0` is accepted. -/
theorem create_aces_tone_mapper_spec_witness :
    (0 : ℚ) ≤ 0 ∧ create_aces_tone_mapper (0 : ℚ) = Except.ok ⟨0⟩ :=
  ⟨le_refl 0, ((create_aces_tone_mapper_spec (0 : ℚ)).2.1 (le_refl 0)).1⟩

end ToneMapper

/-! ## Theorems: photon density across the statistics update -/

section PhotonDensity

variable {R : Type} [LinearOrderedField R]

/-- Claim C35, photon-density conservation of `update_pixel_params`: for an exact square
root, `radius > 0`, `N ≥ 0`, `M > 0` and `alpha` in `(0, 1]`, the new values satisfy
`new_N / new_R² = (N + M) / radius²` and `(new_R / radius)² = (N + alpha * M) / (N + M)`;
`tau` becomes `(tau + vp.coef * phi)` scaled by exactly that factor, which lies in
`(0, 1]`; and `N` does not decrease. -/
theorem update_pixel_params_density (sqrt : R → R)
    (hsqrt : ∀ x : R, 0 ≤ x → 0 ≤ sqrt x ∧ sqrt x * sqrt x = x)
    (alpha : R) (h0 : 0 < alpha) (h1 : alpha ≤ 1) (pixel : Pixel R)
    (hr : 0 < pixel.radius) (hN : 0 ≤ pixel.N) (hM : pixel.M > 0) :
    (update_pixel_params sqrt alpha pixel).N / (update_pixel_params sqrt alpha pixel).radius ^ 2
        = (pixel.N + (pixel.M : R)) / pixel.radius ^ 2 ∧
      ((update_pixel_params sqrt alpha pixel).radius / pixel.radius) ^ 2
        = (pixel.N + alpha * (pixel.M : R)) / (pixel.N + (pixel.M : R)) ∧
      (update_pixel_params sqrt alpha pixel).tau
        = (pixel.tau + pixel.vp.coef * pixel.phi).scale
          ((pixel.N + alpha * (pixel.M : R)) / (pixel.N + (pixel.M : R))) ∧
      (0 < (pixel.N + alpha * (pixel.M : R)) / (pixel.N + (pixel.M : R)) ∧
        (pixel.N + alpha * (pixel.M : R)) / (pixel.N + (pixel.M : R)) ≤ 1) ∧
      pixel.N ≤ (update_pixel_params sqrt alpha pixel).N := by
  have hMR : (0 : R) < (pixel.M : R) := Int.cast_pos.2 hM
  obtain ⟨hq0, hq1, _⟩ := shrink_ratio_bounds alpha pixel.N pixel.M hN hM h0 h1
  have hs := (hsqrt _ (le_of_lt hq0)).2
  have hrne : pixel.radius ≠ 0 := ne_of_gt hr
  have hsum : 0 < pixel.N + (pixel.M : R) := by linarith
  have hnew : 0 < pixel.N + alpha * (pixel.M : R) := by
    have := mul_pos h0 hMR
    linarith
  have hsq : (pixel.radius
      * sqrt ((pixel.N + alpha * (pixel.M : R)) / (pixel.N + (pixel.M : R)))
      / pixel.radius) ^ 2
      = (pixel.N + alpha * (pixel.M : R)) / (pixel.N + (pixel.M : R)) := by
    rw [mul_div_assoc, mul_div_cancel₀ _ hrne, pow_two, hs]
  have htau : (update_pixel_params sqrt alpha pixel).tau
      = (pixel.tau + pixel.vp.coef * pixel.phi).scale
        ((pixel.radius
          * sqrt ((pixel.N + alpha * (pixel.M : R)) / (pixel.N + (pixel.M : R)))
          / pixel.radius) ^ 2) := by
    unfold update_pixel_params
    simp only [if_pos hM, FSpectrum.scale, FSpectrum.divs, FSpectrum.get]
    simp only [Chan.divs_scale_sq _ _ _ hrne]
  rw [htau, hsq, update_pixel_params_radius, update_pixel_params_N, if_pos hM, if_pos hM]
  refine ⟨?_, hsq, rfl, ⟨hq0, hq1⟩, ?_⟩
  · rw [mul_pow, pow_two (sqrt _), hs]
    field_simp
    ring
  · have := mul_pos h0 hMR
    linarith

/-- Witness for claim C35: the sample pixel with `N = 1` and `M = 3` over `ℝ`, with
`alpha = 1 / 2`. -/
theorem update_pixel_params_density_witness :
    ((0 : ℝ) < 1 / 2 ∧ (1 / 2 : ℝ) ≤ 1 ∧ 0 < (sample_pixel (1 : ℝ) 3).radius ∧
        0 ≤ (sample_pixel (1 : ℝ) 3).N ∧ (sample_pixel (1 : ℝ) 3).M > 0) ∧
      (sample_pixel (1 : ℝ) 3).N
        ≤ (update_pixel_params Real.sqrt (1 / 2) (sample_pixel (1 : ℝ) 3)).N := by
  have hr : 0 < (sample_pixel (1 : ℝ) 3).radius := by
    show (0 : ℝ) < 1
    norm_num
  have hN : 0 ≤ (sample_pixel (1 : ℝ) 3).N := by
    show (0 : ℝ) ≤ 1
    norm_num
  have hM : (sample_pixel (1 : ℝ) 3).M > 0 := by
    show (3 : Int) > 0
    norm_num
  exact ⟨⟨by norm_num, by norm_num, hr, hN, hM⟩,
    (update_pixel_params_density Real.sqrt
      (fun x hx => ⟨Real.sqrt_nonneg x, Real.mul_self_sqrt hx⟩) (1 / 2) (by norm_num)
      (by norm_num) (sample_pixel (1 : ℝ) 3) hr hN hM).2.2.2.2⟩

end PhotonDensity

/-! ## Theorems: reflectance, refraction and reflection of the glass -/

section GlassOptics

variable {R : Type} [LinearOrderedField R]

/-- The squared ratio `((1 - n) / (1 + n))²` of `ChristopheSchlick` lies in `[0, 1]` for a
positive index. -/
theorem schlick_base_bounds (n : R) (hn : 0 < n) :
    0 ≤ (1 - n) / (1 + n) * ((1 - n) / (1 + n)) ∧
      (1 - n) / (1 + n) * ((1 - n) / (1 + n)) ≤ 1 := by
  have h1 : 0 < 1 + n := by linarith
  refine ⟨mul_self_nonneg _, ?_⟩
  rw [div_mul_div_comm, div_le_one (mul_pos h1 h1)]
  nlinarith

/-- The value of `ChristopheSchlick` is at most `1` for a non-negative cosine and a
positive index, and at least `0` when the cosine is at most `1` as well. -/
theorem ChristopheSchlick_bounds (cos n : R) (hn : 0 < n) (hc : 0 ≤ cos) :
    ChristopheSchlick cos n ≤ 1 ∧ (cos ≤ 1 → 0 ≤ ChristopheSchlick cos n) := by
  obtain ⟨ht0, ht1⟩ := schlick_base_bounds n hn
  unfold ChristopheSchlick
  dsimp only
  have hp : (1 - cos) ^ 5 ≤ 1 := by
    by_cases h : 0 ≤ 1 - cos
    · exact pow_le_one₀ h (by linarith)
    · have hneg : 1 - cos < 0 := lt_of_not_le h
      have h5 : (1 - cos) ^ 5 < 0 := Odd.pow_neg (by decide) hneg
      linarith
  constructor
  · have := mul_le_mul_of_nonneg_left hp (sub_nonneg.2 ht1)
    linarith
  · intro hc1
    have h5 : 0 ≤ (1 - cos) ^ 5 := pow_nonneg (sub_nonneg.2 hc1) 5
    have := mul_nonneg (sub_nonneg.2 ht1) h5
    linarith

/-- Counterexample to claim C36 as stated: for the glass of index `2` and the unit
direction `(0, 0, -1)`, on the branch `dot < 0`, the cosine passed is `2` and the value
compared with `Rand()` is `-7 / 9`, not a probability. -/
theorem Sample_reflectance_negative :
    FVec3.dot (⟨0, 0, -1⟩ : FVec3 ℚ) ⟨0, 0, -1⟩ = 1 ∧ 0 < sample_dense_glass.refIdx ∧
      sample_dense_glass.Sample_reflectance ⟨0, 0, -1⟩ = -7 / 9 ∧
      ¬ (0 ≤ sample_dense_glass.Sample_reflectance ⟨0, 0, -1⟩ ∧
        sample_dense_glass.Sample_reflectance ⟨0, 0, -1⟩ ≤ 1) := by
  have h : sample_dense_glass.Sample_reflectance ⟨0, 0, -1⟩ = -7 / 9 := by decide!
  refine ⟨by decide!, by decide!, h, ?_⟩
  rw [h]
  norm_num

/-- Claim C36 as amended: for unit vectors `wi` and `ez` and a positive index, the value
`ChristopheSchlick(cosine, refIdx_)` that `GlassBxDF::Sample` compares with `Rand()` is at
most `1`, and it is at least `0`, hence a probability, whenever the cosine passed is at most
`1`: always on the branch `dot ≥ 0`, and on the branch `dot < 0` when
`|dot| * refIdx_ ≤ 1`. -/
theorem Sample_reflectance_bounds (self : GlassBxDF R) (wi : FVec3 R)
    (hn : 0 < self.refIdx) (hwi : wi.dot wi = 1) (hez : self.ez.dot self.ez = 1) :
    self.Sample_reflectance wi ≤ 1 ∧
      (0 ≤ wi.dot self.ez ∨ abs (wi.dot self.ez) * self.refIdx ≤ 1 →
        0 ≤ self.Sample_reflectance wi) := by
  have hcs : abs (wi.dot self.ez) ≤ 1 := by
    rw [abs_le_one_iff_mul_self_le_one]
    have h := FVec3.dot_sq_le wi self.ez
    rw [hwi, hez, mul_one] at h
    exact h
  unfold GlassBxDF.Sample_reflectance
  dsimp only
  by_cases hd : wi.dot self.ez < 0
  · rw [if_pos hd]
    have hc : 0 ≤ abs (wi.dot self.ez) * self.refIdx :=
      mul_nonneg (abs_nonneg _) (le_of_lt hn)
    obtain ⟨hle, hge⟩ := ChristopheSchlick_bounds _ self.refIdx hn hc
    refine ⟨hle, fun h => ?_⟩
    rcases h with h | h
    · exact absurd hd (not_lt.2 h)
    · exact hge h
  · rw [if_neg hd]
    obtain ⟨hle, hge⟩ := ChristopheSchlick_bounds _ self.refIdx hn (abs_nonneg (wi.dot self.ez))
    exact ⟨hle, fun _ => hge hcs⟩

/-- Witness for claim C36 as amended: the sample glass seen along its axis. -/
theorem Sample_reflectance_bounds_witness :
    ((0 : ℚ) < sample_glass.refIdx ∧ FVec3.dot (⟨0, 0, 1⟩ : FVec3 ℚ) ⟨0, 0, 1⟩ = 1 ∧
        sample_glass.ez.dot sample_glass.ez = 1) ∧
      sample_glass.Sample_reflectance ⟨0, 0, 1⟩ ≤ 1 ∧
      0 ≤ sample_glass.Sample_reflectance ⟨0, 0, 1⟩ := by
  have h := Sample_reflectance_bounds sample_glass ⟨0, 0, 1⟩ (by decide!) (by decide!)
    (by decide!)
  exact ⟨⟨by decide!, by decide!, by decide!⟩, h.1, h.2 (Or.inl (by decide!))⟩

/-- The vector that `Refract` writes, for unit `wi` and `nor` and a square root `s` of the
positive `jdg`: it has unit length, its dot product with `nor` is `-s`, and its component
perpendicular to `nor` is `niDivNt` times that of `-wi`. -/
theorem refracted_vector_facts (wi nor : FVec3 R) (n s : R)
    (hwi : wi.dot wi = 1) (hnor : nor.dot nor = 1)
    (hs : s * s = 1 - n * n * (1 - -(wi.dot nor) * -(wi.dot nor))) :
    (FVec3.smul n (wi.neg - FVec3.smul (-(wi.dot nor)) nor) - FVec3.smul s nor).dot
        (FVec3.smul n (wi.neg - FVec3.smul (-(wi.dot nor)) nor) - FVec3.smul s nor) = 1 ∧
      (FVec3.smul n (wi.neg - FVec3.smul (-(wi.dot nor)) nor) - FVec3.smul s nor).dot nor = -s ∧
      (FVec3.smul n (wi.neg - FVec3.smul (-(wi.dot nor)) nor) - FVec3.smul s nor)
          - FVec3.smul
            ((FVec3.smul n (wi.neg - FVec3.smul (-(wi.dot nor)) nor) - FVec3.smul s nor).dot nor)
            nor
        = FVec3.smul n (wi.neg - FVec3.smul (wi.neg.dot nor) nor) := by
  have hw : wi.x * wi.x + wi.y * wi.y + wi.z * wi.z = 1 := hwi
  have hn : nor.x * nor.x + nor.y * nor.y + nor.z * nor.z = 1 := hnor
  have hs1 : s * s = 1 - n * n * (1 - -(wi.x * nor.x + wi.y * nor.y + wi.z * nor.z)
      * -(wi.x * nor.x + wi.y * nor.y + wi.z * nor.z)) := hs
  refine ⟨?_, ?_, ?_⟩
  · show (n * (-wi.x - -(wi.x * nor.x + wi.y * nor.y + wi.z * nor.z) * nor.x) - s * nor.x)
        * (n * (-wi.x - -(wi.x * nor.x + wi.y * nor.y + wi.z * nor.z) * nor.x) - s * nor.x)
      + (n * (-wi.y - -(wi.x * nor.x + wi.y * nor.y + wi.z * nor.z) * nor.y) - s * nor.y)
        * (n * (-wi.y - -(wi.x * nor.x + wi.y * nor.y + wi.z * nor.z) * nor.y) - s * nor.y)
      + (n * (-wi.z - -(wi.x * nor.x + wi.y * nor.y + wi.z * nor.z) * nor.z) - s * nor.z)
        * (n * (-wi.z - -(wi.x * nor.x + wi.y * nor.y + wi.z * nor.z) * nor.z) - s * nor.z) = 1
    linear_combination hs1 + n ^ 2 * hw
      + (n * (wi.x * nor.x + wi.y * nor.y + wi.z * nor.z) - s) ^ 2 * hn
  · show (n * (-wi.x - -(wi.x * nor.x + wi.y * nor.y + wi.z * nor.z) * nor.x) - s * nor.x) * nor.x
      + (n * (-wi.y - -(wi.x * nor.x + wi.y * nor.y + wi.z * nor.z) * nor.y) - s * nor.y) * nor.y
      + (n * (-wi.z - -(wi.x * nor.x + wi.y * nor.y + wi.z * nor.z) * nor.z) - s * nor.z) * nor.z
      = -s
    linear_combination (n * (wi.x * nor.x + wi.y * nor.y + wi.z * nor.z) - s) * hn
  · have hx : ∀ a b c d e f : R, a = d → b = e → c = f → (⟨a, b, c⟩ : FVec3 R) = ⟨d, e, f⟩ := by
      intro a b c d e f h1 h2 h3
      rw [h1, h2, h3]
    apply hx
    · show (n * (-wi.x - -(wi.x * nor.x + wi.y * nor.y + wi.z * nor.z) * nor.x) - s * nor.x)
          - ((n * (-wi.x - -(wi.x * nor.x + wi.y * nor.y + wi.z * nor.z) * nor.x) - s * nor.x)
              * nor.x
            + (n * (-wi.y - -(wi.x * nor.x + wi.y * nor.y + wi.z * nor.z) * nor.y) - s * nor.y)
              * nor.y
            + (n * (-wi.z - -(wi.x * nor.x + wi.y * nor.y + wi.z * nor.z) * nor.z) - s * nor.z)
              * nor.z) * nor.x
        = n * (-wi.x - (-wi.x * nor.x + -wi.y * nor.y + -wi.z * nor.z) * nor.x)
      linear_combination
        (-(n * (wi.x * nor.x + wi.y * nor.y + wi.z * nor.z) - s) * nor.x) * hn
    · show (n * (-wi.y - -(wi.x * nor.x + wi.y * nor.y + wi.z * nor.z) * nor.y) - s * nor.y)
          - ((n * (-wi.x - -(wi.x * nor.x + wi.y * nor.y + wi.z * nor.z) * nor.x) - s * nor.x)
              * nor.x
            + (n * (-wi.y - -(wi.x * nor.x + wi.y * nor.y + wi.z * nor.z) * nor.y) - s * nor.y)
              * nor.y
            + (n * (-wi.z - -(wi.x * nor.x + wi.y * nor.y + wi.z * nor.z) * nor.z) - s * nor.z)
              * nor.z) * nor.y
        = n * (-wi.y - (-wi.x * nor.x + -wi.y * nor.y + -wi.z * nor.z) * nor.y)
      linear_combination
        (-(n * (wi.x * nor.x + wi.y * nor.y + wi.z * nor.z) - s) * nor.y) * hn
    · show (n * (-wi.z - -(wi.x * nor.x + wi.y * nor.y + wi.z * nor.z) * nor.z) - s * nor.z)
          - ((n * (-wi.x - -(wi.x * nor.x + wi.y * nor.y + wi.z * nor.z) * nor.x) - s * nor.x)
              * nor.x
            + (n * (-wi.y - -(wi.x * nor.x + wi.y * nor.y + wi.z * nor.z) * nor.y) - s * nor.y)
              * nor.y
            + (n * (-wi.z - -(wi.x * nor.x + wi.y * nor.y + wi.z * nor.z) * nor.z) - s * nor.z)
              * nor.z) * nor.z
        = n * (-wi.z - (-wi.x * nor.x + -wi.y * nor.y + -wi.z * nor.z) * nor.z)
      linear_combination
        (-(n * (wi.x * nor.x + wi.y * nor.y + wi.z * nor.z) - s) * nor.z) * hn

/-- The reflection direction `2 * a * nor - wi` for unit `wi` and `nor` with
`a = dot(wi, nor)`: it has unit length and the same dot product with `nor` as `wi`. -/
theorem reflected_vector_facts (wi nor : FVec3 R) (a : R)
    (hwi : wi.dot wi = 1) (hnor : nor.dot nor = 1) (ha : a = wi.dot nor) :
    (FVec3.smul (2 * a) nor - wi).dot (FVec3.smul (2 * a) nor - wi) = 1 ∧
      (FVec3.smul (2 * a) nor - wi).dot nor = wi.dot nor := by
  have hw : wi.x * wi.x + wi.y * wi.y + wi.z * wi.z = 1 := hwi
  have hn : nor.x * nor.x + nor.y * nor.y + nor.z * nor.z = 1 := hnor
  have ha1 : a = wi.x * nor.x + wi.y * nor.y + wi.z * nor.z := ha
  constructor
  · show (2 * a * nor.x - wi.x) * (2 * a * nor.x - wi.x)
      + (2 * a * nor.y - wi.y) * (2 * a * nor.y - wi.y)
      + (2 * a * nor.z - wi.z) * (2 * a * nor.z - wi.z) = 1
    linear_combination hw + 4 * a ^ 2 * hn + 4 * a * ha1
  · show (2 * a * nor.x - wi.x) * nor.x + (2 * a * nor.y - wi.y) * nor.y
      + (2 * a * nor.z - wi.z) * nor.z = wi.x * nor.x + wi.y * nor.y + wi.z * nor.z
    linear_combination 2 * a * hn + 2 * ha1

/-- The dot product with a negated vector. -/
theorem FVec3.dot_neg_right (a b : FVec3 R) : a.dot b.neg = -(a.dot b) := by
  show a.x * -b.x + a.y * -b.y + a.z * -b.z = -(a.x * b.x + a.y * b.y + a.z * b.z)
  ring

/-- A negated unit vector is a unit vector. -/
theorem FVec3.neg_dot_self (a : FVec3 R) : a.neg.dot a.neg = a.dot a := by
  show -a.x * -a.x + -a.y * -a.y + -a.z * -a.z = a.x * a.x + a.y * a.y + a.z * a.z
  ring

/-- Claim C37, `Refract` and the reflection direction for unit vectors and an exact square
root: `Refract` returns `false` (and writes nothing) exactly when
`niDivNt² * (1 - dot(wi, nor)²) ≥ 1`; the vector it writes when it returns `true` has unit
length, a negative dot product with `nor`, and a component perpendicular to `nor` that is
`niDivNt` times that of `-wi`; and the direction `2 * |dot| * nor - wi` of a reflection
returned by `GlassBxDF::Sample` has unit length and the same dot product with `nor` as
`wi`. -/
theorem Refract_spec (sqrt : R → R)
    (hsqrt : ∀ x : R, 0 ≤ x → 0 ≤ sqrt x ∧ sqrt x * sqrt x = x)
    (wi nor : FVec3 R) (niDivNt : R) (self : GlassBxDF R) (type : BxDFType) (rand : R)
    (hwi : wi.dot wi = 1) (hnor : nor.dot nor = 1) (hez : self.ez.dot self.ez = 1) :
    (Refract sqrt wi nor niDivNt = none ↔ 1 ≤ niDivNt ^ 2 * (1 - wi.dot nor ^ 2)) ∧
      (∀ r, Refract sqrt wi nor niDivNt = some r →
        r.dot r = 1 ∧ r.dot nor < 0 ∧
        r - FVec3.smul (r.dot nor) nor
          = FVec3.smul niDivNt (wi.neg - FVec3.smul (wi.neg.dot nor) nor)) ∧
      ∀ ret, self.Sample_tagged sqrt wi type rand = some (GlassLobe.reflection, ret) →
        ret.dir.dot ret.dir = 1 ∧
        ret.dir.dot (if wi.dot self.ez < 0 then self.ez.neg else self.ez)
          = wi.dot (if wi.dot self.ez < 0 then self.ez.neg else self.ez) := by
  refine ⟨?_, ?_, ?_⟩
  · unfold Refract
    dsimp only
    by_cases h : 1 - niDivNt * niDivNt * (1 - -(wi.dot nor) * -(wi.dot nor)) > 0
    · rw [if_pos h]
      constructor
      · intro hc
        exact Option.noConfusion hc
      · intro hc
        have : niDivNt ^ 2 * (1 - wi.dot nor ^ 2)
            = niDivNt * niDivNt * (1 - -(wi.dot nor) * -(wi.dot nor)) := by ring
        rw [this] at hc
        exact absurd h (not_lt.2 (by linarith))
    · rw [if_neg h]
      refine ⟨fun _ => ?_, fun _ => rfl⟩
      have : niDivNt ^ 2 * (1 - wi.dot nor ^ 2)
          = niDivNt * niDivNt * (1 - -(wi.dot nor) * -(wi.dot nor)) := by ring
      rw [this]
      linarith [not_lt.1 h]
  · intro r hr
    unfold Refract at hr
    dsimp only at hr
    by_cases h : 1 - niDivNt * niDivNt * (1 - -(wi.dot nor) * -(wi.dot nor)) > 0
    · rw [if_pos h] at hr
      injection hr with hr
      obtain ⟨hs0, hs⟩ := hsqrt _ (le_of_lt h)
      obtain ⟨h1, h2, h3⟩ := refracted_vector_facts wi nor niDivNt _ hwi hnor hs
      have hspos : 0 < sqrt (1 - niDivNt * niDivNt * (1 - -(wi.dot nor) * -(wi.dot nor))) := by
        rcases eq_or_lt_of_le hs0 with h0 | h0
        · rw [← h0, mul_zero] at hs
          rw [← hs] at h
          exact absurd h (lt_irrefl _)
        · exact h0
      rw [← hr]
      refine ⟨h1, ?_, h3⟩
      rw [h2]
      linarith
    · rw [if_neg h] at hr
      exact Option.noConfusion hr
  · intro ret hret
    unfold GlassBxDF.Sample_tagged at hret
    dsimp only at hret
    cases hrf : self.Sample_refracted sqrt wi type rand with
    | some r0 =>
      rw [hrf] at hret
      simp only [Option.some.injEq, Prod.mk.injEq] at hret
      exact absurd hret.1 (by decide)
    | none =>
      rw [hrf] at hret
      simp only at hret
      by_cases hc : type.Contains (BXDF_REFLECTION.union BXDF_SPECULAR) = true
      · rw [if_pos hc] at hret
        simp only [Option.some.injEq, Prod.mk.injEq, true_and] at hret
        rw [← hret]
        show (FVec3.smul (2 * abs (wi.dot self.ez))
              (if wi.dot self.ez < 0 then self.ez.neg else self.ez) - wi).dot
            (FVec3.smul (2 * abs (wi.dot self.ez))
              (if wi.dot self.ez < 0 then self.ez.neg else self.ez) - wi) = 1 ∧
          (FVec3.smul (2 * abs (wi.dot self.ez))
              (if wi.dot self.ez < 0 then self.ez.neg else self.ez) - wi).dot
            (if wi.dot self.ez < 0 then self.ez.neg else self.ez)
          = wi.dot (if wi.dot self.ez < 0 then self.ez.neg else self.ez)
        by_cases hd : wi.dot self.ez < 0
        · simp only [if_pos hd]
          exact reflected_vector_facts wi self.ez.neg _ hwi
            (by rw [FVec3.neg_dot_self, hez])
            (by rw [FVec3.dot_neg_right, abs_of_neg hd])
        · simp only [if_neg hd]
          exact reflected_vector_facts wi self.ez _ hwi hez (abs_of_nonneg (not_lt.1 hd))
      · rw [if_neg hc] at hret
        exact Option.noConfusion hret

/-- Witness for claim C37: the sample glass over `ℝ` and the unit vector `(0, 0, 1)` as
`wi` and as `nor`, with `niDivNt = 1`: `Refract` succeeds. -/
theorem Refract_spec_witness :
    (FVec3.dot (⟨0, 0, 1⟩ : FVec3 ℝ) ⟨0, 0, 1⟩ = 1) ∧
      ¬ (Refract Real.sqrt (⟨0, 0, 1⟩ : FVec3 ℝ) ⟨0, 0, 1⟩ 1 = none) := by
  have hu : FVec3.dot (⟨0, 0, 1⟩ : FVec3 ℝ) ⟨0, 0, 1⟩ = 1 := by
    show (0 : ℝ) * 0 + 0 * 0 + 1 * 1 = 1
    norm_num
  have h := (Refract_spec Real.sqrt (fun x hx => ⟨Real.sqrt_nonneg x, Real.mul_self_sqrt hx⟩)
    (⟨0, 0, 1⟩ : FVec3 ℝ) ⟨0, 0, 1⟩ 1 ⟨⟨0, 0, 1⟩, (1, 1, 1), (1, 1, 1), 3 / 2⟩
    ⟨true, true, true⟩ 0 hu hu hu).1
  refine ⟨hu, fun hc => ?_⟩
  have h1 := h.1 hc
  rw [hu] at h1
  norm_num at h1

end GlassOptics

/-! ## Theorems: reciprocity of `DisneyBRDF::eval` -/

section Reciprocity

variable {R : Type} [LinearOrderedField R]

/-- Addition of vectors is commutative. -/
theorem FVec3.sum_comm (a b : FVec3 R) : a + b = b + a := by
  show (⟨a.x + b.x, a.y + b.y, a.z + b.z⟩ : FVec3 R) = ⟨b.x + a.x, b.y + a.y, b.z + a.z⟩
  rw [add_comm a.x, add_comm a.y, add_comm a.z]

/-- The dot product with a normalised vector. -/
theorem FVec3.dot_normalize (sqrt : R → R) (a v : FVec3 R) :
    a.dot (v.normalize sqrt) = a.dot v / v.length sqrt := by
  show a.x * (v.x / v.length sqrt) + a.y * (v.y / v.length sqrt) + a.z * (v.z / v.length sqrt)
    = (a.x * v.x + a.y * v.y + a.z * v.z) / v.length sqrt
  rw [add_div, add_div, mul_div_assoc, mul_div_assoc, mul_div_assoc]

/-- Two unit vectors have the same dot product with their half vector. -/
theorem half_vector_symmetric (sqrt : R → R) (wi wo : FVec3 R)
    (hi : wi.dot wi = 1) (ho : wo.dot wo = 1) :
    wo.dot ((wi + wo).normalize sqrt) = wi.dot ((wi + wo).normalize sqrt) := by
  rw [FVec3.dot_normalize, FVec3.dot_normalize]
  congr 1
  unfold FVec3.dot at hi ho ⊢
  simp only [FVec3.sum_x, FVec3.sum_y, FVec3.sum_z]
  linarith

/-- The value of `DisneyBRDF::f_diffuse` is symmetric in the two Fresnel weights. -/
theorem DisneyBRDF.f_diffuse_comm (FI FO c r : R) :
    DisneyBRDF.f_diffuse FI FO c r = DisneyBRDF.f_diffuse FO FI c r := by
  unfold DisneyBRDF.f_diffuse
  ring

/-- The value of `DisneyBRDF::f_subsurface` is symmetric in the two directions. -/
theorem DisneyBRDF.f_subsurface_comm (ci co FI FO c r : R) :
    DisneyBRDF.f_subsurface ci co FI FO c r = DisneyBRDF.f_subsurface co ci FO FI c r := by
  unfold DisneyBRDF.f_subsurface
  rw [add_comm ci co]
  ring

/-- The value `val` of `DisneyBRDF::eval` is symmetric in the two directions. -/
theorem DisneyBRDF.eval_val_symmetric (ext : DisneyExt R) (base : LocalBSDF R)
    (self : DisneyBRDF R) (wi wo : FVec3 R)
    (hsqrt : ∀ x, 0 ≤ x → 0 ≤ ext.sqrt x ∧ ext.sqrt x * ext.sqrt x = x) :
    self.eval_val ext base wi wo = self.eval_val ext base wo wi := by
  unfold DisneyBRDF.eval_val
  dsimp only
  by_cases hz : ((base.shading_coord.global_to_local wi).normalize ext.sqrt).z ≤ 0
      ∨ ((base.shading_coord.global_to_local wo).normalize ext.sqrt).z ≤ 0
  · rw [if_pos hz, if_pos (Or.symm hz)]
  rw [if_neg hz, if_neg (fun h => hz (Or.symm h))]
  by_cases hl : ext.lum self.base_color < ext.EPS
  · rw [if_pos hl, if_pos hl]
  rw [if_neg hl, if_neg hl]
  have hiz := lt_of_not_le (fun h => hz (Or.inl h))
  have hoz := lt_of_not_le (fun h => hz (Or.inr h))
  have hi := (FVec3.normalize_facts ext.sqrt hsqrt _ hiz).2
  have ho := (FVec3.normalize_facts ext.sqrt hsqrt _ hoz).2
  have hd := half_vector_symmetric ext.sqrt _ _ hi ho
  rw [FVec3.sum_comm ((base.shading_coord.global_to_local wo).normalize ext.sqrt)
    ((base.shading_coord.global_to_local wi).normalize ext.sqrt), hd]
  generalize (base.shading_coord.global_to_local wi).normalize ext.sqrt = a
  generalize (base.shading_coord.global_to_local wo).normalize ext.sqrt = b
  rw [DisneyBRDF.f_diffuse_comm (ext.one_minus_5 (cos_theta b)) (ext.one_minus_5 (cos_theta a)),
    DisneyBRDF.f_subsurface_comm (cos_theta b) (cos_theta a),
    mul_comm (ext.smith_anisotropic_gtr2 _ _ _ _ (cos_2_sin ext.sqrt (cos_theta b) / cos_theta b)),
    mul_comm (ext.smith_gtr2 (cos_2_sin ext.sqrt (cos_theta b) / cos_theta b) _),
    mul_right_comm 4 (cos_theta b) (cos_theta a)]

/-- The factor `local_angle::normal_corr_factor` is `1` when the shading normal is the
geometric normal and `EPS` is positive. -/
theorem normal_corr_factor_same (sqrt : R → R) (EPS : R) (hEPS : 0 < EPS) (n wi : FVec3 R) :
    normal_corr_factor sqrt EPS n n wi = 1 := by
  unfold normal_corr_factor
  by_cases h : abs (FVec3.cos sqrt n wi) < EPS
  · rw [if_pos h]
  · rw [if_neg h, abs_div, abs_abs]
    exact div_self (ne_of_gt (lt_of_lt_of_le hEPS (not_lt.1 h)))

/-- Claim C38, reciprocity of the Disney BRDF: when the shading frame is the geometric
frame, outside the black-fringe case, for an exact square root and a positive `EPS`,
`DisneyBRDF::eval(wi, wo, mode)` equals `DisneyBRDF::eval(wo, wi, mode)`, whatever the two
transport modes. -/
theorem DisneyBRDF_eval_reciprocal (ext : DisneyExt R) (base : LocalBSDF R)
    (self : DisneyBRDF R) (wi wo : FVec3 R) (mode mode' : TransMode)
    (hsqrt : ∀ x, 0 ≤ x → 0 ≤ ext.sqrt x ∧ ext.sqrt x * ext.sqrt x = x)
    (hEPS : 0 < ext.EPS) (hframe : base.shading_coord = base.geometry_coord)
    (hf1 : ext.cause_black_fringes wi wo = false)
    (hf2 : ext.cause_black_fringes wo wi = false) :
    self.eval ext base wi wo mode = self.eval ext base wo wi mode' := by
  unfold DisneyBRDF.eval
  simp only [hf1, hf2, Bool.false_eq_true, if_false]
  rw [DisneyBRDF.eval_val_symmetric ext base self wi wo hsqrt]
  cases self.eval_val ext base wo wi with
  | none => rfl
  | some val =>
    simp only [normal_corr_factor_coord, hframe, normal_corr_factor_same ext.sqrt ext.EPS hEPS]

/-- Witness for claim C38: the sample `DisneyBRDF` over `ℝ` in the standard frame, for the
directions `(0, 0, 1)` and `(0, 1, 1)`. -/
theorem DisneyBRDF_eval_reciprocal_witness :
    ((0 : ℝ) < (sample_disney_ext Real.sqrt).EPS ∧
        (sample_frame : LocalBSDF ℝ).shading_coord = (sample_frame : LocalBSDF ℝ).geometry_coord ∧
        (sample_disney_ext Real.sqrt).cause_black_fringes ⟨0, 0, 1⟩ ⟨0, 1, 1⟩ = false) ∧
      (sample_brdf Real.sqrt).eval (sample_disney_ext Real.sqrt) sample_frame
          ⟨0, 0, 1⟩ ⟨0, 1, 1⟩ TransMode.Radiance
        = (sample_brdf Real.sqrt).eval (sample_disney_ext Real.sqrt) sample_frame
          ⟨0, 1, 1⟩ ⟨0, 0, 1⟩ TransMode.Importance := by
  have hE : (0 : ℝ) < (sample_disney_ext Real.sqrt).EPS := by
    show (0 : ℝ) < 1 / 1000
    norm_num
  exact ⟨⟨hE, rfl, rfl⟩,
    DisneyBRDF_eval_reciprocal (sample_disney_ext Real.sqrt) sample_frame
      (sample_brdf Real.sqrt) ⟨0, 0, 1⟩ ⟨0, 1, 1⟩ TransMode.Radiance TransMode.Importance
      (fun x hx => ⟨Real.sqrt_nonneg x, Real.mul_self_sqrt hx⟩) hE rfl rfl rfl⟩

end Reciprocity

/-! ## Theorems: the slab test of `AABB` -/

section SlabTest

variable {R : Type} [LinearOrderedField R]

/-- One axis of the slab test: for a non-zero direction component and `lo ≤ hi`, the point
`o + t * d` lies in `[lo, hi]` exactly when `t` lies between the two slab distances. -/
theorem slab_axis (lo hi o d t : R) (hd : d ≠ 0) (hlh : lo ≤ hi) :
    (lo ≤ o + t * d ∧ o + t * d ≤ hi) ↔
      (min (1 / d * (lo - o)) (1 / d * (hi - o)) ≤ t
        ∧ t ≤ max (1 / d * (lo - o)) (1 / d * (hi - o))) := by
  have e1 : 1 / d * (lo - o) * d = lo - o := by field_simp
  have e2 : 1 / d * (hi - o) * d = hi - o := by field_simp
  rcases lt_or_gt_of_ne hd with hneg | hpos
  · have hinv : 1 / d < 0 := one_div_neg.2 hneg
    have hle : 1 / d * (hi - o) ≤ 1 / d * (lo - o) :=
      mul_le_mul_of_nonpos_left (by linarith) (le_of_lt hinv)
    rw [min_eq_right hle, max_eq_left hle]
    constructor
    · rintro ⟨h1, h2⟩
      constructor
      · by_contra hc
        have := mul_lt_mul_of_neg_right (lt_of_not_le hc) hneg
        linarith
      · by_contra hc
        have := mul_lt_mul_of_neg_right (lt_of_not_le hc) hneg
        linarith
    · rintro ⟨h1, h2⟩
      have a1 := mul_le_mul_of_nonpos_right h1 (le_of_lt hneg)
      have a2 := mul_le_mul_of_nonpos_right h2 (le_of_lt hneg)
      constructor <;> linarith
  · have hinv : 0 < 1 / d := one_div_pos.2 hpos
    have hle : 1 / d * (lo - o) ≤ 1 / d * (hi - o) :=
      mul_le_mul_of_nonneg_left (by linarith) (le_of_lt hinv)
    rw [min_eq_left hle, max_eq_right hle]
    constructor
    · rintro ⟨h1, h2⟩
      constructor
      · by_contra hc
        have := mul_lt_mul_of_pos_right (lt_of_not_le hc) hpos
        linarith
      · by_contra hc
        have := mul_lt_mul_of_pos_right (lt_of_not_le hc) hpos
        linarith
    · rintro ⟨h1, h2⟩
      have a1 := mul_le_mul_of_nonneg_right h1 (le_of_lt hpos)
      have a2 := mul_le_mul_of_nonneg_right h2 (le_of_lt hpos)
      constructor <;> linarith

/-- Claim C39, slab test: for a box with `low ≤ high` component-wise, a direction `d` with
non-zero components and `inv_dir = 1 / d` component-wise, `AABB::intersect(ori, inv_dir,
t_min, t_max)` returns `true` if and only if some `t` in `[t_min, t_max]` has
`AABB::contains(ori + t * d)`. -/
theorem AABB_intersect_iff (self : AABB R) (ori d inv_dir : FVec3 R) (t_min t_max : R)
    (hx : self.low.x ≤ self.high.x) (hy : self.low.y ≤ self.high.y)
    (hz : self.low.z ≤ self.high.z)
    (hdx : d.x ≠ 0) (hdy : d.y ≠ 0) (hdz : d.z ≠ 0)
    (hinv : inv_dir = ⟨1 / d.x, 1 / d.y, 1 / d.z⟩) :
    self.intersect ori inv_dir t_min t_max = true ↔
      ∃ t, t_min ≤ t ∧ t ≤ t_max ∧ self.contains (ori + FVec3.smul t d) = true := by
  have hcont : ∀ t, self.contains (ori + FVec3.smul t d) = true ↔
      (self.low.x ≤ ori.x + t * d.x ∧ ori.x + t * d.x ≤ self.high.x)
        ∧ (self.low.y ≤ ori.y + t * d.y ∧ ori.y + t * d.y ≤ self.high.y)
        ∧ (self.low.z ≤ ori.z + t * d.z ∧ ori.z + t * d.z ≤ self.high.z) := by
    intro t
    unfold AABB.contains
    simp only [Bool.and_eq_true, decide_eq_true_eq]
    constructor
    · rintro ⟨⟨⟨⟨⟨h1, h2⟩, h3⟩, h4⟩, h5⟩, h6⟩
      exact ⟨⟨h1, h2⟩, ⟨h3, h4⟩, ⟨h5, h6⟩⟩
    · rintro ⟨⟨h1, h2⟩, ⟨h3, h4⟩, ⟨h5, h6⟩⟩
      exact ⟨⟨⟨⟨⟨h1, h2⟩, h3⟩, h4⟩, h5⟩, h6⟩
  have hint : self.intersect ori inv_dir t_min t_max = true ↔
      max (max t_min (min (1 / d.x * (self.low.x - ori.x)) (1 / d.x * (self.high.x - ori.x))))
        (max (max t_min
            (min (1 / d.y * (self.low.y - ori.y)) (1 / d.y * (self.high.y - ori.y))))
          (max t_min
            (min (1 / d.z * (self.low.z - ori.z)) (1 / d.z * (self.high.z - ori.z)))))
      ≤ min (min t_max
          (max (1 / d.x * (self.low.x - ori.x)) (1 / d.x * (self.high.x - ori.x))))
        (min (min t_max
            (max (1 / d.y * (self.low.y - ori.y)) (1 / d.y * (self.high.y - ori.y))))
          (min t_max
            (max (1 / d.z * (self.low.z - ori.z)) (1 / d.z * (self.high.z - ori.z))))) := by
    rw [hinv]
    unfold AABB.intersect
    simp only [decide_eq_true_eq]
    rfl
  rw [hint]
  simp only [hcont, slab_axis _ _ _ _ _ hdx hx, slab_axis _ _ _ _ _ hdy hy,
    slab_axis _ _ _ _ _ hdz hz]
  constructor
  · intro h
    refine ⟨max (max t_min
          (min (1 / d.x * (self.low.x - ori.x)) (1 / d.x * (self.high.x - ori.x))))
        (max (max t_min
            (min (1 / d.y * (self.low.y - ori.y)) (1 / d.y * (self.high.y - ori.y))))
          (max t_min
            (min (1 / d.z * (self.low.z - ori.z)) (1 / d.z * (self.high.z - ori.z))))),
        ?_, ?_, ?_⟩
    · exact le_trans (le_max_left _ _) (le_max_left _ _)
    · exact le_trans h (le_trans (min_le_left _ _) (min_le_left _ _))
    · refine ⟨⟨?_, ?_⟩, ⟨?_, ?_⟩, ⟨?_, ?_⟩⟩
      · exact le_trans (le_max_right _ _) (le_max_left _ _)
      · exact le_trans h (le_trans (min_le_left _ _) (min_le_right _ _))
      · exact le_trans (le_max_right _ _) (le_trans (le_max_left _ _) (le_max_right _ _))
      · exact le_trans h (le_trans (min_le_right _ _)
          (le_trans (min_le_left _ _) (min_le_right _ _)))
      · exact le_trans (le_max_right _ _) (le_trans (le_max_right _ _) (le_max_right _ _))
      · exact le_trans h (le_trans (min_le_right _ _)
          (le_trans (min_le_right _ _) (min_le_right _ _)))
  · rintro ⟨t, h1, h2, ⟨hx1, hx2⟩, ⟨hy1, hy2⟩, ⟨hz1, hz2⟩⟩
    exact le_trans
      (max_le (max_le h1 hx1) (max_le (max_le h1 hy1) (max_le h1 hz1)))
      (le_min (le_min h2 hx2) (le_min (le_min h2 hy2) (le_min h2 hz2)))

/-- Witness for claim C39: the unit cube and the ray from `(-1, 1/2, 1/2)` along
`(1, 1/4, 1/4)`, which enters the cube at `t = 1`. -/
theorem AABB_intersect_iff_witness :
    (sample_box.low.x ≤ sample_box.high.x ∧ (1 : ℚ) ≠ 0 ∧ (1 / 4 : ℚ) ≠ 0) ∧
      (sample_box.intersect ⟨-1, 1 / 2, 1 / 2⟩ ⟨1 / 1, 1 / (1 / 4), 1 / (1 / 4)⟩ 0 2 = true ↔
        ∃ t : ℚ, 0 ≤ t ∧ t ≤ 2 ∧
          sample_box.contains ((⟨-1, 1 / 2, 1 / 2⟩ : FVec3 ℚ)
            + FVec3.smul t ⟨1, 1 / 4, 1 / 4⟩) = true) := by
  have h1 : (1 : ℚ) ≠ 0 := by norm_num
  have h4 : (1 / 4 : ℚ) ≠ 0 := by norm_num
  have hb : sample_box.low.x ≤ sample_box.high.x := by decide!
  exact ⟨⟨hb, h1, h4⟩,
    AABB_intersect_iff sample_box ⟨-1, 1 / 2, 1 / 2⟩ ⟨1, 1 / 4, 1 / 4⟩ _ 0 2 hb (by decide!)
      (by decide!) h1 h4 h4 rfl⟩

end SlabTest

/-! ## Theorems: the emission point of the sky -/

section Sky

variable {R : Type} [LinearOrderedField R]

/-- Two vectors with equal components are equal. -/
theorem FVec3.eq_of_components {K : Type} (a b : FVec3 K) (hx : a.x = b.x) (hy : a.y = b.y)
    (hz : a.z = b.z) : a = b := by
  cases a
  cases b
  simp only at hx hy hz
  rw [hx, hy, hz]

/-- Rule of Cramer for the third unknown of a system of three equations with columns `a`,
`b`, `c` and right side `m`: with the value `t = tdet / det` that `emit_pos` computes, the
other two unknowns exist. -/
theorem cramer_third (a1 a2 a3 b1 b2 b3 c1 c2 c3 m1 m2 m3 t : R)
    (hdet : c1 * (a2 * b3 - a3 * b2) - c2 * (a1 * b3 - a3 * b1) + c3 * (a1 * b2 - a2 * b1) ≠ 0)
    (ht : t = (m1 * (a2 * b3 - a3 * b2) - m2 * (a1 * b3 - a3 * b1) + m3 * (a1 * b2 - a2 * b1))
      / (c1 * (a2 * b3 - a3 * b2) - c2 * (a1 * b3 - a3 * b1) + c3 * (a1 * b2 - a2 * b1))) :
    ∃ u v : R, a1 * u + b1 * v + c1 * t = m1 ∧ a2 * u + b2 * v + c2 * t = m2
      ∧ a3 * u + b3 * v + c3 * t = m3 := by
  refine ⟨(m1 * (b2 * c3 - b3 * c2) - m2 * (b1 * c3 - b3 * c1) + m3 * (b1 * c2 - b2 * c1))
      / (c1 * (a2 * b3 - a3 * b2) - c2 * (a1 * b3 - a3 * b1) + c3 * (a1 * b2 - a2 * b1)),
    (m1 * (c2 * a3 - c3 * a2) - m2 * (c1 * a3 - c3 * a1) + m3 * (c1 * a2 - c2 * a1))
      / (c1 * (a2 * b3 - a3 * b2) - c2 * (a1 * b3 - a3 * b1) + c3 * (a1 * b2 - a2 * b1)),
    ?_, ?_, ?_⟩
  · rw [ht]
    field_simp
    ring
  · rw [ht]
    field_simp
    ring
  · rw [ht]
    field_simp
    ring

/-- The determinant that `emit_pos` divides by is not zero for an orthonormal frame and a
non-zero radius. -/
theorem frame_det_ne_zero (x1 x2 x3 y1 y2 y3 d1 d2 d3 r : R) (hr : r ≠ 0)
    (hxx : x1 * x1 + x2 * x2 + x3 * x3 = 1) (hyy : y1 * y1 + y2 * y2 + y3 * y3 = 1)
    (hdd : d1 * d1 + d2 * d2 + d3 * d3 = 1) (hxy : x1 * y1 + x2 * y2 + x3 * y3 = 0)
    (hxd : x1 * d1 + x2 * d2 + x3 * d3 = 0) (hyd : y1 * d1 + y2 * d2 + y3 * d3 = 0) :
    -d1 * (r * x2 * (r * y3) - r * x3 * (r * y2)) - -d2 * (r * x1 * (r * y3) - r * x3 * (r * y1))
      + -d3 * (r * x1 * (r * y2) - r * x2 * (r * y1)) ≠ 0 := by
  have gram : (d1 * (x2 * y3 - x3 * y2) - d2 * (x1 * y3 - x3 * y1) + d3 * (x1 * y2 - x2 * y1))
      * (d1 * (x2 * y3 - x3 * y2) - d2 * (x1 * y3 - x3 * y1) + d3 * (x1 * y2 - x2 * y1))
      = (x1 * x1 + x2 * x2 + x3 * x3) * (y1 * y1 + y2 * y2 + y3 * y3)
          * (d1 * d1 + d2 * d2 + d3 * d3)
        + 2 * (x1 * y1 + x2 * y2 + x3 * y3) * (y1 * d1 + y2 * d2 + y3 * d3)
          * (x1 * d1 + x2 * d2 + x3 * d3)
        - (x1 * x1 + x2 * x2 + x3 * x3) * (y1 * d1 + y2 * d2 + y3 * d3) ^ 2
        - (y1 * y1 + y2 * y2 + y3 * y3) * (x1 * d1 + x2 * d2 + x3 * d3) ^ 2
        - (d1 * d1 + d2 * d2 + d3 * d3) * (x1 * y1 + x2 * y2 + x3 * y3) ^ 2 := by
    ring
  rw [hxx, hyy, hdd, hxy, hxd, hyd] at gram
  have hdelta : d1 * (x2 * y3 - x3 * y2) - d2 * (x1 * y3 - x3 * y1) + d3 * (x1 * y2 - x2 * y1)
      ≠ 0 := by
    intro h0
    rw [h0] at gram
    norm_num at gram
  have hform : -d1 * (r * x2 * (r * y3) - r * x3 * (r * y2))
      - -d2 * (r * x1 * (r * y3) - r * x3 * (r * y1))
      + -d3 * (r * x1 * (r * y2) - r * x2 * (r * y1))
      = -(r * r) * (d1 * (x2 * y3 - x3 * y2) - d2 * (x1 * y3 - x3 * y1)
        + d3 * (x1 * y2 - x2 * y1)) := by
    ring
  rw [hform]
  exact mul_ne_zero (neg_ne_zero.2 (mul_ne_zero hr hr)) hdelta

/-- Claim C33, `NativeSky::emit_pos(ref, ref_to_light)` for an orthonormal frame
`(ex, ey, d) = from_z(ref_to_light)` and a non-zero world radius: the returned point is
`pos = ref + t * d` for a `t` that, with some `u` and `v`, solves
`o + r * (u * ex + v * ey + d) = ref + t * d`; so `pos` lies on the line through `ref` along
`d` and `dot(pos - (o + r * d), d) = 0`; and the returned normal is `-d`. -/
theorem NativeSky_emit_pos_spec (from_z : FVec3 R → Coord R) (self : NativeSky R)
    (ref ref_to_light : FVec3 R) (hr : self.world_radius ≠ 0)
    (hxx : (from_z ref_to_light).x.dot (from_z ref_to_light).x = 1)
    (hyy : (from_z ref_to_light).y.dot (from_z ref_to_light).y = 1)
    (hdd : (from_z ref_to_light).z.dot (from_z ref_to_light).z = 1)
    (hxy : (from_z ref_to_light).x.dot (from_z ref_to_light).y = 0)
    (hxd : (from_z ref_to_light).x.dot (from_z ref_to_light).z = 0)
    (hyd : (from_z ref_to_light).y.dot (from_z ref_to_light).z = 0) :
    (∃ u v t : R,
        self.world_centre + FVec3.smul self.world_radius
            (FVec3.smul u (from_z ref_to_light).x + FVec3.smul v (from_z ref_to_light).y
              + (from_z ref_to_light).z)
          = ref + FVec3.smul t (from_z ref_to_light).z ∧
        (self.emit_pos from_z ref ref_to_light).pos
          = ref + FVec3.smul t (from_z ref_to_light).z) ∧
      ((self.emit_pos from_z ref ref_to_light).pos
          - (self.world_centre
            + FVec3.smul self.world_radius (from_z ref_to_light).z)).dot
        (from_z ref_to_light).z = 0 ∧
      (self.emit_pos from_z ref ref_to_light).nor = (from_z ref_to_light).z.neg := by
  have hdet := frame_det_ne_zero _ _ _ _ _ _ _ _ _ self.world_radius hr hxx hyy hdd hxy hxd hyd
  obtain ⟨u, v, e1, e2, e3⟩ := cramer_third
    (self.world_radius * (from_z ref_to_light).x.x) (self.world_radius * (from_z ref_to_light).x.y)
    (self.world_radius * (from_z ref_to_light).x.z) (self.world_radius * (from_z ref_to_light).y.x)
    (self.world_radius * (from_z ref_to_light).y.y) (self.world_radius * (from_z ref_to_light).y.z)
    (-(from_z ref_to_light).z.x) (-(from_z ref_to_light).z.y) (-(from_z ref_to_light).z.z)
    (ref.x - self.world_centre.x - self.world_radius * (from_z ref_to_light).z.x)
    (ref.y - self.world_centre.y - self.world_radius * (from_z ref_to_light).z.y)
    (ref.z - self.world_centre.z - self.world_radius * (from_z ref_to_light).z.z)
    (self.emit_t from_z ref ref_to_light) hdet rfl
  have hline : self.world_centre + FVec3.smul self.world_radius
        (FVec3.smul u (from_z ref_to_light).x + FVec3.smul v (from_z ref_to_light).y
          + (from_z ref_to_light).z)
      = (self.emit_pos from_z ref ref_to_light).pos := by
    apply FVec3.eq_of_components
    · show self.world_centre.x + self.world_radius
          * (u * (from_z ref_to_light).x.x + v * (from_z ref_to_light).y.x
            + (from_z ref_to_light).z.x)
        = ref.x + self.emit_t from_z ref ref_to_light * (from_z ref_to_light).z.x
      linear_combination e1
    · show self.world_centre.y + self.world_radius
          * (u * (from_z ref_to_light).x.y + v * (from_z ref_to_light).y.y
            + (from_z ref_to_light).z.y)
        = ref.y + self.emit_t from_z ref ref_to_light * (from_z ref_to_light).z.y
      linear_combination e2
    · show self.world_centre.z + self.world_radius
          * (u * (from_z ref_to_light).x.z + v * (from_z ref_to_light).y.z
            + (from_z ref_to_light).z.z)
        = ref.z + self.emit_t from_z ref ref_to_light * (from_z ref_to_light).z.z
      linear_combination e3
  refine ⟨⟨u, v, _, hline, rfl⟩, ?_, rfl⟩
  rw [← hline]
  have hxd1 : (from_z ref_to_light).x.x * (from_z ref_to_light).z.x
      + (from_z ref_to_light).x.y * (from_z ref_to_light).z.y
      + (from_z ref_to_light).x.z * (from_z ref_to_light).z.z = 0 := hxd
  have hyd1 : (from_z ref_to_light).y.x * (from_z ref_to_light).z.x
      + (from_z ref_to_light).y.y * (from_z ref_to_light).z.y
      + (from_z ref_to_light).y.z * (from_z ref_to_light).z.z = 0 := hyd
  show (self.world_centre.x + self.world_radius
          * (u * (from_z ref_to_light).x.x + v * (from_z ref_to_light).y.x
            + (from_z ref_to_light).z.x)
        - (self.world_centre.x + self.world_radius * (from_z ref_to_light).z.x))
        * (from_z ref_to_light).z.x
      + (self.world_centre.y + self.world_radius
          * (u * (from_z ref_to_light).x.y + v * (from_z ref_to_light).y.y
            + (from_z ref_to_light).z.y)
        - (self.world_centre.y + self.world_radius * (from_z ref_to_light).z.y))
        * (from_z ref_to_light).z.y
      + (self.world_centre.z + self.world_radius
          * (u * (from_z ref_to_light).x.z + v * (from_z ref_to_light).y.z
            + (from_z ref_to_light).z.z)
        - (self.world_centre.z + self.world_radius * (from_z ref_to_light).z.z))
        * (from_z ref_to_light).z.z = 0
  linear_combination (self.world_radius * u) * hxd1 + (self.world_radius * v) * hyd1

/-- Witness for claim C33: the sky of radius `2` around the origin, the standard frame and
the reference point `(1, 1, 1)`: the emission point is `(1, 1, 2)`. -/
theorem NativeSky_emit_pos_spec_witness :
    (sample_sky.world_radius ≠ 0 ∧
        FVec3.dot (⟨1, 0, 0⟩ : FVec3 ℚ) ⟨0, 1, 0⟩ = 0 ∧
        FVec3.dot (⟨0, 0, 1⟩ : FVec3 ℚ) ⟨0, 0, 1⟩ = 1) ∧
      (sample_sky.emit_pos (fun _ => (sample_frame : LocalBSDF ℚ).shading_coord)
        ⟨1, 1, 1⟩ ⟨0, 0, 1⟩).pos = ⟨1, 1, 2⟩ ∧
      (sample_sky.emit_pos (fun _ => (sample_frame : LocalBSDF ℚ).shading_coord)
        ⟨1, 1, 1⟩ ⟨0, 0, 1⟩).nor = FVec3.neg ⟨0, 0, 1⟩ := by
  have h := NativeSky_emit_pos_spec (fun _ => (sample_frame : LocalBSDF ℚ).shading_coord)
    sample_sky ⟨1, 1, 1⟩ ⟨0, 0, 1⟩ (by decide!) (by decide!) (by decide!) (by decide!)
    (by decide!) (by decide!) (by decide!)
  exact ⟨⟨by decide!, by decide!, by decide!⟩, by decide!, h.2.2⟩

end Sky

/-! ## Theorems: one photon and the cells of a pixel -/

section CellCollisions

variable {R : Type} [LinearOrderedField R]

/-- The nodes of a pixel among `k` copies of one node followed by a list. -/
theorem node_count_replicate (k p : Nat) (l : List VPNode) (i : Nat) :
    node_count (List.replicate k (⟨p⟩ : VPNode) ++ l) i
      = (if p = i then k else 0) + node_count l i := by
  induction k with
  | zero =>
    rw [List.replicate_zero, List.nil_append]
    split_ifs <;> omega
  | succ n ih =>
    rw [List.replicate_succ, List.cons_append, node_count_cons, ih]
    show (if p = i then n else 0) + node_count l i + (if p = i then 1 else 0) = _
    split_ifs <;> omega

/-- The bucket `e` after `add_vp` of pixel `p`: `cells_in_bucket` new nodes of `p`, then the
bucket as before. -/
theorem add_vp_entries (s : VisiblePointSearcher R) (pixels : Nat → Pixel R) (p e : Nat) :
    (s.add_vp pixels p).node_entries e
      = List.replicate (cells_in_bucket s pixels p e) (⟨p⟩ : VPNode) ++ s.node_entries e := by
  rw [add_vp_eq_foldl_cells]
  exact foldl_push_cells _ p _ s e

/-- The nodes of pixel `i` in bucket `e` after `add_vp` for each pixel of a list: as many
as the list names `i`, times the cells of its box that hash to `e`, besides those already
there. -/
theorem foldl_add_vp_node_count (s : VisiblePointSearcher R) (pixels : Nat → Pixel R)
    (e i : Nat) (ps : List Nat) :
    ∀ st : VisiblePointSearcher R, st.hashed_grid_aux = s.hashed_grid_aux →
      (ps.foldl (fun st p => st.add_vp pixels p) st).hashed_grid_aux = s.hashed_grid_aux ∧
      node_count ((ps.foldl (fun st p => st.add_vp pixels p) st).node_entries e) i
        = ps.count i * cells_in_bucket s pixels i e + node_count (st.node_entries e) i := by
  induction ps with
  | nil =>
    intro st hst
    exact ⟨hst, by simp⟩
  | cons p rest ih =>
    intro st hst
    have hg : (st.add_vp pixels p).hashed_grid_aux = s.hashed_grid_aux := by
      rw [add_vp_hashed_grid_aux, hst]
    obtain ⟨h1, h2⟩ := ih (st.add_vp pixels p) hg
    rw [List.foldl_cons]
    refine ⟨h1, ?_⟩
    rw [h2, add_vp_entries, node_count_replicate, List.count_cons]
    have hc : cells_in_bucket st pixels p e = cells_in_bucket s pixels p e := by
      unfold cells_in_bucket
      rw [hst]
    rw [hc]
    by_cases hp : p = i
    · rw [if_pos hp, hp]
      simp only [beq_self_eq_true, if_true]
      ring
    · rw [if_neg hp]
      have hb : (p == i) = false := by simpa using hp
      simp only [hb, Bool.false_eq_true, if_false]
      ring

/-- On a list without repetition, a property that at most one element has is counted at
most once. -/
theorem countP_le_one_of_unique {α : Type} (q : α → Bool) (l : List α) (hnd : l.Nodup)
    (huniq : ∀ a ∈ l, ∀ b ∈ l, q a = true → q b = true → a = b) : l.countP q ≤ 1 := by
  induction l with
  | nil => simp
  | cons a rest ih =>
    rw [List.countP_cons]
    have hrest := ih (List.Nodup.of_cons hnd)
      (fun x hx y hy => huniq x (List.mem_cons_of_mem _ hx) y (List.mem_cons_of_mem _ hy))
    by_cases ha : q a = true
    · have hzero : rest.countP q = 0 := by
        rw [List.countP_eq_zero]
        intro b hb hqb
        have hab := huniq a (List.mem_cons_self _ _) b (List.mem_cons_of_mem _ hb) ha hqb
        rw [← hab] at hb
        exact (List.nodup_cons.1 hnd).1 hb
      rw [hzero, if_pos ha]
    · rw [if_neg ha]
      omega

/-- Counterexample to claim C34 as stated: the box of pixel `0` of the sample store covers
27 cells that the sample grid hashes into 8 buckets, 7 of them into the bucket of the
origin; after `clear()` and `add_vp` of that one pixel, one photon at the origin raises the
pixel's `M` by 7. -/
theorem add_photon_counts_colliding_cells :
    ((build_searcher (sample_searcher (fun _ => [])) sample_pixels [0]).add_photon sample_eval
        ⟨0, 0, 0⟩ (FSpectrum.splat 2) ⟨0, 0, 1⟩ sample_pixels).map (fun px => (px 0).M)
      = some ((sample_pixels 0).M + 7) := by
  decide!

/-- Claim C34 as amended: after `clear()` and `add_vp` of distinct pixels, one `add_photon`
call changes a pixel as `photon_effect` does for as many nodes as cells of the pixel's box
hash to the photon's bucket: `M` grows by at most that number; when no two cells of the
pixel's box hash to the same bucket, `M` grows by at most `1` and the pixel is either
unchanged or has received one deposit. -/
theorem add_photon_counts_cells (s : VisiblePointSearcher R) (pixels0 : Nat → Pixel R)
    (ps : List Nat) (hnd : ps.Nodup)
    (bsdf_eval : Nat → FVec3 R → FVec3 R → TransMode → FSpectrum R)
    (pos : FVec3 R) (flux : FSpectrum R) (wr : FVec3 R) (pixels pixels' : Nat → Pixel R)
    (h : (build_searcher s pixels0 ps).add_photon bsdf_eval pos flux wr pixels = some pixels')
    (i : Nat) :
    pixels' i = photon_effect bsdf_eval pos flux wr
        (if i ∈ ps then cells_in_bucket s pixels0 i (s.hashed_grid_aux.pos_to_entry pos) else 0)
        (pixels i) ∧
      (pixels i).M ≤ (pixels' i).M ∧
      (pixels' i).M ≤ (pixels i).M
        + (cells_in_bucket s pixels0 i (s.hashed_grid_aux.pos_to_entry pos) : Int) ∧
      ((∀ c ∈ box_cells
            (s.hashed_grid_aux.pos_to_grid
              ((pixels0 i).vp.pos - FVec3.splat (pixels0 i).radius))
            (s.hashed_grid_aux.pos_to_grid
              ((pixels0 i).vp.pos + FVec3.splat (pixels0 i).radius)),
          ∀ c' ∈ box_cells
            (s.hashed_grid_aux.pos_to_grid
              ((pixels0 i).vp.pos - FVec3.splat (pixels0 i).radius))
            (s.hashed_grid_aux.pos_to_grid
              ((pixels0 i).vp.pos + FVec3.splat (pixels0 i).radius)),
          s.hashed_grid_aux.grid_to_entry c = s.hashed_grid_aux.grid_to_entry c' → c = c') →
        (pixels' i).M ≤ (pixels i).M + 1 ∧
        (pixels' i = pixels i ∨ ∃ delta, pixels' i = Pixel.deposit (pixels i) delta)) := by
  obtain ⟨hgrid, hcount⟩ := foldl_add_vp_node_count s pixels0
    (s.hashed_grid_aux.pos_to_entry pos) i ps s.clear rfl
  have hcount1 : node_count ((build_searcher s pixels0 ps).node_entries
      ((build_searcher s pixels0 ps).hashed_grid_aux.pos_to_entry pos)) i
      = (if i ∈ ps then cells_in_bucket s pixels0 i (s.hashed_grid_aux.pos_to_entry pos)
        else 0) := by
    have hg : (build_searcher s pixels0 ps).hashed_grid_aux = s.hashed_grid_aux := hgrid
    rw [hg]
    have hc : node_count ((build_searcher s pixels0 ps).node_entries
        (s.hashed_grid_aux.pos_to_entry pos)) i
        = ps.count i * cells_in_bucket s pixels0 i (s.hashed_grid_aux.pos_to_entry pos)
          + node_count (s.clear.node_entries (s.hashed_grid_aux.pos_to_entry pos)) i := hcount
    rw [hc]
    have hz : node_count (s.clear.node_entries (s.hashed_grid_aux.pos_to_entry pos)) i = 0 := rfl
    rw [hz, Nat.add_zero]
    by_cases hi : i ∈ ps
    · rw [if_pos hi, List.count_eq_one_of_mem hnd hi, Nat.one_mul]
    · rw [if_neg hi, List.count_eq_zero_of_not_mem hi, Nat.zero_mul]
  have hpix : pixels' i = photon_effect bsdf_eval pos flux wr
      (if i ∈ ps then cells_in_bucket s pixels0 i (s.hashed_grid_aux.pos_to_entry pos) else 0)
      (pixels i) := by
    have h1 := add_photon_eq (build_searcher s pixels0 ps) bsdf_eval ⟨pos, flux, wr⟩ pixels
    have h2 : (build_searcher s pixels0 ps).add_photon bsdf_eval pos flux wr pixels
        = some pixels' := h
    rw [h2] at h1
    split_ifs at h1 with hf
    injection h1 with h1
    rw [h1]
    show photon_effect bsdf_eval pos flux wr
      (node_count ((build_searcher s pixels0 ps).node_entries
        ((build_searcher s pixels0 ps).hashed_grid_aux.pos_to_entry pos)) i) (pixels i) = _
    rw [hcount1]
  have hK : (if i ∈ ps then cells_in_bucket s pixels0 i (s.hashed_grid_aux.pos_to_entry pos)
      else 0) ≤ cells_in_bucket s pixels0 i (s.hashed_grid_aux.pos_to_entry pos) := by
    split_ifs
    · exact le_refl _
    · exact Nat.zero_le _
  have hM : ∀ k : Nat, (pixels i).M ≤ (photon_effect bsdf_eval pos flux wr k (pixels i)).M ∧
      (photon_effect bsdf_eval pos flux wr k (pixels i)).M ≤ (pixels i).M + (k : Int) := by
    intro k
    rcases photon_effect_cases bsdf_eval pos flux wr (pixels i) with hc | ⟨d, hc⟩
    · rw [hc k (pixels i) rfl rfl]
      omega
    · rw [hc k (pixels i) rfl rfl]
      show (pixels i).M ≤ (pixels i).M + (k : Int) ∧ (pixels i).M + (k : Int) ≤ _
      omega
  refine ⟨hpix, ?_, ?_, ?_⟩
  · rw [hpix]
    exact (hM _).1
  · rw [hpix]
    have hKi : ((if i ∈ ps then cells_in_bucket s pixels0 i (s.hashed_grid_aux.pos_to_entry pos)
        else 0 : Nat) : Int)
        ≤ (cells_in_bucket s pixels0 i (s.hashed_grid_aux.pos_to_entry pos) : Int) :=
      Int.ofNat_le.2 hK
    exact le_trans (hM _).2 (by omega)
  · intro hinj
    have hone : cells_in_bucket s pixels0 i (s.hashed_grid_aux.pos_to_entry pos) ≤ 1 := by
      unfold cells_in_bucket
      refine countP_le_one_of_unique _ _ (box_cells_facts _ _).2.1 ?_
      intro a ha b hb hqa hqb
      have ea : s.hashed_grid_aux.grid_to_entry a = s.hashed_grid_aux.pos_to_entry pos := by
        simpa using hqa
      have eb : s.hashed_grid_aux.grid_to_entry b = s.hashed_grid_aux.pos_to_entry pos := by
        simpa using hqb
      exact hinj a ha b hb (ea.trans eb.symm)
    have hK1 : (if i ∈ ps then cells_in_bucket s pixels0 i (s.hashed_grid_aux.pos_to_entry pos)
        else 0) ≤ 1 := le_trans hK hone
    rw [hpix]
    constructor
    · have hKi : ((if i ∈ ps then
          cells_in_bucket s pixels0 i (s.hashed_grid_aux.pos_to_entry pos) else 0 : Nat) : Int)
          ≤ 1 := by
        have := Int.ofNat_le.2 hK1
        simpa using this
      exact le_trans (hM _).2 (by omega)
    · generalize (if i ∈ ps then cells_in_bucket s pixels0 i (s.hashed_grid_aux.pos_to_entry pos)
        else 0) = k at hK1
      rcases Nat.le_one_iff_eq_zero_or_eq_one.1 hK1 with hk | hk
      · left
        rw [hk, photon_effect_zero]
      · rcases photon_effect_cases bsdf_eval pos flux wr (pixels i) with hc | ⟨d, hc⟩
        · left
          exact hc k (pixels i) rfl rfl
        · right
          refine ⟨d.scale ((1 : Nat) : R), ?_⟩
          rw [hc k (pixels i) rfl rfl, hk]
          rfl

/-- Witness for claim C34 as amended: pixel `0` of the sample store, one photon at the
origin. -/
theorem add_photon_counts_cells_witness :
    ∃ pixels', (build_searcher (sample_searcher (fun _ => [])) sample_pixels [0]).add_photon
        sample_eval ⟨0, 0, 0⟩ (FSpectrum.splat 2) ⟨0, 0, 1⟩ sample_pixels = some pixels' ∧
      [0].Nodup ∧ (sample_pixels 0).M ≤ (pixels' 0).M := by
  obtain ⟨pixels', h⟩ := Option.isSome_iff_exists.1
    (show ((build_searcher (sample_searcher (fun _ => [])) sample_pixels [0]).add_photon
      sample_eval ⟨0, 0, 0⟩ (FSpectrum.splat 2) ⟨0, 0, 1⟩ sample_pixels).isSome = true by
      decide!)
  exact ⟨pixels', h, List.nodup_singleton 0,
    (add_photon_counts_cells (sample_searcher (fun _ => [])) sample_pixels [0]
      (List.nodup_singleton 0) sample_eval ⟨0, 0, 0⟩ (FSpectrum.splat 2) ⟨0, 0, 1⟩ sample_pixels
      pixels' h 0).2.1⟩

end CellCollisions

end Atrc
